import Mathlib

/-! Timer wheel of `lispd/lib/timers.c`

A shallow embedding of the timer wheel: the wheel record `timer_wheel`, the
spoke array, the timers allocated on the heap and the functions
`lmtimers_init`, `lmtimer_create`, `insert_timer`, `lmtimer_start`,
`lmtimer_stop` and `handle_timers`.

Memory is modelled field by field: every field of `lmtimer_links_t` and of
`lmtimer_t` is a map from addresses to values.  An address is either a spoke
of the wheel (`&timer_wheel.spokes[i]`) or a timer returned by
`lmtimer_create`; the null pointer is `none`.  An access the C program may not
perform (null or freed pointer, spoke index out of range, a field of
`lmtimer_t` read through a spoke, a division by zero) ends the run with
`Err.fault`.  The `while` loops take a fuel argument and end with `Err.fuel`
when it is used up.
-/

namespace Timers

/-- Address of a list node: a spoke of the wheel (a bare `lmtimer_links_t`) or
a timer (`lmtimer_t`, whose first member is its `links`). -/
inductive Ptr where
  | spoke (i : Nat)
  | timer (a : Nat)
  deriving DecidableEq, Repr

/-- Ways in which a run ends without a result. -/
inductive Err where
  | fault
  | fuel
  deriving DecidableEq, Repr

/-- One invocation `(*callback)(tptr, tptr->cb_argument)`. -/
structure Call where
  cb : Nat
  tptr : Nat
  arg : Nat
  deriving DecidableEq, Repr

/-- The global `timer_wheel` together with the memory it points into.
`num_spokes` and `current_spoke` are the non-negative `int` fields of the
wheel.  The maps `links_next` to `name` are the members of `lmtimer_t` (and,
for the two links, of the spokes) that `timers.c` uses; `timers.h` declares
them, `duration` and `rotation_count` are taken to be `int`.  `live` tells
which timers are allocated, `brk` is the next address `xzalloc` hands out.
`calls` and `visits` are ghost fields: the callback invocations made so far
and the timers the loop of `handle_timers` has looked at, oldest first. -/
structure World where
  num_spokes : Nat
  current_spoke : Nat
  running_timers : Int
  expirations : Int
  live : Nat → Bool
  links_next : Ptr → Option Ptr
  links_prev : Ptr → Option Ptr
  duration : Nat → Int
  rotation_count : Nat → Int
  cb : Nat → Option Nat
  cb_argument : Nat → Nat
  owner : Nat → Nat
  name : Nat → List Char
  brk : Nat
  calls : List Call
  visits : List Nat

/-- A call of the timer interface made by a callback. -/
inductive Op where
  | start (tptr : Nat) (sexpiry : Int) (cb : Option Nat) (owner : Nat) (cb_arg : Nat)
  | stop (tptr : Option Nat)
  deriving DecidableEq, Repr

/-- The code behind the callback addresses: what the callback at address `cb`
does when invoked with `(tptr, cb_argument)`. -/
abbrev Callbacks := Nat → Nat → Nat → List Op

/-- The constant `WHEEL_SIZE` (`#define WHEEL_SIZE 4096`). -/
def WHEEL_SIZE : Nat := 4096

/-- Conversion of an `int` to `uint32_t`. -/
def u32 (x : Int) : Nat := (x % 4294967296).toNat

/-- Conversion of a `uint32_t` value to `int`. -/
def i32 (x : Nat) : Int :=
  if x % 4294967296 < 2147483648 then ((x % 4294967296 : Nat) : Int)
  else ((x % 4294967296 : Nat) : Int) - 4294967296

/-- May the node at `p` be accessed: a spoke inside the array, a timer that
is allocated and not freed. -/
def valid (w : World) : Ptr → Bool
  | .spoke i => decide (i < w.num_spokes)
  | .timer a => w.live a

/-- The store `p->next = v`. -/
def setNext (w : World) (p : Ptr) (v : Option Ptr) : World :=
  { w with links_next := Function.update w.links_next p v }

/-- The store `p->prev = v`. -/
def setPrev (w : World) (p : Ptr) (v : Option Ptr) : World :=
  { w with links_prev := Function.update w.links_prev p v }

/-- The wheel part of `lmtimers_init` (lines 109-120) for a wheel of `size`
spokes: every spoke is linked to itself, the counters are zero. -/
def wheel_init (size : Nat) : World :=
  { num_spokes := size
    current_spoke := 0
    running_timers := 0
    expirations := 0
    live := fun _ => false
    links_next := fun p =>
      match p with
      | .spoke i => if i < size then some (.spoke i) else none
      | .timer _ => none
    links_prev := fun p =>
      match p with
      | .spoke i => if i < size then some (.spoke i) else none
      | .timer _ => none
    duration := fun _ => 0
    rotation_count := fun _ => 0
    cb := fun _ => none
    cb_argument := fun _ => 0
    owner := fun _ => 0
    name := fun _ => []
    brk := 0
    calls := []
    visits := [] }

/-- The wheel after a successful `lmtimers_init`. -/
def lmtimers_init : World := wheel_init WHEEL_SIZE

/-- Function `lmtimer_create`: a zeroed timer at a fresh address, its name cut to
`TIMER_NAME_LEN - 1` characters, both links null.  `TIMER_NAME_LEN` is
declared in `timers.h` and is a parameter here. -/
def lmtimer_create (TIMER_NAME_LEN : Nat) (name : List Char) (w : World) : Nat × World :=
  (w.brk,
   { w with
     live := Function.update w.live w.brk true
     links_next := Function.update w.links_next (.timer w.brk) none
     links_prev := Function.update w.links_prev (.timer w.brk) none
     duration := Function.update w.duration w.brk 0
     rotation_count := Function.update w.rotation_count w.brk 0
     cb := Function.update w.cb w.brk none
     cb_argument := Function.update w.cb_argument w.brk 0
     owner := Function.update w.owner w.brk 0
     name := Function.update w.name w.brk (name.take (TIMER_NAME_LEN - 1))
     brk := w.brk + 1 })

/-- Function `insert_timer` (lines 174-203): the arithmetic is done in `uint32_t`. -/
def insert_timer (w : World) (tptr : Nat) : Except Err World :=
  if w.live tptr = false then .error .fault else
  let ticks := u32 (w.duration tptr)
  let n := w.num_spokes % 4294967296
  if n = 0 then .error .fault else
  let td := ticks % n
  let w1 := { w with rotation_count := Function.update w.rotation_count tptr (i32 (ticks / n)) }
  let pos := ((w1.current_spoke + td) % 4294967296) % n
  let spoke := Ptr.spoke pos
  if valid w1 spoke = false then .error .fault else
  let prev := w1.links_prev spoke
  let w2 := setNext w1 (.timer tptr) (some spoke)
  let w3 := setPrev w2 (.timer tptr) prev
  match prev with
  | none => .error .fault
  | some pv =>
    if valid w3 pv = false then .error .fault else
    let w4 := setNext w3 pv (some (.timer tptr))
    .ok (setPrev w4 spoke (some (.timer tptr)))

/-- Function `lmtimer_start` (lines 212-240). -/
def lmtimer_start (w : World) (tptr : Nat) (sexpiry : Int) (cb : Option Nat)
    (owner : Nat) (cb_arg : Nat) : Except Err World :=
  if w.live tptr = false then .error .fault else
  let next := w.links_next (.timer tptr)
  let unlinked : Except Err World :=
    match next with
    | none => .ok w
    | some nx =>
      let prev := w.links_prev (.timer tptr)
      if valid w nx = false then .error .fault else
      let wa := setPrev w nx prev
      match prev with
      | none => .error .fault
      | some pv =>
        if valid wa pv = false then .error .fault else
        let wb := setNext wa pv next
        .ok { wb with running_timers := wb.running_timers - 1 }
  match unlinked with
  | .error e => .error e
  | .ok w1 =>
    let w2 := { w1 with
      owner := Function.update w1.owner tptr owner
      cb := Function.update w1.cb tptr cb
      cb_argument := Function.update w1.cb_argument tptr cb_arg
      duration := Function.update w1.duration tptr sexpiry }
    match insert_timer w2 tptr with
    | .error e => .error e
    | .ok w3 => .ok { w3 with running_timers := w3.running_timers + 1 }

/-- Lines 257-271 of `lmtimer_stop`: unlink the timer from its neighbours,
clear its links, adjust the statistics. -/
def stop_unlink (w : World) (tptr : Nat) : Except Err World :=
  if w.live tptr = false then .error .fault else
  let next := w.links_next (.timer tptr)
  let prev := w.links_prev (.timer tptr)
  let s1 : Except Err World :=
    match next with
    | none => .ok w
    | some nx => if valid w nx = false then .error .fault else .ok (setPrev w nx prev)
  match s1 with
  | .error e => .error e
  | .ok w1 =>
    let s2 : Except Err World :=
      match prev with
      | none => .ok w1
      | some pv => if valid w1 pv = false then .error .fault else .ok (setNext w1 pv next)
    match s2 with
    | .error e => .error e
    | .ok w2 =>
      let w3 := setPrev (setNext w2 (.timer tptr) none) (.timer tptr) none
      if next ≠ none ∨ prev ≠ none then
        .ok { w3 with running_timers := w3.running_timers - 1 }
      else .ok w3

/-- The call `free(tptr)`. -/
def free (w : World) (tptr : Nat) : World :=
  { w with live := Function.update w.live tptr false }

/-- Function `lmtimer_stop` (lines 248-273). -/
def lmtimer_stop (w : World) (tptr : Option Nat) : Except Err World :=
  match tptr with
  | none => .ok w
  | some t =>
    match stop_unlink w t with
    | .error e => .error e
    | .ok w1 => .ok (free w1 t)

/-- Run one interface call of a callback. -/
def Op.run (w : World) : Op → Except Err World
  | .start tptr sexpiry cb owner cb_arg => lmtimer_start w tptr sexpiry cb owner cb_arg
  | .stop tptr => lmtimer_stop w tptr

/-- Run the interface calls of a callback in order. -/
def runOps : List Op → World → Except Err World
  | [], w => .ok w
  | op :: ops, w =>
    match op.run w with
    | .error e => .error e
    | .ok w1 => runOps ops w1

/-- The read `prev->next` that ends an iteration of the loop. -/
def readNext (w : World) (prev : Option Ptr) : Except Err (Option Ptr) :=
  match prev with
  | none => .error .fault
  | some pv => if valid w pv = false then .error .fault else .ok (w.links_next pv)

/-- One iteration of the `while` loop of `handle_timers` (lines 296-317) on
the node `tptr`; the result is the new memory and the next `tptr`. -/
def walk_body (env : Callbacks) (w : World) (tptr : Option Ptr) :
    Except Err (World × Option Ptr) :=
  match tptr with
  | none => .error .fault
  | some (.spoke _) => .error .fault
  | some (.timer a) =>
    if w.live a = false then .error .fault else
    let w0 := { w with visits := w.visits ++ [a] }
    let next := w0.links_next (.timer a)
    let prev := w0.links_prev (.timer a)
    if (0 : Int) < w0.rotation_count a then
      let w1 := { w0 with
        rotation_count := Function.update w0.rotation_count a (w0.rotation_count a - 1) }
      match readNext w1 prev with
      | .error e => .error e
      | .ok t => .ok (w1, t)
    else
      match prev, next with
      | some pv, some nx =>
        if valid w0 pv = false then .error .fault else
        let w1 := setNext w0 pv next
        if valid w1 nx = false then .error .fault else
        let w2 := setPrev w1 nx prev
        let w3 := setPrev (setNext w2 (.timer a) none) (.timer a) none
        let w4 := { w3 with
          running_timers := w3.running_timers - 1
          expirations := w3.expirations + 1 }
        match w4.cb a with
        | none => .error .fault
        | some c =>
          let w5 := { w4 with calls := w4.calls ++ [⟨c, a, w4.cb_argument a⟩] }
          match runOps (env c a (w4.cb_argument a)) w5 with
          | .error e => .error e
          | .ok w6 =>
            match readNext w6 prev with
            | .error e => .error e
            | .ok t => .ok (w6, t)
      | _, _ => .error .fault

/-- The `while` loop of `handle_timers` (lines 295-318). -/
def walk (env : Callbacks) : Nat → Ptr → Option Ptr → World → Except Err World
  | 0, _, _, _ => .error .fuel
  | fuel + 1, current_spoke, tptr, w =>
    if tptr = some current_spoke then .ok w else
    match walk_body env w tptr with
    | .error e => .error e
    | .ok (w1, t) => walk env fuel current_spoke t w1

/-- Function `handle_timers` (lines 282-319): advance the wheel by one spoke and walk its list. -/
def handle_timers (env : Callbacks) (fuel : Nat) (w : World) : Except Err World :=
  if w.num_spokes = 0 then .error .fault else
  let w1 := { w with current_spoke := (w.current_spoke + 1) % w.num_spokes }
  let current_spoke := Ptr.spoke w1.current_spoke
  if valid w1 current_spoke = false then .error .fault else
  walk env fuel current_spoke (w1.links_next current_spoke) w1

/-- Run `k` ticks, each with the same fuel. -/
def ticks (env : Callbacks) (fuel : Nat) : Nat → World → Except Err World
  | 0, w => .ok w
  | k + 1, w =>
    match handle_timers env fuel w with
    | .error e => .error e
    | .ok w1 => ticks env fuel k w1

/-- A callback table in which no callback touches the wheel. -/
def quiet : Callbacks := fun _ _ _ => []

/-- Two nodes are neighbours: `x->next = y` and `y->prev = x`, both accessible. -/
def Linked (w : World) (x y : Ptr) : Prop :=
  valid w x = true ∧ valid w y = true ∧ w.links_next x = some y ∧ w.links_prev y = some x

/-- The nodes of the circular list of spoke `i` holding the timers `l`, from
the spoke round to the spoke again. -/
def ring (i : Nat) (l : List Nat) : List Ptr :=
  Ptr.spoke i :: (l.map Ptr.timer ++ [Ptr.spoke i])

/-- The memory `w` represents the wheel whose spoke `i` holds the timers
`slots i` in list order.  The timer `x`, when given, is exempt from the rule
that a timer outside every list has null links. -/
structure AbsX (x : Option Nat) (w : World) (slots : Nat → List Nat) : Prop where
  npos : 0 < w.num_spokes
  nlt : w.num_spokes < 2147483648
  cur : w.current_spoke < w.num_spokes
  seg : ∀ i, i < w.num_spokes → List.Chain' (Linked w) (ring i (slots i))
  out : ∀ i, w.num_spokes ≤ i → slots i = []
  nodup : ∀ i, (slots i).Nodup
  disj : ∀ i j a, a ∈ slots i → a ∈ slots j → i = j
  idle : ∀ a, w.live a = true → some a ≠ x → (∀ i, a ∉ slots i) →
    w.links_next (.timer a) = none ∧ w.links_prev (.timer a) = none
  fresh : ∀ a, w.brk ≤ a → w.live a = false

/-- The memory `w` is a well-formed wheel with the lists `slots`. -/
abbrev Abs (w : World) (slots : Nat → List Nat) : Prop := AbsX none w slots

/-- The four stores of `insert_timer` that append `t` to the list of spoke
`pos`, whose last node is `pv`. -/
def linkTail (w : World) (t pos : Nat) (pv : Ptr) : World :=
  setPrev (setNext (setPrev (setNext w (.timer t) (some (.spoke pos))) (.timer t) (some pv))
    pv (some (.timer t))) (.spoke pos) (some (.timer t))

/-- The two stores that take a node out of its list: `prev->next = next` and
`next->prev = prev`. -/
def unlinkW (w : World) (pv nx : Ptr) : World :=
  setPrev (setNext w pv (some nx)) nx (some pv)

/-- The spoke `insert_timer` computes for a timer of duration `d` (line 193). -/
def slotOf (w : World) (d : Int) : Nat :=
  ((w.current_spoke + u32 d % (w.num_spokes % 4294967296)) % 4294967296) %
    (w.num_spokes % 4294967296)

/-- The rotation count `insert_timer` computes for a timer of duration `d`
(line 190). -/
def rotOf (w : World) (d : Int) : Int := i32 (u32 d / (w.num_spokes % 4294967296))

/-- The lists of the wheel after the timer `t` left its list. -/
def eraseT (slots : Nat → List Nat) (t : Nat) : Nat → List Nat :=
  fun j => (slots j).erase t

/-- The lists of the wheel after the timer `t` joined the tail of spoke `pos`. -/
def appendT (slots : Nat → List Nat) (pos t : Nat) : Nat → List Nat :=
  Function.update slots pos (slots pos ++ [t])

/-- The stores `tptr->links.next = NULL; tptr->links.prev = NULL`. -/
def clearLinks (w : World) (t : Nat) : World :=
  setPrev (setNext w (.timer t) none) (.timer t) none

/-- The store `tptr->rotation_count = r`. -/
def setRot (w : World) (t : Nat) (r : Int) : World :=
  { w with rotation_count := Function.update w.rotation_count t r }

/-- The stores of `lmtimer_start` into the timer (lines 230-235). -/
def arm (w : World) (t : Nat) (sexpiry : Int) (cb : Option Nat) (owner cb_arg : Nat) : World :=
  { w with
    owner := Function.update w.owner t owner
    cb := Function.update w.cb t cb
    cb_argument := Function.update w.cb_argument t cb_arg
    duration := Function.update w.duration t sexpiry }

/-- The state `lmtimer_start` leaves when the timer was idle and the last
node of the target spoke is `pv`. -/
def startW (w : World) (t : Nat) (sexpiry : Int) (cb : Option Nat) (owner cb_arg : Nat)
    (pv : Ptr) : World :=
  let w3 := linkTail (setRot (arm w t sexpiry cb owner cb_arg) t (rotOf w sexpiry)) t
    (slotOf w sexpiry) pv
  { w3 with running_timers := w3.running_timers + 1 }

/-- The state after the unlinking branch of `lmtimer_start` (lines 222-227). -/
def restartW (w : World) (pv nx : Ptr) : World :=
  { unlinkW w pv nx with running_timers := w.running_timers - 1 }

/-- The state after lines 257-271 of `lmtimer_stop` for a linked timer whose
neighbours are `pv` and `nx`. -/
def stopW (w : World) (t : Nat) (pv nx : Ptr) : World :=
  { clearLinks (unlinkW w pv nx) t with running_timers := w.running_timers - 1 }

/-- A wheel of eight spokes on which one timer, at address `0`, has been
created and not yet started. -/
def oneTimer : World := (lmtimer_create 64 [] (wheel_init 8)).2

/-- The ghost record that the loop of `handle_timers` looks at timer `a`. -/
def visit (w : World) (a : Nat) : World :=
  { w with visits := w.visits ++ [a] }

/-- The state in which `handle_timers` invokes the callback `c` of the due
timer `a`, whose neighbours are `pv` and `nx` (lines 303-312). -/
def expireW (w : World) (a : Nat) (pv nx : Ptr) (c : Nat) : World :=
  let w3 := clearLinks (unlinkW (visit w a) pv nx) a
  { w3 with
    running_timers := w3.running_timers - 1
    expirations := w3.expirations + 1
    calls := w3.calls ++ [⟨c, a, w3.cb_argument a⟩] }

/-- The node `tptr` is the first node after the sentinel of the current
spoke of a well-formed wheel. -/
def AtHead (w : World) (tptr : Option Ptr) : Prop :=
  ∃ slots, Abs w slots ∧ w.links_next (.spoke w.current_spoke) = tptr

/-- The node `tptr` is the sentinel of the current spoke of a well-formed
wheel or a timer linked in the list of the current spoke. -/
def InCurrent (w : World) (tptr : Option Ptr) : Prop :=
  ∃ slots, Abs w slots ∧
    (tptr = some (.spoke w.current_spoke) ∨
      ∃ a, a ∈ slots w.current_spoke ∧ tptr = some (.timer a))

/-- The iteration on the node `tptr` fails for a reason that lies with the
callback of the timer `tptr`: the callback pointer is null, or one of the
interface calls that the callback makes fails. -/
def CallbackFault (env : Callbacks) (w : World) (tptr : Option Ptr) : Prop :=
  ∃ a, tptr = some (.timer a) ∧
    (w.cb a = none ∨
      ∃ c pv nx e, w.cb a = some c ∧ w.links_prev (.timer a) = some pv ∧
        w.links_next (.timer a) = some nx ∧
        runOps (env c a (w.cb_argument a)) (expireW w a pv nx c) = .error e)

/-- The property `P` holds of the memory and the node at the start of every
iteration that `walk` makes, the last test of the loop condition included,
and an iteration that fails does so by a `CallbackFault`. -/
def walkAll (P : World → Option Ptr → Prop) (env : Callbacks) :
    Nat → Ptr → Option Ptr → World → Prop
  | 0, _, _, _ => True
  | fuel + 1, current_spoke, tptr, w =>
    P w tptr ∧
    (if tptr = some current_spoke then True else
      match walk_body env w tptr with
      | .error _ => CallbackFault env w tptr
      | .ok (w1, t) => walkAll P env fuel current_spoke t w1)

/-- No callback of the table calls the timer interface. -/
def Quiet (env : Callbacks) : Prop := ∀ c t a, env c t a = []

/-- Every timer linked in the wheel has a callback installed. -/
def CbOk (w : World) (slots : Nat → List Nat) : Prop :=
  ∀ i a, a ∈ slots i → ∃ c, w.cb a = some c

/-- The invocation that the expiry of timer `a` makes in the state `w`. -/
def callOf (w : World) (a : Nat) : Call :=
  ⟨(w.cb a).getD 0, a, w.cb_argument a⟩

/-- The invocations in `l` that were made for timer `t`. -/
def callsFor (t : Nat) (l : List Call) : List Call :=
  l.filter (fun x => decide (x.tptr = t))

/-- The state `w'` differs from `w` by the expiry, in this order, of the
timers `l`: their callbacks were invoked, the counters moved, and nothing
else of the timers' data changed except the rotation counts of `l`. -/
structure Fired (w w' : World) (l : List Nat) : Prop where
  num_spokes : w'.num_spokes = w.num_spokes
  current_spoke : w'.current_spoke = w.current_spoke
  live : w'.live = w.live
  brk : w'.brk = w.brk
  cb : w'.cb = w.cb
  cb_argument : w'.cb_argument = w.cb_argument
  duration : w'.duration = w.duration
  calls : w'.calls = w.calls ++ l.map (callOf w)
  running : w'.running_timers = w.running_timers - l.length
  expirations : w'.expirations = w.expirations + l.length
  rot : ∀ b, b ∉ l → w'.rotation_count b = w.rotation_count b

/-- The store `timer_wheel.current_spoke = c` (line 291). -/
def turnTo (w : World) (c : Nat) : World :=
  { w with current_spoke := c }

/-- The spoke the next tick makes current. -/
def nextSpoke (w : World) : Nat := (w.current_spoke + 1) % w.num_spokes

/-- The invocations recorded by a run that returned. -/
def callsOf : Except Err World → Option (List Call)
  | .ok w => some w.calls
  | .error _ => none

/-- The timers the loop of `handle_timers` looked at in a run that returned. -/
def visitsOf : Except Err World → Option (List Nat)
  | .ok w => some w.visits
  | .error _ => none

/-- The wheel of eight spokes on which timer `0` was started with duration
`d` and callback `1`. -/
def startedAt (d : Int) : World :=
  startW oneTimer 0 d (some 1) 0 0 (.spoke (slotOf oneTimer d))

/-- The wheel after `lmtimers_init` and `n` calls of `lmtimer_create`: the
timers `0 .. n-1` exist and none is started. -/
def created : Nat → World
  | 0 => lmtimers_init
  | n + 1 => (lmtimer_create 64 [] (created n)).2

/-- Run the steps of a scenario in order. -/
def script : List (World → Except Err World) → World → Except Err World
  | [], w => .ok w
  | f :: fs, w =>
    match f w with
    | .error e => .error e
    | .ok w1 => script fs w1

/-- Callbacks for the scenario of C5: callback `1` stops timer `1`, the other
callbacks do nothing. -/
def stopsSibling : Callbacks := fun c _ _ =>
  if c = 1 then [Op.stop (some 1)] else []

/-- Callbacks for the scenario of C6: callback `1` starts its own timer again
with duration 4097 and callback `2`, the other callbacks do nothing. -/
def rearmsItself : Callbacks := fun c t _ =>
  if c = 1 then [Op.start t 4097 (some 2) 0 0] else []

/-- Function `process_timer_signal` (lines 321-338).  The outcome of the
`read` on the descriptor is given: `bytes` is the count it returned and `sig`
the marker it stored.  `sizeof_sig` stands for `sizeof(sig)` and `SIGRTMIN`
for the signal number of the tick, both fixed by the platform.  The result is
the return value and the memory. -/
def process_timer_signal (env : Callbacks) (fuel : Nat) (sizeof_sig SIGRTMIN : Int)
    (bytes sig : Int) (w : World) : Except Err (Int × World) :=
  if bytes ≠ sizeof_sig then .ok (-1, w) else
  if sig = SIGRTMIN then
    match handle_timers env fuel w with
    | .error e => .error e
    | .ok w1 => .ok (0, w1)
  else .ok (0, w)

/-- The inner `while` loop of `lmtimers_destroy` (lines 145-150) on the list
of the spoke `spoke`, from the node `sit` on. -/
def destroy_spoke : Nat → Ptr → Option Ptr → World → Except Err World
  | 0, _, _, _ => .error .fuel
  | fuel + 1, spoke, sit, w =>
    if sit = some spoke then .ok w else
    match sit with
    | none => .error .fault
    | some (.spoke _) => .error .fault
    | some (.timer a) =>
      if w.live a = false then .error .fault else
      let next := w.links_next (.timer a)
      match lmtimer_stop w (some a) with
      | .error e => .error e
      | .ok w1 => destroy_spoke fuel spoke next w1

/-- The `for` loop of `lmtimers_destroy` (lines 142-152) over `count` spokes
from spoke `i` on. -/
def destroy_spokes (fuel : Nat) : Nat → Nat → World → Except Err World
  | 0, _, w => .ok w
  | count + 1, i, w =>
    if valid w (.spoke i) = false then .error .fault else
    match destroy_spoke fuel (.spoke i) (w.links_next (.spoke i)) w with
    | .error e => .error e
    | .ok w1 => destroy_spokes fuel count (i + 1) w1

/-- Function `lmtimers_destroy`, its walk over the `WHEEL_SIZE` spokes (lines
141-152).  The calls around the walk, `destroy_timers_event_socket`,
`free(timer_wheel.spokes)` and `timer_delete`, act on the operating system
and on the spoke array as a whole and are not part of the memory modelled
here. -/
def lmtimers_destroy (fuel : Nat) (w : World) : Except Err World :=
  destroy_spokes fuel WHEEL_SIZE 0 w

/-- An operation on the wheel made by the program between the ticks, or a
tick. -/
inductive Cmd where
  | create (TIMER_NAME_LEN : Nat) (name : List Char)
  | start (tptr : Nat) (sexpiry : Int) (cb : Option Nat) (owner : Nat) (cb_arg : Nat)
  | stop (tptr : Option Nat)
  | tick

/-- Run one operation. -/
def Cmd.run (env : Callbacks) (fuel : Nat) (w : World) : Cmd → Except Err World
  | .create len name => .ok (lmtimer_create len name w).2
  | .start tptr sexpiry cb owner cb_arg => lmtimer_start w tptr sexpiry cb owner cb_arg
  | .stop tptr => lmtimer_stop w tptr
  | .tick => handle_timers env fuel w

/-- Run a sequence of operations in order. -/
def runCmds (env : Callbacks) (fuel : Nat) : List Cmd → World → Except Err World
  | [], w => .ok w
  | c :: cs, w =>
    match c.run env fuel w with
    | .error e => .error e
    | .ok w1 => runCmds env fuel cs w1

/-- The number of timers linked in the spokes `0 .. n-1`. -/
def linkedCount (slots : Nat → List Nat) : Nat → Nat
  | 0 => 0
  | n + 1 => linkedCount slots n + (slots n).length

/-- The timer is scheduled: one of its links is set. -/
def isScheduled (w : World) (t : Nat) : Bool :=
  (w.links_next (.timer t)).isSome || (w.links_prev (.timer t)).isSome

/-- The number of calls of `lmtimer_start` in a sequence of operations. -/
def startCalls : List Cmd → Nat
  | [] => 0
  | .start _ _ _ _ _ :: cs => startCalls cs + 1
  | _ :: cs => startCalls cs

/-- The number of calls of `lmtimer_stop` in a sequence of operations. -/
def stopCalls : List Cmd → Nat
  | [] => 0
  | .stop _ :: cs => stopCalls cs + 1
  | _ :: cs => stopCalls cs

/-- The number of calls of `lmtimer_start` on a timer that was not scheduled
at the time, in a run of a sequence of operations. -/
def schedStarts (env : Callbacks) (fuel : Nat) : List Cmd → World → Nat
  | [], _ => 0
  | c :: cs, w =>
    (match c with
      | .start t _ _ _ _ => if isScheduled w t then 0 else 1
      | _ => 0) +
    (match c.run env fuel w with
      | .error _ => 0
      | .ok w1 => schedStarts env fuel cs w1)

/-- The number of calls of `lmtimer_stop` on a timer that was scheduled at
the time plus the number of callback invocations made by the ticks, in a run
of a sequence of operations. -/
def endings (env : Callbacks) (fuel : Nat) : List Cmd → World → Nat
  | [], _ => 0
  | c :: cs, w =>
    (match c with
      | .stop (some t) => if isScheduled w t then 1 else 0
      | .tick =>
        match handle_timers env fuel w with
        | .error _ => 0
        | .ok w1 => w1.calls.length - w.calls.length
      | _ => 0) +
    (match c.run env fuel w with
      | .error _ => 0
      | .ok w1 => endings env fuel cs w1)

/-- The memory of a run that returned. -/
def force : Except Err World → World
  | .ok w => w
  | .error _ => wheel_init 0

/-- Did the run return. -/
def returns : Except Err World → Bool
  | .ok _ => true
  | .error _ => false

/-- Callbacks for the scenario of C19: callback `1` starts timer `1` with
duration 8192, twice the number of spokes, and callback `2`; the other
callbacks do nothing. -/
def startsOther : Callbacks := fun c _ _ =>
  if c = 1 then [Op.start 1 8192 (some 2) 0 0] else []

/-- What the scenarios look at in a run that returned: whether timer `t` is
allocated, its links, its rotation count, and the two counters. -/
def stateOf (t : Nat) : Except Err World →
    Option (Bool × Option Ptr × Option Ptr × Int × Int × Int)
  | .ok w => some (w.live t, w.links_next (.timer t), w.links_prev (.timer t),
      w.rotation_count t, w.running_timers, w.expirations)
  | .error _ => none

/-- The counters of the wheel agree with its lists and its record of
invocations: `running_timers` is the number of linked timers, `expirations`
the number of callback invocations made so far. -/
def Counts (w : World) (slots : Nat → List Nat) : Prop :=
  w.running_timers = (linkedCount slots w.num_spokes : Int) ∧
    w.expirations = (w.calls.length : Int)

/-- A well-formed wheel whose counters agree with its lists. -/
def Good (w : World) : Prop := ∃ slots, Abs w slots ∧ Counts w slots

/-- The wheel is well formed, its counters agree with its lists and `tptr` is
the first node after the sentinel of the current spoke. -/
def GoodHead (w : World) (tptr : Option Ptr) : Prop :=
  ∃ slots, Abs w slots ∧ Counts w slots ∧ w.links_next (.spoke w.current_spoke) = tptr

/-- A sample run on a wheel: two timers are created and started, with
durations 1 and 2; a tick expires the first, the second is started again
twice, a third timer is created, started and stopped, and a tick follows. -/
def sampleRun : List Cmd :=
  [.create 64 [], .create 64 [], .start 0 1 (some 1) 0 0, .start 1 2 (some 2) 0 0, .tick,
    .start 1 3 (some 2) 0 0, .start 1 4 (some 2) 0 0, .create 64 [],
    .start 2 2 (some 3) 0 0, .stop (some 2), .tick]

/-- A run that creates a timer, starts it and starts it again while it is
scheduled. -/
def rearmRun : List Cmd :=
  [.create 64 [], .start 0 3 (some 1) 0 0, .start 0 5 (some 1) 0 0]

/-- The wheel of `WHEEL_SIZE` spokes on which timer `0` was created and then
started with duration 5 and callback `1`. -/
def bigStarted : World :=
  startW (created 1) 0 5 (some 1) 0 0 (.spoke (slotOf (created 1) 5))

/-- Callbacks that start timer `1` with duration 0 and callback `2` from the
callback `1`; the other callbacks do nothing. -/
def startsZero : Callbacks := fun c _ _ =>
  if c = 1 then [Op.start 1 0 (some 2) 0 0] else []

/-- Callbacks whose callback `1` starts its own timer again with duration 0
and the same callback. -/
def rearmsAtOnce : Callbacks := fun c t _ =>
  if c = 1 then [Op.start t 0 (some 1) 0 0] else []

/-- The timer `a` is alone in the current spoke of a well-formed wheel, due,
with callback `1` installed. -/
def Spinning (w : World) (a : Nat) : Prop :=
  ∃ slots, Abs w slots ∧ slots w.current_spoke = [a] ∧ w.rotation_count a = 0 ∧
    w.cb a = some 1

/-! ## Memory and list structure -/

@[simp] theorem valid_setNext (w : World) (p : Ptr) (v : Option Ptr) (q : Ptr) :
    valid (setNext w p v) q = valid w q := by
  cases q <;> rfl

@[simp] theorem valid_setPrev (w : World) (p : Ptr) (v : Option Ptr) (q : Ptr) :
    valid (setPrev w p v) q = valid w q := by
  cases q <;> rfl

theorem chain_frame {w w' : World} : ∀ {L : List Ptr}, List.Chain' (Linked w) L →
    (∀ x ∈ L, valid w' x = valid w x) →
    (∀ x ∈ L.dropLast, w'.links_next x = w.links_next x) →
    (∀ y ∈ L.tail, w'.links_prev y = w.links_prev y) → List.Chain' (Linked w') L
  | [], _, _, _, _ => List.chain'_nil
  | [_], _, _, _, _ => List.chain'_singleton _
  | x :: y :: L, h, hv, hn, hp => by
    rw [List.chain'_cons] at h ⊢
    obtain ⟨⟨h1, h2, h3, h4⟩, h⟩ := h
    refine ⟨⟨?_, ?_, ?_, ?_⟩, chain_frame h ?_ ?_ ?_⟩
    · rw [hv x (by simp)]; exact h1
    · rw [hv y (by simp)]; exact h2
    · rw [hn x (by simp)]; exact h3
    · rw [hp y (by simp)]; exact h4
    · intro z hz; exact hv z (List.mem_cons_of_mem _ hz)
    · intro z hz; exact hn z (by simp only [List.dropLast_cons₂]; exact List.mem_cons_of_mem _ hz)
    · intro z hz; exact hp z (by simp only [List.tail_cons] at hz ⊢; exact List.mem_cons_of_mem _ hz)

theorem mem_ring {i : Nat} {l : List Nat} {x : Ptr} :
    x ∈ ring i l ↔ x = .spoke i ∨ ∃ a ∈ l, x = .timer a := by
  simp only [ring, List.mem_cons, List.mem_append, List.mem_map, List.not_mem_nil, or_false]
  constructor
  · rintro (h | ⟨a, ha, rfl⟩ | h)
    · exact Or.inl h
    · exact Or.inr ⟨a, ha, rfl⟩
    · exact Or.inl h
  · rintro (h | ⟨a, ha, rfl⟩)
    · exact Or.inl h
    · exact Or.inr (Or.inl ⟨a, ha, rfl⟩)

theorem linkTail_next (w : World) (t pos : Nat) (pv x : Ptr) :
    (linkTail w t pos pv).links_next x =
      if x = pv then some (.timer t) else if x = .timer t then some (.spoke pos)
      else w.links_next x := by
  simp only [linkTail, setPrev, setNext, Function.update_apply]

theorem linkTail_prev (w : World) (t pos : Nat) (pv y : Ptr) :
    (linkTail w t pos pv).links_prev y =
      if y = .spoke pos then some (.timer t) else if y = .timer t then some pv
      else w.links_prev y := by
  simp only [linkTail, setPrev, setNext, Function.update_apply]

@[simp] theorem valid_linkTail (w : World) (t pos : Nat) (pv x : Ptr) :
    valid (linkTail w t pos pv) x = valid w x := by
  simp [linkTail]

/-- The spoke and the timers before the end of a list: its last node. -/
theorem front_last (i : Nat) (l : List Nat) :
    ∃ A pv, Ptr.spoke i :: l.map Ptr.timer = A ++ [pv] := by
  rcases List.eq_nil_or_concat (Ptr.spoke i :: l.map Ptr.timer) with h | ⟨A, pv, h⟩
  · simp at h
  · exact ⟨A, pv, by rw [h, List.concat_eq_append]⟩

theorem front_nodup {i : Nat} {l : List Nat} (h : l.Nodup) :
    (Ptr.spoke i :: l.map Ptr.timer).Nodup := by
  rw [List.nodup_cons]
  refine ⟨by simp, ?_⟩
  exact (List.nodup_map_iff (fun a b hab => by injection hab)).2 h

theorem back_nodup {i : Nat} {l : List Nat} (h : l.Nodup) :
    (l.map Ptr.timer ++ [Ptr.spoke i]).Nodup := by
  rw [List.nodup_append]
  refine ⟨(List.nodup_map_iff (fun a b hab => by injection hab)).2 h, by simp, ?_⟩
  intro x hx hy
  simp at hx hy
  obtain ⟨a, _, rfl⟩ := hx
  cases hy

theorem ring_eq_front (i : Nat) (l : List Nat) :
    ring i l = (Ptr.spoke i :: l.map Ptr.timer) ++ [Ptr.spoke i] := by
  simp [ring]

theorem AbsX.lt_of_mem {x : Option Nat} {w : World} {slots : Nat → List Nat}
    (h : AbsX x w slots) {i a : Nat} (ha : a ∈ slots i) : i < w.num_spokes := by
  by_contra hc
  rw [h.out i (Nat.le_of_not_lt hc)] at ha
  cases ha

theorem AbsX.linked_of_chain {x : Option Nat} {w : World} {slots : Nat → List Nat}
    (h : AbsX x w slots) {i : Nat} (hi : i < w.num_spokes) {p q : Ptr} {A B : List Ptr}
    (he : ring i (slots i) = A ++ p :: q :: B) : Linked w p q := by
  have := h.seg i hi
  rw [he, List.chain'_split, List.chain'_cons] at this
  exact this.2.1

theorem AbsX.live_of_mem {x : Option Nat} {w : World} {slots : Nat → List Nat}
    (h : AbsX x w slots) {i a : Nat} (ha : a ∈ slots i) : w.live a = true := by
  have hi := h.lt_of_mem ha
  obtain ⟨l1, l2, hl⟩ := List.append_of_mem ha
  have he : ring i (slots i) = (Ptr.spoke i :: l1.map Ptr.timer) ++ [Ptr.timer a] ++
      (l2.map Ptr.timer ++ [Ptr.spoke i]) := by
    simp [ring, hl]
  rcases front_last i l1 with ⟨A, pv, hA⟩
  rw [hA] at he
  have hl := h.linked_of_chain hi (A := A) (p := pv) (q := .timer a)
    (B := l2.map Ptr.timer ++ [Ptr.spoke i]) (by rw [he]; simp)
  exact hl.2.1

/-! ## Appending a timer to a spoke -/

theorem ring_ne_of_not_mem {slots : Nat → List Nat} {t : Nat} (ht : ∀ i, t ∉ slots i)
    {j : Nat} {x : Ptr} (hx : x ∈ ring j (slots j)) : x ≠ .timer t := by
  rcases mem_ring.1 hx with rfl | ⟨a, ha, rfl⟩
  · simp
  · intro h
    injection h with h
    exact ht j (h ▸ ha)

theorem AbsX.ring_disjoint {x : Option Nat} {w : World} {slots : Nat → List Nat}
    (h : AbsX x w slots) {i j : Nat} (hij : i ≠ j) {p : Ptr}
    (hp : p ∈ ring i (slots i)) : p ∉ ring j (slots j) := by
  intro hq
  rcases mem_ring.1 hp with rfl | ⟨a, ha, rfl⟩
  · rcases mem_ring.1 hq with h1 | ⟨b, _, h1⟩
    · injection h1 with h1
      exact hij h1
    · cases h1
  · rcases mem_ring.1 hq with h1 | ⟨b, hb, h1⟩
    · cases h1
    · injection h1 with h1
      exact hij (h.disj i j a ha (h1 ▸ hb))

/-- Appending the idle timer `t` to spoke `pos` keeps the wheel well formed. -/
theorem AbsX.linkTail {w : World} {slots : Nat → List Nat} {t pos : Nat}
    (h : AbsX (some t) w slots) (hl : w.live t = true) (ht : ∀ i, t ∉ slots i)
    (hpos : pos < w.num_spokes) :
    ∃ pv, w.links_prev (.spoke pos) = some pv ∧ valid w pv = true ∧
      Abs (Timers.linkTail w t pos pv) (Function.update slots pos (slots pos ++ [t])) := by
  obtain ⟨A, pv, hA⟩ := front_last pos (slots pos)
  have hring : ring pos (slots pos) = A ++ [pv, .spoke pos] := by
    rw [ring_eq_front, hA]; simp
  have hseg := h.seg pos hpos
  rw [hring, List.chain'_split, List.chain'_pair] at hseg
  obtain ⟨hchain, hlast⟩ := hseg
  have hpvmem : pv ∈ ring pos (slots pos) := by rw [hring]; simp
  have hpvt : pv ≠ .timer t := ring_ne_of_not_mem ht hpvmem
  have hnd : (A ++ [pv]).Nodup := hA ▸ front_nodup (h.nodup pos)
  refine ⟨pv, hlast.2.2.2, hlast.1, ?_⟩
  refine
    { npos := h.npos, nlt := h.nlt, cur := h.cur, seg := ?_, out := ?_, nodup := ?_,
      disj := ?_, idle := ?_, fresh := h.fresh }
  · intro i hi
    by_cases hip : i = pos
    · subst hip
      have hnew : ring i (Function.update slots i (slots i ++ [t]) i) =
          A ++ [pv, .timer t, .spoke i] := by
        rw [Function.update_same, ring_eq_front, List.map_append, ← List.cons_append, hA]
        simp
      rw [hnew, List.chain'_split, List.chain'_cons, List.chain'_pair]
      refine ⟨chain_frame hchain (fun _ _ => valid_linkTail _ _ _ _ _) ?_ ?_, ?_, ?_⟩
      · intro y hy
        rw [List.dropLast_concat] at hy
        have hy1 : y ≠ pv := by
          intro hc; subst hc
          exact (List.nodup_append.1 hnd).2.2 hy (by simp)
        have hy2 : y ≠ .timer t :=
          ring_ne_of_not_mem ht (j := i) (by rw [hring]; simp [hy])
        rw [linkTail_next, if_neg hy1, if_neg hy2]
      · intro y hy
        rw [← hA, List.tail_cons] at hy
        obtain ⟨a, ha, rfl⟩ := List.mem_map.1 hy
        have hy2 : Ptr.timer a ≠ .timer t := by
          intro hc; injection hc with hc; exact ht i (hc ▸ ha)
        rw [linkTail_prev, if_neg (by simp), if_neg hy2]
      · refine ⟨by simpa using hlast.1, by simpa using hl, ?_, ?_⟩
        · rw [linkTail_next, if_pos rfl]
        · rw [linkTail_prev, if_neg (by simp), if_pos rfl]
      · refine ⟨by simpa using hl, by simpa using hlast.2.1, ?_, ?_⟩
        · rw [linkTail_next, if_neg (Ne.symm hpvt), if_pos rfl]
        · rw [linkTail_prev, if_pos rfl]
    · rw [Function.update_noteq hip]
      refine chain_frame (h.seg i hi) (fun _ _ => valid_linkTail _ _ _ _ _) ?_ ?_
      · intro y hy
        have hy0 : y ∈ ring i (slots i) := List.mem_of_mem_dropLast hy
        have hy1 : y ≠ pv := by
          intro hc; subst hc
          exact h.ring_disjoint hip hy0 hpvmem
        rw [linkTail_next, if_neg hy1, if_neg (ring_ne_of_not_mem ht hy0)]
      · intro y hy
        have hy0 : y ∈ ring i (slots i) := List.mem_of_mem_tail hy
        have hy1 : y ≠ .spoke pos := by
          intro hc; subst hc
          exact h.ring_disjoint hip hy0 (by simp [ring])
        rw [linkTail_prev, if_neg hy1, if_neg (ring_ne_of_not_mem ht hy0)]
  · intro i hi
    have hi' : w.num_spokes ≤ i := hi
    have hip : i ≠ pos := by omega
    rw [Function.update_noteq hip]
    exact h.out i hi
  · intro i
    by_cases hip : i = pos
    · subst hip
      rw [Function.update_same]
      exact List.Nodup.append (h.nodup i) (List.nodup_singleton t)
        (by simpa using ht i)
    · rw [Function.update_noteq hip]; exact h.nodup i
  · intro i j a hi hj
    have key : ∀ k, a ∈ Function.update slots pos (slots pos ++ [t]) k →
        (a = t ∧ k = pos) ∨ (a ≠ t ∧ a ∈ slots k) := by
      intro k hk
      by_cases hkp : k = pos
      · subst hkp
        rw [Function.update_same, List.mem_append, List.mem_singleton] at hk
        rcases hk with hk | hk
        · exact Or.inr ⟨fun hc => ht k (hc ▸ hk), hk⟩
        · exact Or.inl ⟨hk, rfl⟩
      · rw [Function.update_noteq hkp] at hk
        exact Or.inr ⟨fun hc => ht k (hc ▸ hk), hk⟩
    rcases key i hi with ⟨h1, h2⟩ | ⟨h1, h2⟩ <;> rcases key j hj with ⟨h3, h4⟩ | ⟨h3, h4⟩
    · rw [h2, h4]
    · exact absurd h1 h3
    · exact absurd h3 h1
    · exact h.disj i j a h2 h4
  · intro a ha _ hnot
    have hat : a ≠ t := by
      intro hc; subst hc
      exact hnot pos (by rw [Function.update_same]; simp)
    have hold : ∀ i, a ∉ slots i := by
      intro i hi
      by_cases hip : i = pos
      · subst hip
        exact hnot i (by rw [Function.update_same]; simp [hi])
      · exact hnot i (by rw [Function.update_noteq hip]; exact hi)
    obtain ⟨h1, h2⟩ := h.idle a ha (by simpa using hat) hold
    have hne : Ptr.timer a ≠ .timer t := by simpa using hat
    have hpv : Ptr.timer a ≠ pv := by
      intro hc
      rcases mem_ring.1 hpvmem with h3 | ⟨b, hb, h3⟩
      · rw [← hc] at h3; cases h3
      · rw [← hc] at h3; injection h3 with h3
        exact hold pos (h3 ▸ hb)
    rw [linkTail_next, linkTail_prev, if_neg hpv, if_neg hne, if_neg (by simp), if_neg hne]
    exact ⟨h1, h2⟩

/-! ## Taking a timer out of its list -/

theorem unlinkW_next (w : World) (pv nx x : Ptr) :
    (unlinkW w pv nx).links_next x = if x = pv then some nx else w.links_next x := by
  simp only [unlinkW, setPrev, setNext, Function.update_apply]

theorem unlinkW_prev (w : World) (pv nx y : Ptr) :
    (unlinkW w pv nx).links_prev y = if y = nx then some pv else w.links_prev y := by
  simp only [unlinkW, setPrev, setNext, Function.update_apply]

@[simp] theorem valid_unlinkW (w : World) (pv nx x : Ptr) :
    valid (unlinkW w pv nx) x = valid w x := by
  simp [unlinkW]

theorem unlinkW_comm (w : World) (pv nx : Ptr) :
    setNext (setPrev w nx (some pv)) pv (some nx) = unlinkW w pv nx := rfl

theorem AbsX.weaken {w : World} {slots : Nat → List Nat} (h : Abs w slots) (x : Option Nat) :
    AbsX x w slots :=
  { npos := h.npos, nlt := h.nlt, cur := h.cur, seg := h.seg, out := h.out, nodup := h.nodup,
    disj := h.disj, fresh := h.fresh,
    idle := fun a ha _ hn => h.idle a ha (by simp) hn }

theorem erase_mid {t : Nat} {l1 l2 : List Nat} (h : (l1 ++ t :: l2).Nodup) :
    (l1 ++ t :: l2).erase t = l1 ++ l2 := by
  have h1 : t ∉ l1 := by
    intro hc
    exact (List.nodup_append.1 h).2.2 hc (by simp)
  rw [List.erase_append_right _ h1, List.erase_cons_head]

/-- Unlinking the timer `t` of spoke `i` from its neighbours keeps the wheel
well formed, with `t` taken out of its list. -/
theorem AbsX.unlink {w : World} {slots : Nat → List Nat} {t i : Nat} {l1 l2 : List Nat}
    (h : AbsX (some t) w slots) (hs : slots i = l1 ++ t :: l2) :
    ∃ pv nx, w.links_prev (.timer t) = some pv ∧ w.links_next (.timer t) = some nx ∧
      valid w pv = true ∧ valid w nx = true ∧ w.live t = true ∧
      (Ptr.spoke i :: l1.map Ptr.timer).getLast? = some pv ∧
      (l2.map Ptr.timer ++ [Ptr.spoke i]).head? = some nx ∧
      AbsX (some t) (unlinkW w pv nx) (fun j => (slots j).erase t) := by
  have hti : t ∈ slots i := by rw [hs]; simp
  have hi : i < w.num_spokes := h.lt_of_mem hti
  have hnd : (l1 ++ t :: l2).Nodup := hs ▸ h.nodup i
  have ht1 : t ∉ l1 := fun hc => (List.nodup_append.1 hnd).2.2 hc (by simp)
  have ht2 : t ∉ l2 := by
    have := (List.nodup_append.1 hnd).2.1
    exact (List.nodup_cons.1 this).1
  have hd12 : ∀ a, a ∈ l1 → a ∈ l2 → False := fun a h1 h2 =>
    (List.nodup_append.1 hnd).2.2 h1 (List.mem_cons_of_mem _ h2)
  obtain ⟨A, pv, hA⟩ := front_last i l1
  obtain ⟨nx, B, hB⟩ : ∃ nx B, l2.map Ptr.timer ++ [Ptr.spoke i] = nx :: B := by
    cases l2 with
    | nil => exact ⟨_, _, rfl⟩
    | cons b l2 => exact ⟨_, _, rfl⟩
  have hring : ring i (slots i) = A ++ pv :: .timer t :: nx :: B := by
    have h0 : ring i (l1 ++ t :: l2) = (Ptr.spoke i :: l1.map Ptr.timer) ++
        (Ptr.timer t :: (l2.map Ptr.timer ++ [Ptr.spoke i])) := by
      simp [ring]
    rw [hs, h0, hA, hB]
    simp
  have hseg := h.seg i hi
  rw [hring, List.chain'_split, List.chain'_cons, List.chain'_cons] at hseg
  obtain ⟨hcA, hl1, hl2, hcB⟩ := hseg
  have hndA : (A ++ [pv]).Nodup := hA ▸ front_nodup (List.Nodup.of_append_left hnd)
  have hndB : (nx :: B).Nodup := by
    rw [← hB]
    exact back_nodup (List.nodup_cons.1 (List.Nodup.of_append_right hnd)).2
  have hAmem : ∀ y, y ∈ A ++ [pv] → y = .spoke i ∨ ∃ a ∈ l1, y = .timer a := by
    intro y hy
    rw [← hA] at hy
    simpa [eq_comm] using hy
  have hBmem : ∀ y, y ∈ nx :: B → y = .spoke i ∨ ∃ a ∈ l2, y = .timer a := by
    intro y hy
    rw [← hB] at hy
    simp only [List.mem_append, List.mem_map, List.mem_singleton] at hy
    rcases hy with ⟨a, ha, rfl⟩ | hy
    · exact Or.inr ⟨a, ha, rfl⟩
    · exact Or.inl hy
  have hpvA : pv ∈ A ++ [pv] := by simp
  have hnxB : nx ∈ nx :: B := by simp
  have herase : (slots i).erase t = l1 ++ l2 := by rw [hs]; exact erase_mid hnd
  have hpvring : pv ∈ ring i (slots i) := by rw [hring]; simp
  have hnxring : nx ∈ ring i (slots i) := by rw [hring]; simp
  refine ⟨pv, nx, hl1.2.2.2, hl2.2.2.1, hl1.1, hl2.2.1, hl1.2.1, ?_, ?_, ?_⟩
  · rw [hA]; simp
  · rw [hB]; rfl
  refine
    { npos := h.npos, nlt := h.nlt, cur := h.cur, seg := ?_, out := ?_, nodup := ?_,
      disj := ?_, idle := ?_, fresh := h.fresh }
  · intro j hj
    by_cases hji : j = i
    · subst hji
      have hnew : ring j ((slots j).erase t) = A ++ pv :: nx :: B := by
        have h0 : ring j (l1 ++ l2) =
            (Ptr.spoke j :: l1.map Ptr.timer) ++ (l2.map Ptr.timer ++ [Ptr.spoke j]) := by
          simp [ring]
        rw [herase, h0, hA, hB]
        simp
      rw [hnew, List.chain'_split, List.chain'_cons]
      refine ⟨chain_frame hcA (fun _ _ => valid_unlinkW _ _ _ _) ?_ ?_, ?_,
        chain_frame hcB (fun _ _ => valid_unlinkW _ _ _ _) ?_ ?_⟩
      · intro y hy
        rw [List.dropLast_concat] at hy
        have hy1 : y ≠ pv := by
          intro hc; subst hc
          exact (List.nodup_append.1 hndA).2.2 hy (by simp)
        rw [unlinkW_next, if_neg hy1]
      · intro y hy
        rw [← hA, List.tail_cons] at hy
        obtain ⟨a, ha, rfl⟩ := List.mem_map.1 hy
        have hy1 : Ptr.timer a ≠ nx := by
          intro hc
          rcases hBmem nx hnxB with h3 | ⟨b, hb, h3⟩
          · rw [← hc] at h3; cases h3
          · rw [← hc] at h3; injection h3 with h3
            exact hd12 a ha (h3 ▸ hb)
        rw [unlinkW_prev, if_neg hy1]
      · refine ⟨by simpa using hl1.1, by simpa using hl2.2.1, ?_, ?_⟩
        · rw [unlinkW_next, if_pos rfl]
        · rw [unlinkW_prev, if_pos rfl]
      · intro y hy
        have hyB : y ∈ l2.map Ptr.timer := by
          have : (nx :: B).dropLast = l2.map Ptr.timer := by
            rw [← hB, List.dropLast_concat]
          rw [this] at hy; exact hy
        obtain ⟨a, ha, rfl⟩ := List.mem_map.1 hyB
        have hy1 : Ptr.timer a ≠ pv := by
          intro hc
          rcases hAmem pv hpvA with h3 | ⟨b, hb, h3⟩
          · rw [← hc] at h3; cases h3
          · rw [← hc] at h3; injection h3 with h3
            exact hd12 a (h3 ▸ hb) ha
        rw [unlinkW_next, if_neg hy1]
      · intro y hy
        rw [List.tail_cons] at hy
        have hy1 : y ≠ nx := by
          intro hc; subst hc
          exact (List.nodup_cons.1 hndB).1 hy
        rw [unlinkW_prev, if_neg hy1]
    · have hnot : t ∉ slots j := fun hc => hji (h.disj j i t hc hti)
      have hsame : (slots j).erase t = slots j := List.erase_of_not_mem hnot
      show List.Chain' _ (ring j ((slots j).erase t))
      rw [hsame]
      refine chain_frame (h.seg j hj) (fun _ _ => valid_unlinkW _ _ _ _) ?_ ?_
      · intro y hy
        have hy0 : y ∈ ring j (slots j) := List.mem_of_mem_dropLast hy
        have hy1 : y ≠ pv := by
          intro hc; subst hc
          exact h.ring_disjoint hji hy0 hpvring
        rw [unlinkW_next, if_neg hy1]
      · intro y hy
        have hy0 : y ∈ ring j (slots j) := List.mem_of_mem_tail hy
        have hy1 : y ≠ nx := by
          intro hc; subst hc
          exact h.ring_disjoint hji hy0 hnxring
        rw [unlinkW_prev, if_neg hy1]
  · intro j hj
    show (slots j).erase t = []
    rw [h.out j hj]; rfl
  · intro j
    exact List.Nodup.erase t (h.nodup j)
  · intro j k a hj hk
    exact h.disj j k a (List.mem_of_mem_erase hj) (List.mem_of_mem_erase hk)
  · intro a ha hat hnot
    have hat' : a ≠ t := by simpa using hat
    have hold : ∀ j, a ∉ slots j := fun j hj =>
      hnot j ((List.mem_erase_of_ne hat').2 hj)
    obtain ⟨h1, h2⟩ := h.idle a ha hat hold
    have hpv : Ptr.timer a ≠ pv := by
      intro hc
      rcases mem_ring.1 hpvring with h3 | ⟨b, hb, h3⟩
      · rw [← hc] at h3; cases h3
      · rw [← hc] at h3; injection h3 with h3
        exact hold i (h3 ▸ hb)
    have hnx : Ptr.timer a ≠ nx := by
      intro hc
      rcases mem_ring.1 hnxring with h3 | ⟨b, hb, h3⟩
      · rw [← hc] at h3; cases h3
      · rw [← hc] at h3; injection h3 with h3
        exact hold i (h3 ▸ hb)
    rw [unlinkW_next, unlinkW_prev, if_neg hpv, if_neg hnx]
    exact ⟨h1, h2⟩

/-! ## The interface functions on a well-formed wheel -/

theorem valid_congr {w w' : World} (h1 : w'.num_spokes = w.num_spokes)
    (h3 : w'.live = w.live) (p : Ptr) : valid w' p = valid w p := by
  cases p <;> simp [valid, h1, h3]

/-- Only the links, the liveness map and the wheel geometry matter for
well-formedness. -/
theorem AbsX.congr {x : Option Nat} {w w' : World} {slots : Nat → List Nat}
    (h : AbsX x w slots) (h1 : w'.num_spokes = w.num_spokes)
    (h2 : w'.current_spoke = w.current_spoke) (h3 : w'.live = w.live)
    (h4 : w'.links_next = w.links_next) (h5 : w'.links_prev = w.links_prev)
    (h6 : w'.brk = w.brk) : AbsX x w' slots :=
  { npos := h1 ▸ h.npos
    nlt := h1 ▸ h.nlt
    cur := by rw [h1, h2]; exact h.cur
    seg := fun i hi =>
      chain_frame (h.seg i (h1 ▸ hi)) (fun p _ => valid_congr h1 h3 p)
        (fun p _ => by rw [h4]) (fun p _ => by rw [h5])
    out := fun i hi => h.out i (h1 ▸ hi)
    nodup := h.nodup
    disj := h.disj
    idle := fun a ha hx hn => by
      rw [h4, h5]; exact h.idle a (h3 ▸ ha) hx hn
    fresh := fun a ha => by rw [h3]; exact h.fresh a (h6 ▸ ha) }

/-- Moving the wheel to another spoke keeps it well formed. -/
theorem AbsX.turn {x : Option Nat} {w : World} {slots : Nat → List Nat}
    (h : AbsX x w slots) {c : Nat} (hc : c < w.num_spokes) :
    AbsX x { w with current_spoke := c } slots :=
  { npos := h.npos, nlt := h.nlt, cur := hc, seg := h.seg, out := h.out, nodup := h.nodup,
    disj := h.disj, idle := h.idle, fresh := h.fresh }

/-- Once the links of the exempt timer are null the wheel is well formed. -/
theorem AbsX.clear {w : World} {slots : Nat → List Nat} {t : Nat}
    (h : AbsX (some t) w slots) (ht : ∀ i, t ∉ slots i) : Abs (clearLinks w t) slots := by
  have key : ∀ {i : Nat} {y : Ptr}, y ∈ ring i (slots i) → y ≠ .timer t :=
    fun hy => ring_ne_of_not_mem ht hy
  refine
    { npos := h.npos, nlt := h.nlt, cur := h.cur, seg := ?_, out := h.out, nodup := h.nodup,
      disj := h.disj, idle := ?_, fresh := h.fresh }
  · intro i hi
    refine chain_frame (h.seg i hi) (fun p _ => by simp [clearLinks]) ?_ ?_
    · intro y hy
      simp [clearLinks, setNext, setPrev, Function.update_apply,
        key (List.mem_of_mem_dropLast hy)]
    · intro y hy
      simp [clearLinks, setNext, setPrev, Function.update_apply,
        key (List.mem_of_mem_tail hy)]
  · intro a ha _ hn
    by_cases hat : a = t
    · subst hat
      simp [clearLinks, setNext, setPrev]
    · have := h.idle a ha (by simpa using hat) hn
      simpa [clearLinks, setNext, setPrev, Function.update_apply, hat] using this

/-- Freeing the exempt timer, which is in no list, keeps the wheel well formed. -/
theorem AbsX.free {w : World} {slots : Nat → List Nat} {t : Nat}
    (h : AbsX (some t) w slots) (ht : ∀ i, t ∉ slots i) : Abs (Timers.free w t) slots := by
  refine
    { npos := h.npos, nlt := h.nlt, cur := h.cur, seg := ?_, out := h.out, nodup := h.nodup,
      disj := h.disj, idle := ?_, fresh := ?_ }
  · intro i hi
    refine chain_frame (h.seg i hi) ?_ (fun _ _ => rfl) (fun _ _ => rfl)
    intro y hy
    have hy1 : y ≠ .timer t := ring_ne_of_not_mem ht hy
    cases y with
    | spoke j => rfl
    | timer a =>
      have : a ≠ t := by simpa using hy1
      simp [valid, Timers.free, Function.update_apply, this]
  · intro a ha _ hn
    by_cases hat : a = t
    · subst hat
      simp [Timers.free] at ha
    · have hl : w.live a = true := by
        simpa [Timers.free, Function.update_apply, hat] using ha
      exact h.idle a hl (by simpa using hat) hn
  · intro a ha
    have := h.fresh a ha
    by_cases hat : a = t
    · subst hat; simp [Timers.free]
    · simpa [Timers.free, Function.update_apply, hat] using this

theorem slotOf_lt {x : Option Nat} {w : World} {slots : Nat → List Nat} (h : AbsX x w slots)
    (d : Int) : slotOf w d < w.num_spokes := by
  have h1 := h.npos
  have h2 := h.nlt
  unfold slotOf
  rw [Nat.mod_eq_of_lt (by omega : w.num_spokes < 4294967296)]
  exact Nat.mod_lt _ h1

/-- What `insert_timer` does to an idle live timer of a well-formed wheel. -/
theorem insert_timer_eq {w : World} {slots : Nat → List Nat} {t : Nat}
    (h : AbsX (some t) w slots) (hl : w.live t = true) (ht : ∀ i, t ∉ slots i) :
    ∃ pv, w.links_prev (.spoke (slotOf w (w.duration t))) = some pv ∧
      insert_timer w t = .ok (linkTail (setRot w t (rotOf w (w.duration t)))
        t (slotOf w (w.duration t)) pv) ∧
      Abs (linkTail (setRot w t (rotOf w (w.duration t))) t (slotOf w (w.duration t)) pv)
        (appendT slots (slotOf w (w.duration t)) t) := by
  have hpos := slotOf_lt h (w.duration t)
  have h1 : AbsX (some t) (setRot w t (rotOf w (w.duration t))) slots :=
    h.congr rfl rfl rfl rfl rfl rfl
  obtain ⟨pv, hpv, hv, habs⟩ := h1.linkTail hl ht hpos
  refine ⟨pv, hpv, ?_, habs⟩
  have hn : w.num_spokes % 4294967296 ≠ 0 := by
    have h1 := h.npos
    have h2 := h.nlt
    omega
  have hvs : valid (setRot w t (rotOf w (w.duration t)))
      (.spoke (slotOf w (w.duration t))) = true := by
    simpa [valid, setRot] using hpos
  have hpv' : (setRot w t (rotOf w (w.duration t))).links_prev
      (.spoke (slotOf w (w.duration t))) = some pv := hpv
  have hv' : valid (setPrev (setNext (setRot w t (rotOf w (w.duration t))) (.timer t)
      (some (.spoke (slotOf w (w.duration t))))) (.timer t) (some pv)) pv = true := by
    simpa using hv
  unfold insert_timer
  rw [if_neg (by simp [hl]), if_neg hn]
  show (if valid (setRot w t (rotOf w (w.duration t)))
      (.spoke (slotOf w (w.duration t))) = false then Except.error Err.fault else
    match (setRot w t (rotOf w (w.duration t))).links_prev
      (.spoke (slotOf w (w.duration t))) with
    | none => Except.error Err.fault
    | some pv =>
      if valid (setPrev (setNext (setRot w t (rotOf w (w.duration t))) (.timer t)
        (some (.spoke (slotOf w (w.duration t))))) (.timer t)
        ((setRot w t (rotOf w (w.duration t))).links_prev
          (.spoke (slotOf w (w.duration t))))) pv = false
      then Except.error Err.fault
      else Except.ok (setPrev (setNext (setPrev (setNext (setRot w t (rotOf w (w.duration t)))
        (.timer t) (some (.spoke (slotOf w (w.duration t))))) (.timer t)
        ((setRot w t (rotOf w (w.duration t))).links_prev
          (.spoke (slotOf w (w.duration t))))) pv (some (.timer t)))
        (.spoke (slotOf w (w.duration t))) (some (.timer t)))) = _
  rw [if_neg (by rw [hvs]; simp), hpv']
  simp only []
  rw [if_neg (by rw [hv']; simp)]
  rfl

theorem idle_of_not_mem {w : World} {slots : Nat → List Nat} {t : Nat} (h : Abs w slots)
    (hl : w.live t = true) (ht : ∀ i, t ∉ slots i) :
    w.links_next (.timer t) = none ∧ w.links_prev (.timer t) = none :=
  h.idle t hl (by simp) ht

/-- The function `lmtimer_start` on an idle live timer. -/
theorem lmtimer_start_idle {w : World} {slots : Nat → List Nat} {t : Nat}
    (h : Abs w slots) (hl : w.live t = true) (ht : ∀ i, t ∉ slots i)
    (d : Int) (cb : Option Nat) (o a : Nat) :
    ∃ pv, w.links_prev (.spoke (slotOf w d)) = some pv ∧
      lmtimer_start w t d cb o a = .ok (startW w t d cb o a pv) ∧
      Abs (startW w t d cb o a pv) (appendT slots (slotOf w d) t) := by
  have hnull := (idle_of_not_mem h hl ht).1
  have h1 : AbsX (some t) (arm w t d cb o a) slots :=
    (h.weaken (some t)).congr rfl rfl rfl rfl rfl rfl
  obtain ⟨pv, hpv, heq, habs⟩ := insert_timer_eq (t := t) h1 hl ht
  have hdur : (arm w t d cb o a).duration t = d := by simp [arm]
  rw [hdur] at hpv heq habs
  refine ⟨pv, hpv, ?_, habs.congr rfl rfl rfl rfl rfl rfl⟩
  unfold lmtimer_start
  rw [if_neg (by simp [hl])]
  simp only [hnull]
  have heq' : insert_timer (arm w t d cb o a) t = _ := heq
  unfold arm at heq'
  rw [heq']
  rfl

/-- The definition of `lmtimer_start`, its groups of stores named. -/
theorem lmtimer_start_def (w : World) (t : Nat) (d : Int) (cb : Option Nat) (o a : Nat) :
    lmtimer_start w t d cb o a =
      if w.live t = false then .error .fault else
      match (match w.links_next (.timer t) with
        | none => (.ok w : Except Err World)
        | some nx =>
          if valid w nx = false then .error .fault else
          match w.links_prev (.timer t) with
          | none => .error .fault
          | some pv =>
            if valid (setPrev w nx (w.links_prev (.timer t))) pv = false then .error .fault
            else .ok (restartW w pv nx)) with
      | .error e => .error e
      | .ok w1 =>
        match insert_timer (arm w1 t d cb o a) t with
        | .error e => .error e
        | .ok w3 => .ok { w3 with running_timers := w3.running_timers + 1 } := by
  unfold lmtimer_start
  by_cases hl : w.live t = false
  · simp [hl]
  · rw [if_neg hl, if_neg hl]
    cases hn : w.links_next (.timer t) with
    | none => rfl
    | some nx =>
      cases hp : w.links_prev (.timer t) with
      | none => rfl
      | some pv => rfl

/-- The function `lmtimer_start` on a timer that is linked in spoke `i`. -/
theorem lmtimer_start_linked {w : World} {slots : Nat → List Nat} {t i : Nat}
    (h : Abs w slots) (hti : t ∈ slots i) (d : Int) (cb : Option Nat) (o a : Nat) :
    ∃ pv0 nx0 pv, w.links_prev (.timer t) = some pv0 ∧ w.links_next (.timer t) = some nx0 ∧
      (unlinkW w pv0 nx0).links_prev (.spoke (slotOf w d)) = some pv ∧
      lmtimer_start w t d cb o a = .ok (startW (restartW w pv0 nx0) t d cb o a pv) ∧
      Abs (startW (restartW w pv0 nx0) t d cb o a pv)
        (appendT (eraseT slots t) (slotOf w d) t) := by
  obtain ⟨l1, l2, hs⟩ := List.append_of_mem hti
  obtain ⟨pv0, nx0, hp, hn, hvp, hvn, hl, _, _, habs⟩ := (h.weaken (some t)).unlink hs
  have hnot : ∀ j, t ∉ eraseT slots t j := fun j hj =>
    (List.Nodup.mem_erase_iff (h.nodup j)).1 hj |>.1 rfl
  have h1 : AbsX (some t) (arm (restartW w pv0 nx0) t d cb o a) (eraseT slots t) :=
    habs.congr rfl rfl rfl rfl rfl rfl
  obtain ⟨pv, hpv, heq, habs2⟩ := insert_timer_eq (t := t) h1 hl hnot
  have hdur : (arm (restartW w pv0 nx0) t d cb o a).duration t = d := by simp [arm]
  rw [hdur] at hpv heq habs2
  refine ⟨pv0, nx0, pv, hp, hn, hpv, ?_, habs2.congr rfl rfl rfl rfl rfl rfl⟩
  rw [lmtimer_start_def, if_neg (by simp [hl])]
  simp only [hn, hp]
  rw [if_neg (by simp [hvn]), if_neg (by simp [hvp])]
  simp only []
  rw [heq]
  rfl

theorem clearLinks_idle {w : World} {t : Nat} (h1 : w.links_next (.timer t) = none)
    (h2 : w.links_prev (.timer t) = none) : clearLinks w t = w := by
  cases w
  simp only [clearLinks, setNext, setPrev] at *
  congr
  · exact Function.update_eq_self_iff.2 h1.symm
  · exact Function.update_eq_self_iff.2 h2.symm

/-- The definition of `stop_unlink`, the clearing of the links named. -/
theorem stop_unlink_def (w : World) (t : Nat) :
    stop_unlink w t =
      if w.live t = false then .error .fault else
      match (match w.links_next (.timer t) with
        | none => (.ok w : Except Err World)
        | some nx =>
          if valid w nx = false then .error .fault
          else .ok (setPrev w nx (w.links_prev (.timer t)))) with
      | .error e => .error e
      | .ok w1 =>
        match (match w.links_prev (.timer t) with
          | none => (.ok w1 : Except Err World)
          | some pv =>
            if valid w1 pv = false then .error .fault
            else .ok (setNext w1 pv (w.links_next (.timer t)))) with
        | .error e => .error e
        | .ok w2 =>
          if w.links_next (.timer t) ≠ none ∨ w.links_prev (.timer t) ≠ none then
            .ok { clearLinks w2 t with running_timers := (clearLinks w2 t).running_timers - 1 }
          else .ok (clearLinks w2 t) := rfl

/-- The function `lmtimer_stop` without the final `free`, on a timer linked in a spoke. -/
theorem stop_unlink_linked {w : World} {slots : Nat → List Nat} {t i : Nat}
    (h : Abs w slots) (hti : t ∈ slots i) :
    ∃ pv nx, w.links_prev (.timer t) = some pv ∧ w.links_next (.timer t) = some nx ∧
      stop_unlink w t = .ok (stopW w t pv nx) ∧ Abs (stopW w t pv nx) (eraseT slots t) := by
  obtain ⟨l1, l2, hs⟩ := List.append_of_mem hti
  obtain ⟨pv, nx, hp, hn, hvp, hvn, hl, _, _, habs⟩ := (h.weaken (some t)).unlink hs
  have hnot : ∀ j, t ∉ eraseT slots t j := fun j hj =>
    (List.Nodup.mem_erase_iff (h.nodup j)).1 hj |>.1 rfl
  refine ⟨pv, nx, hp, hn, ?_, (habs.clear hnot).congr rfl rfl rfl rfl rfl rfl⟩
  rw [stop_unlink_def, if_neg (by simp [hl])]
  simp only [hn, hp]
  rw [if_neg (by simp [hvn])]
  simp only []
  rw [if_neg (by simp [hvp])]
  simp only []
  rw [if_pos (by simp)]
  rfl

/-- The function `lmtimer_stop` without the final `free`, on an idle timer: nothing changes. -/
theorem stop_unlink_idle {w : World} {slots : Nat → List Nat} {t : Nat}
    (h : Abs w slots) (hl : w.live t = true) (ht : ∀ i, t ∉ slots i) :
    stop_unlink w t = .ok w := by
  obtain ⟨h1, h2⟩ := idle_of_not_mem h hl ht
  rw [stop_unlink_def, if_neg (by simp [hl])]
  simp only [h1, h2]
  rw [if_neg (by simp), clearLinks_idle h1 h2]

/-- The function `lmtimer_stop` on a timer linked in a spoke. -/
theorem lmtimer_stop_linked {w : World} {slots : Nat → List Nat} {t i : Nat}
    (h : Abs w slots) (hti : t ∈ slots i) :
    ∃ pv nx, w.links_prev (.timer t) = some pv ∧ w.links_next (.timer t) = some nx ∧
      lmtimer_stop w (some t) = .ok (free (stopW w t pv nx) t) ∧
      Abs (free (stopW w t pv nx) t) (eraseT slots t) := by
  obtain ⟨pv, nx, hp, hn, heq, habs⟩ := stop_unlink_linked h hti
  have hnot : ∀ j, t ∉ eraseT slots t j := fun j hj =>
    (List.Nodup.mem_erase_iff (h.nodup j)).1 hj |>.1 rfl
  refine ⟨pv, nx, hp, hn, ?_, (habs.weaken (some t)).free hnot⟩
  simp only [lmtimer_stop, heq]

/-- The function `lmtimer_stop` on an idle live timer only frees it. -/
theorem lmtimer_stop_idle {w : World} {slots : Nat → List Nat} {t : Nat}
    (h : Abs w slots) (hl : w.live t = true) (ht : ∀ i, t ∉ slots i) :
    lmtimer_stop w (some t) = .ok (free w t) ∧ Abs (free w t) slots := by
  refine ⟨?_, (h.weaken (some t)).free ht⟩
  simp only [lmtimer_stop, stop_unlink_idle h hl ht]

theorem eraseT_of_not_mem {slots : Nat → List Nat} {t : Nat} (ht : ∀ i, t ∉ slots i) :
    eraseT slots t = slots := by
  funext j
  exact List.erase_of_not_mem (ht j)

/-! ## Initialisation, creation and the arithmetic of placement -/

/-- A freshly initialised wheel is well formed and all its lists are empty. -/
theorem wheel_init_abs {n : Nat} (h0 : 0 < n) (h1 : n < 2147483648) :
    Abs (wheel_init n) (fun _ => []) :=
  { npos := h0
    nlt := h1
    cur := h0
    seg := fun i hi => by
      have hi' : i < n := hi
      simp only [ring, List.map_nil, List.nil_append, List.chain'_pair, Linked, valid,
        wheel_init, hi', decide_True, if_true, and_self]
    out := fun _ _ => rfl
    nodup := fun _ => List.nodup_nil
    disj := fun _ _ _ h => by cases h
    idle := fun _ h => by simp [wheel_init] at h
    fresh := fun _ _ => rfl }

/-- The function `lmtimer_create` keeps the wheel well formed; the new timer is live and
in no list. -/
theorem lmtimer_create_abs {w : World} {slots : Nat → List Nat} (h : Abs w slots)
    (L : Nat) (nm : List Char) :
    Abs (lmtimer_create L nm w).2 slots ∧ (lmtimer_create L nm w).2.live w.brk = true ∧
      (lmtimer_create L nm w).1 = w.brk ∧ ∀ i, w.brk ∉ slots i := by
  have hdead : w.live w.brk = false := h.fresh _ (Nat.le_refl _)
  have hnot : ∀ i, w.brk ∉ slots i := fun i hi => by
    have := h.live_of_mem hi
    rw [hdead] at this
    cases this
  refine ⟨?_, by simp [lmtimer_create], rfl, hnot⟩
  refine
    { npos := h.npos, nlt := h.nlt, cur := h.cur, seg := ?_, out := h.out, nodup := h.nodup,
      disj := h.disj, idle := ?_, fresh := ?_ }
  · intro i hi
    refine chain_frame (h.seg i hi) ?_ ?_ ?_
    · intro y hy
      have hy1 : y ≠ .timer w.brk := ring_ne_of_not_mem hnot hy
      cases y with
      | spoke j => rfl
      | timer a =>
        have : a ≠ w.brk := by simpa using hy1
        simp [valid, lmtimer_create, Function.update_apply, this]
    · intro y hy
      have hy1 : y ≠ .timer w.brk := ring_ne_of_not_mem hnot (List.mem_of_mem_dropLast hy)
      simp [lmtimer_create, Function.update_apply, hy1]
    · intro y hy
      have hy1 : y ≠ .timer w.brk := ring_ne_of_not_mem hnot (List.mem_of_mem_tail hy)
      simp [lmtimer_create, Function.update_apply, hy1]
  · intro a ha _ hn
    by_cases hab : a = w.brk
    · subst hab
      simp [lmtimer_create]
    · have hl : w.live a = true := by
        simpa [lmtimer_create, Function.update_apply, hab] using ha
      have := h.idle a hl (by simp) hn
      simpa [lmtimer_create, Function.update_apply, hab] using this
  · intro a ha
    have ha' : w.brk + 1 ≤ a := ha
    have hab : a ≠ w.brk := by omega
    have := h.fresh a (by omega)
    simpa [lmtimer_create, Function.update_apply, hab] using this

theorem slotOf_nat {x : Option Nat} {w : World} {slots : Nat → List Nat} (h : AbsX x w slots)
    {d : Nat} (hd : d < 2147483648) :
    slotOf w (d : Int) = (w.current_spoke + d % w.num_spokes) % w.num_spokes := by
  have h1 := h.npos
  have h2 := h.nlt
  have h3 := h.cur
  have hu : u32 (d : Int) = d := by unfold u32; omega
  have hm : d % w.num_spokes < w.num_spokes := Nat.mod_lt _ h1
  unfold slotOf
  rw [hu, Nat.mod_eq_of_lt (by omega : w.num_spokes < 4294967296),
    Nat.mod_eq_of_lt (by omega : w.current_spoke + d % w.num_spokes < 4294967296)]

theorem rotOf_nat {x : Option Nat} {w : World} {slots : Nat → List Nat} (h : AbsX x w slots)
    {d : Nat} (hd : d < 2147483648) :
    rotOf w (d : Int) = ((d / w.num_spokes : Nat) : Int) := by
  have h2 := h.nlt
  have hu : u32 (d : Int) = d := by unfold u32; omega
  have hq : d / w.num_spokes ≤ d := Nat.div_le_self d _
  have hq2 : d / w.num_spokes < 2147483648 := by omega
  unfold rotOf
  rw [hu, Nat.mod_eq_of_lt (by omega : w.num_spokes < 4294967296)]
  generalize d / w.num_spokes = q at hq2
  unfold i32
  rw [Nat.mod_eq_of_lt (by omega : q < 4294967296), if_pos hq2]

/-! ## Placement, stopping and re-arming -/

theorem AbsX.last_linked {x : Option Nat} {w : World} {slots : Nat → List Nat}
    (h : AbsX x w slots) {i t : Nat} {l : List Nat} (hi : i < w.num_spokes)
    (hs : slots i = l ++ [t]) : Linked w (.timer t) (.spoke i) :=
  h.linked_of_chain hi (A := Ptr.spoke i :: l.map Ptr.timer) (B := [])
    (by simp [ring, hs])

theorem AbsX.head_linked {x : Option Nat} {w : World} {slots : Nat → List Nat}
    (h : AbsX x w slots) {i t : Nat} {l : List Nat} (hi : i < w.num_spokes)
    (hs : slots i = t :: l) : Linked w (.spoke i) (.timer t) := by
  rcases l with _ | ⟨b, l⟩
  · exact h.linked_of_chain hi (A := []) (B := [.spoke i]) (by simp [ring, hs])
  · exact h.linked_of_chain hi (A := []) (B := .timer b :: (l.map Ptr.timer ++ [.spoke i]))
      (by simp [ring, hs])

theorem AbsX.empty_linked {x : Option Nat} {w : World} {slots : Nat → List Nat}
    (h : AbsX x w slots) {i : Nat} (hi : i < w.num_spokes)
    (hs : slots i = []) : Linked w (.spoke i) (.spoke i) :=
  h.linked_of_chain hi (A := []) (B := []) (by simp [ring, hs])

theorem oneTimer_abs : Abs oneTimer (fun _ => []) :=
  (lmtimer_create_abs (wheel_init_abs (by decide) (by decide)) 64 []).1

theorem oneTimer_live : oneTimer.live 0 = true := rfl

theorem created_one_abs : Abs (created 1) (fun _ => []) :=
  (lmtimer_create_abs (wheel_init_abs (by decide) (by decide)) 64 []).1

theorem created_one_live : (created 1).live 0 = true :=
  (lmtimer_create_abs (wheel_init_abs (n := WHEEL_SIZE) (by decide) (by decide)) 64 []).2.1

theorem no_timer_linked (t : Nat) : ∀ i : Nat, t ∉ (fun _ => ([] : List Nat)) i :=
  fun _ => List.not_mem_nil t

/-- C3: on a well-formed wheel of `n` spokes at current spoke `c`, starting an
idle live timer with a non-negative duration `d` succeeds and leaves the
timer as the last element of spoke `(c + d mod n) mod n`, immediately before
the sentinel; the index is below `n`, the rotation count is `d div n`, the
timers already in that spoke stay ahead of it in their order and the lists of
the other spokes are unchanged. -/
theorem start_places_timer_at_tail {w : World} {slots : Nat → List Nat} {t : Nat}
    (d : Nat) (cb : Option Nat) (o a : Nat)
    (h : Abs w slots) (hl : w.live t = true) (ht : ∀ i, t ∉ slots i)
    (hd : d < 2147483648) :
    ∃ w' slots', lmtimer_start w t (d : Int) cb o a = .ok w' ∧ Abs w' slots' ∧
      (w.current_spoke + d % w.num_spokes) % w.num_spokes < w.num_spokes ∧
      slots' ((w.current_spoke + d % w.num_spokes) % w.num_spokes) =
        slots ((w.current_spoke + d % w.num_spokes) % w.num_spokes) ++ [t] ∧
      (∀ j, j ≠ (w.current_spoke + d % w.num_spokes) % w.num_spokes → slots' j = slots j) ∧
      w'.links_next (.timer t) =
        some (.spoke ((w.current_spoke + d % w.num_spokes) % w.num_spokes)) ∧
      w'.links_prev (.spoke ((w.current_spoke + d % w.num_spokes) % w.num_spokes)) =
        some (.timer t) ∧
      w'.rotation_count t = ((d / w.num_spokes : Nat) : Int) ∧
      w'.num_spokes = w.num_spokes ∧ w'.current_spoke = w.current_spoke := by
  obtain ⟨pv, _, heq, habs⟩ := lmtimer_start_idle h hl ht (d : Int) cb o a
  have hpos := slotOf_lt h (d : Int)
  have hrot : (startW w t (d : Int) cb o a pv).rotation_count t = rotOf w (d : Int) := by
    simp [startW, linkTail, setNext, setPrev, setRot]
  rw [rotOf_nat h hd] at hrot
  have hns : (startW w t (d : Int) cb o a pv).num_spokes = w.num_spokes := by
    simp [startW, linkTail, setNext, setPrev, setRot, arm]
  have hcs : (startW w t (d : Int) cb o a pv).current_spoke = w.current_spoke := by
    simp [startW, linkTail, setNext, setPrev, setRot, arm]
  have hlast := habs.last_linked (i := slotOf w (d : Int)) (t := t)
    (l := slots (slotOf w (d : Int))) (by rw [hns]; exact hpos) (by simp [appendT])
  have hlist : appendT slots (slotOf w (d : Int)) t (slotOf w (d : Int)) =
      slots (slotOf w (d : Int)) ++ [t] := by simp [appendT]
  have hother : ∀ j, j ≠ slotOf w (d : Int) → appendT slots (slotOf w (d : Int)) t j = slots j := by
    intro j hj
    simp [appendT, Function.update_noteq hj]
  have hnext := hlast.2.2.1
  have hprev := hlast.2.2.2
  rw [slotOf_nat h hd] at hpos hlist hother hnext hprev habs
  exact ⟨_, _, heq, habs, hpos, hlist, hother, hnext, hprev, hrot, hns, hcs⟩

/-- Witness for C3: a timer started with duration 10 on a fresh wheel of
eight spokes. -/
theorem start_places_timer_at_tail_witness :
    (Abs oneTimer (fun _ => []) ∧ oneTimer.live 0 = true ∧
      (∀ i : Nat, 0 ∉ (fun _ => ([] : List Nat)) i) ∧ 10 < 2147483648) ∧
    ∃ w' slots', lmtimer_start oneTimer 0 ((10 : Nat) : Int) (some 1) 0 0 = .ok w' ∧
      Abs w' slots' ∧
      (oneTimer.current_spoke + 10 % oneTimer.num_spokes) % oneTimer.num_spokes <
        oneTimer.num_spokes ∧
      slots' ((oneTimer.current_spoke + 10 % oneTimer.num_spokes) % oneTimer.num_spokes) =
        (fun _ => ([] : List Nat))
          ((oneTimer.current_spoke + 10 % oneTimer.num_spokes) % oneTimer.num_spokes) ++ [0] ∧
      (∀ j, j ≠ (oneTimer.current_spoke + 10 % oneTimer.num_spokes) % oneTimer.num_spokes →
        slots' j = (fun _ => ([] : List Nat)) j) ∧
      w'.links_next (.timer 0) =
        some (.spoke ((oneTimer.current_spoke + 10 % oneTimer.num_spokes) %
          oneTimer.num_spokes)) ∧
      w'.links_prev (.spoke ((oneTimer.current_spoke + 10 % oneTimer.num_spokes) %
          oneTimer.num_spokes)) = some (.timer 0) ∧
      w'.rotation_count 0 = ((10 / oneTimer.num_spokes : Nat) : Int) ∧
      w'.num_spokes = oneTimer.num_spokes ∧ w'.current_spoke = oneTimer.current_spoke :=
  ⟨⟨oneTimer_abs, oneTimer_live, no_timer_linked 0, by decide⟩,
    start_places_timer_at_tail 10 (some 1) 0 0 oneTimer_abs oneTimer_live
      (no_timer_linked 0) (by decide)⟩

/-- C10: `lmtimer_stop` on a null handle returns the wheel as it is; on a
live timer whose links are both null it only frees the timer: the links of
every node (so every spoke list), the current spoke, `running_timers` and
`expirations` are unchanged and a well-formed wheel keeps its lists.  On a
timer linked in a spoke of a well-formed wheel `running_timers` goes down by
one. -/
theorem stop_noop_on_null_and_idle (w : World) (t : Nat) (hl : w.live t = true)
    (hn : w.links_next (.timer t) = none) (hp : w.links_prev (.timer t) = none) :
    lmtimer_stop w none = .ok w ∧
    (∃ w', lmtimer_stop w (some t) = .ok w' ∧
      w'.links_next = w.links_next ∧ w'.links_prev = w.links_prev ∧
      w'.num_spokes = w.num_spokes ∧ w'.current_spoke = w.current_spoke ∧
      w'.running_timers = w.running_timers ∧ w'.expirations = w.expirations ∧
      w'.rotation_count = w.rotation_count ∧ w'.calls = w.calls ∧
      w'.live t = false ∧ (∀ u, u ≠ t → w'.live u = w.live u) ∧
      ∀ slots, Abs w slots → Abs w' slots) ∧
    (∀ slots i u, Abs w slots → u ∈ slots i →
      ∃ w', lmtimer_stop w (some u) = .ok w' ∧
        w'.running_timers = w.running_timers - 1) := by
  refine ⟨rfl, ⟨free w t, ?_, rfl, rfl, rfl, rfl, rfl, rfl, rfl, rfl, ?_, ?_, ?_⟩, ?_⟩
  · have h1 : stop_unlink w t = .ok w := by
      rw [stop_unlink_def, if_neg (by simp [hl])]
      simp only [hn, hp]
      rw [if_neg (by simp), clearLinks_idle hn hp]
    simp only [lmtimer_stop, h1]
  · simp [free]
  · intro u hu
    simp [free, Function.update_apply, hu]
  · intro slots h
    have hnot : ∀ i, t ∉ slots i := by
      intro i hi
      obtain ⟨l1, l2, hs⟩ := List.append_of_mem hi
      obtain ⟨pv, nx, _, hnx, _⟩ := (h.weaken (some t)).unlink hs
      rw [hn] at hnx
      cases hnx
    exact (h.weaken (some t)).free hnot
  · intro slots i u h hu
    obtain ⟨pv, nx, _, _, heq, _⟩ := lmtimer_stop_linked h hu
    exact ⟨_, heq, by simp [free, stopW, clearLinks, unlinkW, setNext, setPrev]⟩

/-- Witness for C10: the timer created on a fresh wheel and never started. -/
theorem stop_noop_on_null_and_idle_witness :
    (oneTimer.live 0 = true ∧ oneTimer.links_next (.timer 0) = none ∧
      oneTimer.links_prev (.timer 0) = none) ∧
    lmtimer_stop oneTimer none = .ok oneTimer ∧
    (∃ w', lmtimer_stop oneTimer (some 0) = .ok w' ∧
      w'.links_next = oneTimer.links_next ∧ w'.links_prev = oneTimer.links_prev ∧
      w'.num_spokes = oneTimer.num_spokes ∧ w'.current_spoke = oneTimer.current_spoke ∧
      w'.running_timers = oneTimer.running_timers ∧ w'.expirations = oneTimer.expirations ∧
      w'.rotation_count = oneTimer.rotation_count ∧ w'.calls = oneTimer.calls ∧
      w'.live 0 = false ∧ (∀ u, u ≠ 0 → w'.live u = oneTimer.live u) ∧
      ∀ slots, Abs oneTimer slots → Abs w' slots) ∧
    (∀ slots i u, Abs oneTimer slots → u ∈ slots i →
      ∃ w', lmtimer_stop oneTimer (some u) = .ok w' ∧
        w'.running_timers = oneTimer.running_timers - 1) :=
  ⟨⟨rfl, rfl, rfl⟩, stop_noop_on_null_and_idle oneTimer 0 rfl rfl rfl⟩

theorem not_mem_eraseT {x : Option Nat} {w : World} {slots : Nat → List Nat}
    (h : AbsX x w slots) (t : Nat) : ∀ j, t ∉ eraseT slots t j := fun j hj =>
  (List.Nodup.mem_erase_iff (h.nodup j)).1 hj |>.1 rfl

/-- Starting a timer after `stop_unlink` gives the state of the re-arming
branch of `lmtimer_start`. -/
theorem startW_stopW (w : World) (t : Nat) (d : Int) (cb : Option Nat) (o a : Nat)
    (pv0 nx0 pv : Ptr) :
    startW (stopW w t pv0 nx0) t d cb o a pv = startW (restartW w pv0 nx0) t d cb o a pv := by
  simp only [startW, restartW, stopW, clearLinks, linkTail, unlinkW, setNext, setPrev, setRot,
    arm, rotOf, slotOf, Function.update_idem]

/-- Timer `0` can be started with duration 3 on a fresh wheel of eight spokes
and is then the only timer of spoke 3. -/
theorem oneStarted :
    ∃ w, lmtimer_start oneTimer 0 3 (some 1) 0 0 = .ok w ∧
      Abs w (appendT (fun _ => []) 3 0) := by
  obtain ⟨pv, _, heq, habs⟩ := lmtimer_start_idle oneTimer_abs oneTimer_live
    (no_timer_linked 0) 3 (some 1) 0 0
  exact ⟨_, heq, habs⟩

/-- C7: on a well-formed wheel, `lmtimer_start` on a timer `t` that is linked
in a spoke gives exactly the state obtained by first unlinking `t` as
`lmtimer_stop` does (after which `t` is live with null links) and then
starting it: `t` is the last element of spoke `(c + d mod n) mod n`, it is in
no other spoke, every list is the old one without `t`, the rotation count is
`d div n` and `running_timers` is what it was before the re-arm. -/
theorem rearm_is_cancel_then_arm {w : World} {slots : Nat → List Nat} {t i : Nat}
    (d : Nat) (cb : Option Nat) (o a : Nat)
    (h : Abs w slots) (hti : t ∈ slots i) (hd : d < 2147483648) :
    ∃ w1 w' slots', stop_unlink w t = .ok w1 ∧
      w1.live t = true ∧ w1.links_next (.timer t) = none ∧ w1.links_prev (.timer t) = none ∧
      lmtimer_start w1 t (d : Int) cb o a = .ok w' ∧
      lmtimer_start w t (d : Int) cb o a = .ok w' ∧
      Abs w' slots' ∧
      slots' ((w.current_spoke + d % w.num_spokes) % w.num_spokes) =
        (slots ((w.current_spoke + d % w.num_spokes) % w.num_spokes)).erase t ++ [t] ∧
      (∀ j, j ≠ (w.current_spoke + d % w.num_spokes) % w.num_spokes →
        slots' j = (slots j).erase t ∧ t ∉ slots' j) ∧
      w'.rotation_count t = ((d / w.num_spokes : Nat) : Int) ∧
      w'.running_timers = w.running_timers := by
  obtain ⟨pv0, nx0, pv, hp0, hn0, hpv, heq, habs⟩ :=
    lmtimer_start_linked h hti (d : Int) cb o a
  obtain ⟨pv0', nx0', hp0', hn0', heq1, habs1⟩ := stop_unlink_linked h hti
  rw [hp0] at hp0'
  rw [hn0] at hn0'
  cases hp0'
  cases hn0'
  have hl : w.live t = true := h.live_of_mem hti
  have hl1 : (stopW w t pv0 nx0).live t = true := by
    simpa [stopW, clearLinks, unlinkW, setNext, setPrev] using hl
  have hnot := not_mem_eraseT h t
  obtain ⟨pv', hpv', heq2, _⟩ := lmtimer_start_idle habs1 hl1 hnot (d : Int) cb o a
  have hslot : slotOf (stopW w t pv0 nx0) (d : Int) = slotOf w (d : Int) := by
    simp [slotOf, stopW, clearLinks, unlinkW, setNext, setPrev]
  have hpveq : pv' = pv := by
    rw [hslot] at hpv'
    have : (stopW w t pv0 nx0).links_prev (.spoke (slotOf w (d : Int))) =
        (unlinkW w pv0 nx0).links_prev (.spoke (slotOf w (d : Int))) := by
      simp [stopW, clearLinks, setNext, setPrev, Function.update_apply]
    rw [this, hpv] at hpv'
    injection hpv' with hpv'
    exact hpv'.symm
  subst hpveq
  rw [startW_stopW] at heq2
  have hrot : (startW (restartW w pv0 nx0) t (d : Int) cb o a pv').rotation_count t =
      rotOf w (d : Int) := by
    simp [startW, restartW, linkTail, unlinkW, setNext, setPrev, setRot, arm, rotOf]
  rw [rotOf_nat h hd] at hrot
  have hrun : (startW (restartW w pv0 nx0) t (d : Int) cb o a pv').running_timers =
      w.running_timers := by
    simp [startW, restartW, linkTail, unlinkW, setNext, setPrev, setRot, arm]
  have hlist : appendT (eraseT slots t) (slotOf w (d : Int)) t (slotOf w (d : Int)) =
      (slots (slotOf w (d : Int))).erase t ++ [t] := by simp [appendT, eraseT]
  have hother : ∀ j, j ≠ slotOf w (d : Int) →
      appendT (eraseT slots t) (slotOf w (d : Int)) t j = (slots j).erase t ∧
      t ∉ appendT (eraseT slots t) (slotOf w (d : Int)) t j := by
    intro j hj
    have : appendT (eraseT slots t) (slotOf w (d : Int)) t j = (slots j).erase t := by
      simp [appendT, eraseT, Function.update_noteq hj]
    rw [this]
    exact ⟨rfl, hnot j⟩
  rw [slotOf_nat h hd] at hlist hother habs
  refine ⟨_, _, _, heq1, hl1, ?_, ?_, heq2, heq, habs, hlist, hother, hrot, hrun⟩
  · simp [stopW, clearLinks, setNext, setPrev]
  · simp [stopW, clearLinks, setNext, setPrev]

/-- Witness for C7: timer `0`, started with duration 3 on a fresh wheel of
eight spokes, is started again with duration 10. -/
theorem rearm_is_cancel_then_arm_witness :
    ∃ w, lmtimer_start oneTimer 0 3 (some 1) 0 0 = .ok w ∧
      Abs w (appendT (fun _ => []) 3 0) ∧ 0 ∈ appendT (fun _ => []) 3 0 3 ∧
      (10 : Nat) < 2147483648 ∧
      ∃ w1 w' slots', stop_unlink w 0 = .ok w1 ∧
        w1.live 0 = true ∧ w1.links_next (.timer 0) = none ∧
        w1.links_prev (.timer 0) = none ∧
        lmtimer_start w1 0 ((10 : Nat) : Int) (some 2) 0 0 = .ok w' ∧
        lmtimer_start w 0 ((10 : Nat) : Int) (some 2) 0 0 = .ok w' ∧
        Abs w' slots' ∧
        slots' ((w.current_spoke + 10 % w.num_spokes) % w.num_spokes) =
          (appendT (fun _ => []) 3 0
            ((w.current_spoke + 10 % w.num_spokes) % w.num_spokes)).erase 0 ++ [0] ∧
        (∀ j, j ≠ (w.current_spoke + 10 % w.num_spokes) % w.num_spokes →
          slots' j = (appendT (fun _ => []) 3 0 j).erase 0 ∧ 0 ∉ slots' j) ∧
        w'.rotation_count 0 = ((10 / w.num_spokes : Nat) : Int) ∧
        w'.running_timers = w.running_timers := by
  obtain ⟨w, hw, habs⟩ := oneStarted
  have hmem : (0 : Nat) ∈ appendT (fun _ => []) 3 0 3 := by simp [appendT]
  exact ⟨w, hw, habs, hmem, by decide,
    rearm_is_cancel_then_arm 10 (some 2) 0 0 habs hmem (by decide)⟩

/-! ## One iteration of the loop of `handle_timers` -/

/-- The definition of `walk_body` on a timer, its groups of stores named. -/
theorem walk_body_def (env : Callbacks) (w : World) (a : Nat) :
    walk_body env w (some (.timer a)) =
      if w.live a = false then .error .fault else
      if 0 < w.rotation_count a then
        match readNext (setRot (visit w a) a (w.rotation_count a - 1))
          (w.links_prev (.timer a)) with
        | .error e => .error e
        | .ok t => .ok (setRot (visit w a) a (w.rotation_count a - 1), t)
      else
        match w.links_prev (.timer a), w.links_next (.timer a) with
        | some pv, some nx =>
          if valid (visit w a) pv = false then .error .fault else
          if valid (setNext (visit w a) pv (some nx)) nx = false then .error .fault else
          match w.cb a with
          | none => .error .fault
          | some c =>
            match runOps (env c a (w.cb_argument a)) (expireW w a pv nx c) with
            | .error e => .error e
            | .ok w6 =>
              match readNext w6 (some pv) with
              | .error e => .error e
              | .ok t => .ok (w6, t)
        | _, _ => .error .fault := by
  unfold walk_body
  simp only []
  by_cases hl : w.live a = false
  · rw [if_pos hl, if_pos hl]
  · rw [if_neg hl, if_neg hl]
    by_cases hr : 0 < w.rotation_count a
    · rw [if_pos hr, if_pos hr]
      rfl
    · rw [if_neg hr, if_neg hr]
      cases hp : w.links_prev (.timer a) with
      | none => rfl
      | some pv =>
        cases hn : w.links_next (.timer a) with
        | none => rfl
        | some nx => rfl

theorem startW_geom (w : World) (t : Nat) (d : Int) (cb : Option Nat) (o a : Nat) (pv : Ptr) :
    (startW w t d cb o a pv).num_spokes = w.num_spokes ∧
      (startW w t d cb o a pv).current_spoke = w.current_spoke := by
  simp [startW, linkTail, setNext, setPrev, setRot, arm]

theorem restartW_geom (w : World) (pv nx : Ptr) :
    (restartW w pv nx).num_spokes = w.num_spokes ∧
      (restartW w pv nx).current_spoke = w.current_spoke := by
  simp [restartW, unlinkW, setNext, setPrev]

theorem stopW_geom (w : World) (t : Nat) (pv nx : Ptr) :
    (free (stopW w t pv nx) t).num_spokes = w.num_spokes ∧
      (free (stopW w t pv nx) t).current_spoke = w.current_spoke := by
  simp [free, stopW, clearLinks, unlinkW, setNext, setPrev]

/-- A successful `lmtimer_start` keeps a well-formed wheel well formed. -/
theorem lmtimer_start_abs {w w' : World} {slots : Nat → List Nat} {t : Nat} {d : Int}
    {cb : Option Nat} {o a : Nat} (h : Abs w slots)
    (hr : lmtimer_start w t d cb o a = .ok w') :
    (∃ slots', Abs w' slots') ∧ w'.num_spokes = w.num_spokes ∧
      w'.current_spoke = w.current_spoke := by
  have hl : w.live t = true := by
    by_contra hc
    rw [lmtimer_start_def, if_pos (by simpa using hc)] at hr
    cases hr
  by_cases hm : ∃ i, t ∈ slots i
  · obtain ⟨i, hi⟩ := hm
    obtain ⟨pv0, nx0, pv, _, _, _, heq, habs⟩ := lmtimer_start_linked h hi d cb o a
    rw [heq] at hr
    injection hr with hr
    subst hr
    exact ⟨⟨_, habs⟩, (startW_geom _ _ _ _ _ _ _).1.trans (restartW_geom _ _ _).1,
      (startW_geom _ _ _ _ _ _ _).2.trans (restartW_geom _ _ _).2⟩
  · have hnot : ∀ i, t ∉ slots i := fun i hi => hm ⟨i, hi⟩
    obtain ⟨pv, _, heq, habs⟩ := lmtimer_start_idle h hl hnot d cb o a
    rw [heq] at hr
    injection hr with hr
    subst hr
    exact ⟨⟨_, habs⟩, (startW_geom _ _ _ _ _ _ _).1, (startW_geom _ _ _ _ _ _ _).2⟩

/-- A successful `lmtimer_stop` keeps a well-formed wheel well formed. -/
theorem lmtimer_stop_abs {w w' : World} {slots : Nat → List Nat} {t : Option Nat}
    (h : Abs w slots) (hr : lmtimer_stop w t = .ok w') :
    (∃ slots', Abs w' slots') ∧ w'.num_spokes = w.num_spokes ∧
      w'.current_spoke = w.current_spoke := by
  cases t with
  | none =>
    injection hr with hr
    subst hr
    exact ⟨⟨_, h⟩, rfl, rfl⟩
  | some t =>
    have hl : w.live t = true := by
      by_contra hc
      simp only [lmtimer_stop] at hr
      rw [stop_unlink_def, if_pos (by simpa using hc)] at hr
      cases hr
    by_cases hm : ∃ i, t ∈ slots i
    · obtain ⟨i, hi⟩ := hm
      obtain ⟨pv, nx, _, _, heq, habs⟩ := lmtimer_stop_linked h hi
      rw [heq] at hr
      injection hr with hr
      subst hr
      exact ⟨⟨_, habs⟩, (stopW_geom _ _ _ _).1, (stopW_geom _ _ _ _).2⟩
    · have hnot : ∀ i, t ∉ slots i := fun i hi => hm ⟨i, hi⟩
      obtain ⟨heq, habs⟩ := lmtimer_stop_idle h hl hnot
      rw [heq] at hr
      injection hr with hr
      subst hr
      exact ⟨⟨_, habs⟩, rfl, rfl⟩

/-- A callback whose interface calls all succeed keeps a well-formed wheel
well formed. -/
theorem runOps_abs : ∀ (ops : List Op) {w w' : World} {slots : Nat → List Nat},
    Abs w slots → runOps ops w = .ok w' →
    (∃ slots', Abs w' slots') ∧ w'.num_spokes = w.num_spokes ∧
      w'.current_spoke = w.current_spoke
  | [], w, w', slots, h, hr => by
    injection hr with hr
    subst hr
    exact ⟨⟨_, h⟩, rfl, rfl⟩
  | op :: ops, w, w', slots, h, hr => by
    simp only [runOps] at hr
    cases hop : op.run w with
    | error e => rw [hop] at hr; cases hr
    | ok w1 =>
      rw [hop] at hr
      have h1 : (∃ slots', Abs w1 slots') ∧ w1.num_spokes = w.num_spokes ∧
          w1.current_spoke = w.current_spoke := by
        cases op with
        | start t d cb o a => exact lmtimer_start_abs h hop
        | stop t => exact lmtimer_stop_abs h hop
      obtain ⟨⟨slots1, habs1⟩, hn1, hc1⟩ := h1
      obtain ⟨hex, hn2, hc2⟩ := runOps_abs ops habs1 hr
      exact ⟨hex, hn2.trans hn1, hc2.trans hc1⟩

/-- The first timer of the current spoke: its neighbours and what unlinking
it leaves. -/
theorem head_facts {w : World} {slots : Nat → List Nat} {a : Nat} {rest : List Nat}
    (h : Abs w slots) (hs : slots w.current_spoke = a :: rest) :
    w.live a = true ∧ w.links_prev (.timer a) = some (.spoke w.current_spoke) ∧
      w.links_next (.spoke w.current_spoke) = some (.timer a) ∧
      ∃ nx, w.links_next (.timer a) = some nx ∧ valid w nx = true ∧
        (rest.map Ptr.timer ++ [Ptr.spoke w.current_spoke]).head? = some nx ∧
        AbsX (some a) (unlinkW w (.spoke w.current_spoke) nx) (eraseT slots a) := by
  obtain ⟨pv, nx, hp, hn, _, hvn, hl, hlast, hhead, habs⟩ :=
    (h.weaken (some a)).unlink (t := a) (i := w.current_spoke)
      (show slots w.current_spoke = [] ++ a :: rest by simpa using hs)
  have hpv : pv = .spoke w.current_spoke := by
    simp at hlast
    exact hlast.symm
  subst hpv
  have hlk := h.head_linked h.cur hs
  exact ⟨hl, hp, hlk.2.2.1, nx, hn, hvn, hhead, habs⟩

theorem eraseT_head {slots : Nat → List Nat} {c a : Nat} {rest : List Nat}
    (hs : slots c = a :: rest) : eraseT slots a c = rest := by
  simp [eraseT, hs]

/-- The state in which the callback of the first timer of the current spoke
is invoked is a well-formed wheel without that timer. -/
theorem expireW_abs {w : World} {slots : Nat → List Nat} {a : Nat}
    (h : Abs w slots) (nx : Ptr) (c : Nat)
    (hx : AbsX (some a) (unlinkW w (.spoke w.current_spoke) nx) (eraseT slots a)) :
    Abs (expireW w a (.spoke w.current_spoke) nx c) (eraseT slots a) := by
  have h1 : AbsX (some a) (unlinkW (visit w a) (.spoke w.current_spoke) nx) (eraseT slots a) :=
    hx.congr rfl rfl rfl rfl rfl rfl
  have h2 := h1.clear (not_mem_eraseT h a)
  exact h2.congr rfl rfl rfl rfl rfl rfl

/-- An iteration on the first timer of the current spoke when its rotation
count is positive: the count goes down and the same timer is next. -/
theorem walk_body_spin (env : Callbacks) {w : World} {slots : Nat → List Nat} {a : Nat}
    {rest : List Nat} (h : Abs w slots) (hs : slots w.current_spoke = a :: rest)
    (hr : 0 < w.rotation_count a) :
    walk_body env w (some (.timer a)) =
      .ok (setRot (visit w a) a (w.rotation_count a - 1), some (.timer a)) ∧
    Abs (setRot (visit w a) a (w.rotation_count a - 1)) slots := by
  obtain ⟨hl, hp, hn, _⟩ := head_facts h hs
  refine ⟨?_, h.congr rfl rfl rfl rfl rfl rfl⟩
  rw [walk_body_def, if_neg (by simp [hl]), if_pos hr, hp]
  have hv : valid (setRot (visit w a) a (w.rotation_count a - 1))
      (.spoke w.current_spoke) = true := by
    simpa [valid, setRot, visit] using h.cur
  have hn' : (setRot (visit w a) a (w.rotation_count a - 1)).links_next
      (.spoke w.current_spoke) = some (.timer a) := hn
  simp only [readNext]
  rw [if_neg (by simp [hv]), hn']

/-- An iteration on the first timer of the current spoke when its rotation
count is not positive: the timer is unlinked and its callback runs. -/
theorem walk_body_expire (env : Callbacks) {w : World} {slots : Nat → List Nat} {a : Nat}
    {rest : List Nat} (h : Abs w slots) (hs : slots w.current_spoke = a :: rest)
    (hr : ¬ 0 < w.rotation_count a) :
    ∃ nx, (rest.map Ptr.timer ++ [Ptr.spoke w.current_spoke]).head? = some nx ∧
      (∀ c, Abs (expireW w a (.spoke w.current_spoke) nx c) (eraseT slots a)) ∧
      walk_body env w (some (.timer a)) =
        match w.cb a with
        | none => .error .fault
        | some c =>
          match runOps (env c a (w.cb_argument a))
            (expireW w a (.spoke w.current_spoke) nx c) with
          | .error e => .error e
          | .ok w6 =>
            match readNext w6 (some (.spoke w.current_spoke)) with
            | .error e => .error e
            | .ok t => .ok (w6, t) := by
  obtain ⟨hl, hp, _, nx, hn, hvn, hhead, habs⟩ := head_facts h hs
  refine ⟨nx, hhead, fun c => expireW_abs h nx c habs, ?_⟩
  have hv1 : valid (visit w a) (.spoke w.current_spoke) = true := by
    simpa [valid, visit] using h.cur
  have hv2 : valid (setNext (visit w a) (.spoke w.current_spoke) (some nx)) nx = true := by
    rw [valid_setNext]
    exact (valid_congr rfl rfl nx).trans hvn
  rw [walk_body_def, if_neg (by simp [hl]), if_neg hr]
  simp only [hp, hn]
  rw [if_neg (by simp [hv1]), if_neg (by simp [hv2])]

/-! ## The traversal under arbitrary callbacks -/

theorem AtHead.inCurrent {w : World} {tptr : Option Ptr} (h : AtHead w tptr) :
    InCurrent w tptr := by
  obtain ⟨slots, habs, hn⟩ := h
  refine ⟨slots, habs, ?_⟩
  cases hs : slots w.current_spoke with
  | nil =>
    left
    rw [← hn]
    exact (habs.empty_linked habs.cur hs).2.2.1
  | cons a rest =>
    right
    refine ⟨a, by simp, ?_⟩
    rw [← hn]
    exact (habs.head_linked habs.cur hs).2.2.1

/-- An iteration of the loop that starts at the first node of the current
spoke and succeeds ends at the first node of the current spoke, whatever the
callback did. -/
theorem walk_body_head (env : Callbacks) {w w1 : World} {tptr t : Option Ptr}
    (h : AtHead w tptr) (hne : tptr ≠ some (.spoke w.current_spoke))
    (hr : walk_body env w tptr = .ok (w1, t)) :
    AtHead w1 t ∧ w1.current_spoke = w.current_spoke := by
  obtain ⟨slots, habs, hn⟩ := h
  cases hs : slots w.current_spoke with
  | nil =>
    exact absurd (hn.symm.trans (habs.empty_linked habs.cur hs).2.2.1) hne
  | cons a rest =>
    have ht : tptr = some (.timer a) := hn.symm.trans (habs.head_linked habs.cur hs).2.2.1
    subst ht
    by_cases hrot : 0 < w.rotation_count a
    · obtain ⟨heq, habs1⟩ := walk_body_spin env habs hs hrot
      rw [heq] at hr
      injection hr with hr
      injection hr with hr1 hr2
      subst hr1
      subst hr2
      exact ⟨⟨slots, habs1, hn⟩, rfl⟩
    · obtain ⟨nx, _, habs1, heq⟩ := walk_body_expire env habs hs hrot
      rw [heq] at hr
      cases hcb : w.cb a with
      | none => rw [hcb] at hr; cases hr
      | some c =>
        rw [hcb] at hr
        simp only [] at hr
        cases hops : runOps (env c a (w.cb_argument a))
            (expireW w a (.spoke w.current_spoke) nx c) with
        | error e => rw [hops] at hr; cases hr
        | ok w6 =>
          rw [hops] at hr
          obtain ⟨⟨slots6, habs6⟩, hn6, hc6⟩ := runOps_abs _ (habs1 c) hops
          have hc6' : w6.current_spoke = w.current_spoke := hc6
          have hn6' : w6.num_spokes = w.num_spokes := hn6
          have hv : valid w6 (.spoke w.current_spoke) = true := by
            simpa [valid, hn6'] using habs.cur
          simp only [readNext] at hr
          rw [if_neg (by simp [hv])] at hr
          injection hr with hr
          injection hr with hr1 hr2
          subst hr1
          subst hr2
          exact ⟨⟨slots6, habs6, by rw [hc6']⟩, hc6'⟩

/-- An iteration of the loop that starts at the first node of the current
spoke fails only through the callback of that node. -/
theorem walk_body_fault (env : Callbacks) {w : World} {tptr : Option Ptr} {e : Err}
    (h : AtHead w tptr) (hne : tptr ≠ some (.spoke w.current_spoke))
    (hr : walk_body env w tptr = .error e) : CallbackFault env w tptr := by
  obtain ⟨slots, habs, hn⟩ := h
  cases hs : slots w.current_spoke with
  | nil =>
    exact absurd (hn.symm.trans (habs.empty_linked habs.cur hs).2.2.1) hne
  | cons a rest =>
    have ht : tptr = some (.timer a) := hn.symm.trans (habs.head_linked habs.cur hs).2.2.1
    subst ht
    refine ⟨a, rfl, ?_⟩
    by_cases hrot : 0 < w.rotation_count a
    · rw [(walk_body_spin env habs hs hrot).1] at hr
      cases hr
    · obtain ⟨_, hp, _, nx0, hnx, _, hhead0, _⟩ := head_facts habs hs
      obtain ⟨nx, hhead, habs1, heq⟩ := walk_body_expire env habs hs hrot
      rw [heq] at hr
      cases hcb : w.cb a with
      | none => exact Or.inl rfl
      | some c =>
        right
        rw [hcb] at hr
        simp only [] at hr
        have hnxeq : nx0 = nx := by
          rw [hhead0] at hhead
          injection hhead with hhead
        subst hnxeq
        cases hops : runOps (env c a (w.cb_argument a))
            (expireW w a (.spoke w.current_spoke) nx0 c) with
        | error e1 => exact ⟨c, _, nx0, e1, rfl, hp, hnx, hops⟩
        | ok w6 =>
          rw [hops] at hr
          obtain ⟨_, hn6, _⟩ := runOps_abs _ (habs1 c) hops
          have hn6' : w6.num_spokes = w.num_spokes := hn6
          have hv : valid w6 (.spoke w.current_spoke) = true := by
            simpa [valid, hn6'] using habs.cur
          simp only [readNext] at hr
          rw [if_neg (by simp [hv])] at hr
          cases hr

theorem walkAll_of_head (env : Callbacks) : ∀ (fuel : Nat) (w : World) (tptr : Option Ptr),
    AtHead w tptr → walkAll InCurrent env fuel (.spoke w.current_spoke) tptr w
  | 0, _, _, _ => trivial
  | fuel + 1, w, tptr, h => by
    refine ⟨h.inCurrent, ?_⟩
    by_cases hne : tptr = some (.spoke w.current_spoke)
    · rw [if_pos hne]; trivial
    · rw [if_neg hne]
      cases hb : walk_body env w tptr with
      | error e => exact walk_body_fault env h hne hb
      | ok r =>
        obtain ⟨w1, t⟩ := r
        obtain ⟨h1, hc⟩ := walk_body_head env h hne hb
        have := walkAll_of_head env fuel w1 t h1
        rw [hc] at this
        exact this

/-- C2: on a well-formed wheel and for every callback table, that is for
callbacks making any sequence of `lmtimer_start` and `lmtimer_stop` calls,
`handle_timers` is the loop started at the first node of the new current
spoke, and at the start of every iteration the loop makes, the first one and
each one after a callback returned, the node it is about to look at is the
sentinel of the current spoke or a timer linked in the list of the current
spoke of a wheel that is well formed at that moment; an iteration fails only
when the callback pointer is null or an interface call of the callback
fails. -/
theorem traversal_stays_in_current_spoke (env : Callbacks) (fuel : Nat) {w : World}
    {slots : Nat → List Nat} (h : Abs w slots) :
    handle_timers env fuel w =
      walk env fuel (.spoke ((w.current_spoke + 1) % w.num_spokes))
        (w.links_next (.spoke ((w.current_spoke + 1) % w.num_spokes)))
        { w with current_spoke := (w.current_spoke + 1) % w.num_spokes } ∧
    walkAll InCurrent env fuel (.spoke ((w.current_spoke + 1) % w.num_spokes))
      (w.links_next (.spoke ((w.current_spoke + 1) % w.num_spokes)))
      { w with current_spoke := (w.current_spoke + 1) % w.num_spokes } := by
  have hlt : (w.current_spoke + 1) % w.num_spokes < w.num_spokes := Nat.mod_lt _ h.npos
  constructor
  · unfold handle_timers
    rw [if_neg (by have := h.npos; omega)]
    simp only []
    rw [if_neg (by simp [valid, hlt])]
  · exact walkAll_of_head env fuel { w with current_spoke := (w.current_spoke + 1) % w.num_spokes }
      _ ⟨slots, h.turn hlt, rfl⟩

/-! ## A tick whose callbacks leave the wheel alone -/

theorem Fired.refl (w : World) : Fired w w [] :=
  { num_spokes := rfl, current_spoke := rfl, live := rfl, brk := rfl, cb := rfl,
    cb_argument := rfl, duration := rfl, calls := by simp, running := by simp,
    expirations := by simp, rot := fun _ _ => rfl }

theorem Fired.cons {w w1 w2 : World} {a : Nat} {l : List Nat} (h1 : Fired w w1 [a])
    (h2 : Fired w1 w2 l) : Fired w w2 (a :: l) :=
  { num_spokes := h2.num_spokes.trans h1.num_spokes
    current_spoke := h2.current_spoke.trans h1.current_spoke
    live := h2.live.trans h1.live
    brk := h2.brk.trans h1.brk
    cb := h2.cb.trans h1.cb
    cb_argument := h2.cb_argument.trans h1.cb_argument
    duration := h2.duration.trans h1.duration
    calls := by
      have : ∀ b, callOf w1 b = callOf w b := fun b => by
        simp [callOf, h1.cb, h1.cb_argument]
      rw [h2.calls, h1.calls]
      simp [this]
    running := by
      rw [h2.running, h1.running]
      simp only [List.length_cons, List.length_nil, Nat.cast_add, Nat.cast_one]
      omega
    expirations := by
      rw [h2.expirations, h1.expirations]
      simp only [List.length_cons, List.length_nil, Nat.cast_add, Nat.cast_one]
      omega
    rot := fun b hb => by
      rw [h2.rot b (fun hc => hb (List.mem_cons_of_mem _ hc)),
        h1.rot b (fun hc => hb (by
          rw [List.mem_singleton] at hc
          rw [hc]
          exact List.mem_cons_self _ _))] }

/-- Spinning the rotation count of the timer at the head of the list does not
change what its later expiry looks like from outside. -/
theorem Fired.spin {w w' : World} {a : Nat} {l : List Nat} (r : Int)
    (h : Fired (setRot (visit w a) a r) w' (a :: l)) : Fired w w' (a :: l) :=
  { num_spokes := h.num_spokes
    current_spoke := h.current_spoke
    live := h.live
    brk := h.brk
    cb := h.cb
    cb_argument := h.cb_argument
    duration := h.duration
    calls := h.calls
    running := h.running
    expirations := h.expirations
    rot := fun b hb => by
      have hba : b ≠ a := fun hc => hb (hc ▸ List.mem_cons_self _ _)
      rw [h.rot b hb]
      simp [setRot, visit, Function.update_apply, hba] }

theorem Fired.expire (w : World) (a : Nat) (pv nx : Ptr) (c : Nat) (hc : w.cb a = some c) :
    Fired w (expireW w a pv nx c) [a] :=
  { num_spokes := by simp [expireW, clearLinks, unlinkW, setNext, setPrev, visit]
    current_spoke := by simp [expireW, clearLinks, unlinkW, setNext, setPrev, visit]
    live := by simp [expireW, clearLinks, unlinkW, setNext, setPrev, visit]
    brk := by simp [expireW, clearLinks, unlinkW, setNext, setPrev, visit]
    cb := by simp [expireW, clearLinks, unlinkW, setNext, setPrev, visit]
    cb_argument := by simp [expireW, clearLinks, unlinkW, setNext, setPrev, visit]
    duration := by simp [expireW, clearLinks, unlinkW, setNext, setPrev, visit]
    calls := by
      simp [expireW, clearLinks, unlinkW, setNext, setPrev, visit, callOf, hc]
    running := by
      simp [expireW, clearLinks, unlinkW, setNext, setPrev, visit]
    expirations := by
      simp [expireW, clearLinks, unlinkW, setNext, setPrev, visit]
    rot := fun _ _ => by simp [expireW, clearLinks, unlinkW, setNext, setPrev, visit] }

theorem update_erase_head {w : World} {slots : Nat → List Nat} {c a : Nat} {rest : List Nat}
    (h : Abs w slots) (hs : slots c = a :: rest) :
    Function.update (eraseT slots a) c [] = Function.update slots c [] := by
  funext j
  by_cases hj : j = c
  · subst hj; simp
  · rw [Function.update_noteq hj, Function.update_noteq hj]
    have : a ∉ slots j := fun hc => hj (h.disj j c a hc (by rw [hs]; simp))
    exact List.erase_of_not_mem this

/-- With quiet callbacks the loop of `handle_timers`, started at the first
node of the current spoke, returns once it has enough fuel: it expires every
timer of that spoke in list order and leaves the spoke empty. -/
theorem walk_quiet {env : Callbacks} (hq : Quiet env) (c : Nat) :
    ∀ (l : List Nat) (w : World) (slots : Nat → List Nat), Abs w slots →
      w.current_spoke = c → slots c = l → (∀ a ∈ l, ∃ k, w.cb a = some k) →
      ∃ w' F, (∀ fuel, F ≤ fuel →
          walk env fuel (.spoke c) (w.links_next (.spoke c)) w = .ok w') ∧
        Abs w' (Function.update slots c []) ∧ Fired w w' l := by
  intro l
  induction l with
  | nil =>
    intro w slots h hc hs _
    subst hc
    refine ⟨w, 1, ?_, ?_, Fired.refl w⟩
    · intro fuel hf
      obtain ⟨f, rfl⟩ : ∃ f, fuel = f + 1 := ⟨fuel - 1, by omega⟩
      have := (h.empty_linked h.cur hs).2.2.1
      simp only [walk]
      rw [if_pos this]
    · have : Function.update slots w.current_spoke [] = slots := by
        rw [← hs]; exact Function.update_eq_self _ _
      rw [this]; exact h
  | cons a rest ih =>
    have inner : ∀ (k : Nat) (w : World) (slots : Nat → List Nat), Abs w slots →
        w.current_spoke = c → slots c = a :: rest →
        (∀ b ∈ a :: rest, ∃ k, w.cb b = some k) → (w.rotation_count a).toNat = k →
        ∃ w' F, (∀ fuel, F ≤ fuel →
            walk env fuel (.spoke c) (w.links_next (.spoke c)) w = .ok w') ∧
          Abs w' (Function.update slots c []) ∧ Fired w w' (a :: rest) := by
      intro k
      induction k with
      | zero =>
        intro w slots h hc hs hcb hk
        subst hc
        have hrot : ¬ 0 < w.rotation_count a := by omega
        obtain ⟨_, _, hnext, _⟩ := head_facts h hs
        obtain ⟨nx, _, habs1, heq⟩ := walk_body_expire env h hs hrot
        obtain ⟨cid, hcid⟩ := hcb a (List.mem_cons_self _ _)
        have hc5 : (expireW w a (.spoke w.current_spoke) nx cid).current_spoke =
            w.current_spoke := by
          simp [expireW, clearLinks, unlinkW, setNext, setPrev, visit]
        have hcb5 : (expireW w a (.spoke w.current_spoke) nx cid).cb = w.cb := by
          simp [expireW, clearLinks, unlinkW, setNext, setPrev, visit]
        have hn5 : (expireW w a (.spoke w.current_spoke) nx cid).num_spokes =
            w.num_spokes := by
          simp [expireW, clearLinks, unlinkW, setNext, setPrev, visit]
        obtain ⟨w', F, hrun, habs', hfired⟩ := ih _ _ (habs1 cid) hc5 (eraseT_head hs)
          (fun b hb => by rw [hcb5]; exact hcb b (List.mem_cons_of_mem _ hb))
        refine ⟨w', F + 1, ?_, ?_, (Fired.expire w a _ nx cid hcid).cons hfired⟩
        · intro fuel hf
          obtain ⟨f, rfl⟩ : ∃ f, fuel = f + 1 := ⟨fuel - 1, by omega⟩
          have hv : valid (expireW w a (.spoke w.current_spoke) nx cid)
              (.spoke w.current_spoke) = true := by
            simpa [valid, hn5] using h.cur
          have hb : walk_body env w (some (.timer a)) =
              .ok (expireW w a (.spoke w.current_spoke) nx cid,
                (expireW w a (.spoke w.current_spoke) nx cid).links_next
                  (.spoke w.current_spoke)) := by
            rw [heq, hcid]
            simp only [hq cid a (w.cb_argument a), runOps, readNext]
            rw [if_neg (by simp [hv])]
          simp only [walk]
          rw [hnext, if_neg (by simp), hb]
          exact hrun f (by omega)
        · rw [← update_erase_head h hs]; exact habs'
      | succ k ihk =>
        intro w slots h hc hs hcb hk
        subst hc
        have hrot : 0 < w.rotation_count a := by omega
        obtain ⟨_, _, hnext, _⟩ := head_facts h hs
        obtain ⟨heq, habs1⟩ := walk_body_spin env h hs hrot
        have hk1 : ((setRot (visit w a) a (w.rotation_count a - 1)).rotation_count a).toNat
            = k := by
          simp only [setRot, visit, Function.update_same]
          omega
        obtain ⟨w', F, hrun, habs', hfired⟩ := ihk _ slots habs1 rfl hs hcb hk1
        refine ⟨w', F + 1, ?_, habs', Fired.spin _ hfired⟩
        intro fuel hf
        obtain ⟨f, rfl⟩ : ∃ f, fuel = f + 1 := ⟨fuel - 1, by omega⟩
        simp only [walk]
        rw [hnext, if_neg (by simp), heq]
        have := hrun f (by omega)
        rw [show (setRot (visit w a) a (w.rotation_count a - 1)).links_next
          (.spoke w.current_spoke) = some (.timer a) from hnext] at this
        exact this
    intro w slots h hc hs hcb
    exact inner _ w slots h hc hs hcb rfl

theorem nextSpoke_lt {x : Option Nat} {w : World} {slots : Nat → List Nat}
    (h : AbsX x w slots) : nextSpoke w < w.num_spokes :=
  Nat.mod_lt _ h.npos

theorem handle_timers_eq {x : Option Nat} {w : World} {slots : Nat → List Nat}
    (h : AbsX x w slots) (env : Callbacks) (fuel : Nat) :
    handle_timers env fuel w =
      walk env fuel (.spoke (nextSpoke w)) (w.links_next (.spoke (nextSpoke w)))
        (turnTo w (nextSpoke w)) := by
  have hlt := nextSpoke_lt h
  unfold handle_timers
  rw [if_neg (by have := h.npos; omega)]
  simp only []
  rw [if_neg (by simpa [valid, nextSpoke] using hlt)]
  rfl

theorem CbOk.mono {w w' : World} {slots slots' : Nat → List Nat} (h : CbOk w slots)
    (hcb : w'.cb = w.cb) (hsub : ∀ i a, a ∈ slots' i → a ∈ slots i) : CbOk w' slots' :=
  fun i a ha => by rw [hcb]; exact h i a (hsub i a ha)

theorem mem_update_nil {slots : Nat → List Nat} {c i a : Nat}
    (h : a ∈ Function.update slots c [] i) : a ∈ slots i ∧ i ≠ c := by
  by_cases hi : i = c
  · subst hi; simp at h
  · rw [Function.update_noteq hi] at h; exact ⟨h, hi⟩

/-- One tick with quiet callbacks on a well-formed wheel whose linked timers
all have a callback: with enough fuel `handle_timers` returns, the spoke that
became current is empty afterwards and its timers expired in list order. -/
theorem tick_quiet {env : Callbacks} (hq : Quiet env) {w : World} {slots : Nat → List Nat}
    (h : Abs w slots) (hcb : CbOk w slots) :
    ∃ w' F, (∀ fuel, F ≤ fuel → handle_timers env fuel w = .ok w') ∧
      Abs w' (Function.update slots (nextSpoke w) []) ∧
      CbOk w' (Function.update slots (nextSpoke w) []) ∧
      w'.current_spoke = nextSpoke w ∧
      Fired (turnTo w (nextSpoke w)) w' (slots (nextSpoke w)) := by
  have hlt := nextSpoke_lt h
  obtain ⟨w', F, hrun, habs, hf⟩ := walk_quiet hq (nextSpoke w) (slots (nextSpoke w))
    (turnTo w (nextSpoke w)) slots (h.turn hlt) rfl rfl
    (fun a ha => hcb _ a ha)
  refine ⟨w', F, ?_, habs, ?_, hf.current_spoke, hf⟩
  · intro fuel hfuel
    rw [handle_timers_eq h]
    exact hrun fuel hfuel
  · exact hcb.mono hf.cb (fun i a ha => (mem_update_nil ha).1)

theorem callsFor_append (t : Nat) (l1 l2 : List Call) :
    callsFor t (l1 ++ l2) = callsFor t l1 ++ callsFor t l2 := by
  simp [callsFor]

theorem callsFor_map_of_not_mem (w : World) (t : Nat) :
    ∀ l : List Nat, t ∉ l → callsFor t (l.map (callOf w)) = []
  | [], _ => rfl
  | b :: l, h => by
    have hb : b ≠ t := fun hc => h (hc ▸ List.mem_cons_self _ _)
    have hl : t ∉ l := fun hc => h (List.mem_cons_of_mem _ hc)
    have ih := callsFor_map_of_not_mem w t l hl
    simp only [callsFor, List.map_cons, List.filter_cons, callOf] at ih ⊢
    simp [hb, ih]

theorem callsFor_map_of_mem (w : World) (t : Nat) :
    ∀ l : List Nat, l.Nodup → t ∈ l → callsFor t (l.map (callOf w)) = [callOf w t]
  | [], _, h => by cases h
  | b :: l, hnd, h => by
    rw [List.nodup_cons] at hnd
    by_cases hb : b = t
    · subst hb
      have ih := callsFor_map_of_not_mem w b l hnd.1
      simp only [callsFor, List.map_cons, List.filter_cons, callOf] at ih ⊢
      simp [ih]
    · have hl : t ∈ l := by
        rcases List.mem_cons.1 h with h1 | h1
        · exact absurd h1.symm hb
        · exact h1
      have ih := callsFor_map_of_mem w t l hnd.2 hl
      simp only [callsFor, List.map_cons, List.filter_cons, callOf] at ih ⊢
      simp [hb, ih]

/-- Ticks that do not reach spoke `p` return with enough fuel and leave the
list of spoke `p`, the data of its timers and the invocations made for them
as they were. -/
theorem ticks_quiet_wait {env : Callbacks} (hq : Quiet env) (p : Nat) :
    ∀ (j : Nat) (w : World) (slots : Nat → List Nat), Abs w slots → CbOk w slots →
      (∀ i, 1 ≤ i → i ≤ j → (w.current_spoke + i) % w.num_spokes ≠ p) →
      ∃ w' F slots', (∀ fuel, F ≤ fuel → ticks env fuel j w = .ok w') ∧
        Abs w' slots' ∧ CbOk w' slots' ∧ slots' p = slots p ∧
        w'.current_spoke = (w.current_spoke + j) % w.num_spokes ∧
        w'.num_spokes = w.num_spokes ∧ w'.cb = w.cb ∧ w'.cb_argument = w.cb_argument ∧
        (∀ b ∈ slots p, w'.rotation_count b = w.rotation_count b) ∧
        (∀ t ∈ slots p, callsFor t w'.calls = callsFor t w.calls)
  | 0, w, slots, h, hcb, _ =>
    ⟨w, 0, slots, fun _ _ => rfl, h, hcb, rfl, by
      rw [Nat.add_zero, Nat.mod_eq_of_lt h.cur], rfl, rfl, rfl, fun _ _ => rfl,
      fun _ _ => rfl⟩
  | j + 1, w, slots, h, hcb, hne => by
    obtain ⟨w1, F1, hrun1, habs1, hcb1, hc1, hf1⟩ := tick_quiet hq h hcb
    have hnp : nextSpoke w ≠ p := hne 1 (Nat.le_refl 1) (by omega)
    have hn1 : w1.num_spokes = w.num_spokes := hf1.num_spokes
    have hstep : ∀ i, 1 ≤ i → i ≤ j → (w1.current_spoke + i) % w1.num_spokes ≠ p := by
      intro i hi1 hi2
      have := hne (i + 1) (by omega) (by omega)
      rw [hc1, hn1]
      unfold nextSpoke
      rw [Nat.add_mod, Nat.mod_mod, ← Nat.add_mod]
      rw [show w.current_spoke + 1 + i = w.current_spoke + (i + 1) by omega]
      exact this
    obtain ⟨w', F, slots', hrun, habs', hcb', hsl, hc', hn', hcbeq, hargeq, hrot, hcalls⟩ :=
      ticks_quiet_wait hq p j w1 _ habs1 hcb1 hstep
    have hp1 : Function.update slots (nextSpoke w) [] p = slots p :=
      Function.update_noteq (Ne.symm hnp) _ _
    have hdis : ∀ t ∈ slots p, t ∉ slots (nextSpoke w) := fun t ht hc =>
      hnp (h.disj _ _ t hc ht)
    refine ⟨w', max F1 F, slots', ?_, habs', hcb', hsl.trans hp1, ?_, hn'.trans hn1,
      hcbeq.trans hf1.cb, hargeq.trans hf1.cb_argument, ?_, ?_⟩
    · intro fuel hfuel
      simp only [ticks]
      rw [hrun1 fuel (le_trans (le_max_left _ _) hfuel)]
      exact hrun fuel (le_trans (le_max_right _ _) hfuel)
    · rw [hc', hc1, hn1]
      unfold nextSpoke
      rw [Nat.add_mod, Nat.mod_mod, ← Nat.add_mod]
      congr 1
      omega
    · intro b hb
      rw [hrot b (hp1 ▸ hb), hf1.rot b (hdis b hb)]
      rfl
    · intro t ht
      rw [hcalls t (hp1 ▸ ht), hf1.calls, callsFor_append,
        callsFor_map_of_not_mem _ t _ (hdis t ht), List.append_nil]
      rfl

/-- The tick that reaches the spoke of a linked timer invokes the callback of
that timer exactly once and leaves the timer in no list. -/
theorem tick_quiet_fires {env : Callbacks} (hq : Quiet env) {w : World}
    {slots : Nat → List Nat} (h : Abs w slots) (hcb : CbOk w slots) {t : Nat}
    (ht : t ∈ slots (nextSpoke w)) :
    ∃ w' F slots', (∀ fuel, F ≤ fuel → handle_timers env fuel w = .ok w') ∧
      Abs w' slots' ∧ CbOk w' slots' ∧ (∀ i, t ∉ slots' i) ∧
      callsFor t w'.calls = callsFor t w.calls ++ [callOf w t] := by
  obtain ⟨w1, F1, hrun1, habs1, hcb1, _, hf1⟩ := tick_quiet hq h hcb
  refine ⟨w1, F1, _, hrun1, habs1, hcb1, ?_, ?_⟩
  · intro i hi
    obtain ⟨h1, h2⟩ := mem_update_nil hi
    exact h2 (h.disj _ _ t h1 ht)
  · rw [hf1.calls, callsFor_append, callsFor_map_of_mem _ t _ (h.nodup _) ht]
    rfl

/-! ## A freed timer is never invoked -/

theorem insert_timer_keeps {w w' : World} {u : Nat} (h : insert_timer w u = .ok w') :
    w'.live = w.live ∧ w'.calls = w.calls := by
  unfold insert_timer at h
  split at h
  · cases h
  · simp only [] at h
    split at h
    · cases h
    · split at h
      · cases h
      · split at h
        · cases h
        · split at h
          · cases h
          · injection h with h
            subst h
            exact ⟨rfl, rfl⟩

theorem lmtimer_start_keeps {w w' : World} {u : Nat} {d : Int} {cb : Option Nat} {o a : Nat}
    (h : lmtimer_start w u d cb o a = .ok w') : w'.live = w.live ∧ w'.calls = w.calls := by
  rw [lmtimer_start_def] at h
  split at h
  · cases h
  · split at h
    · cases h
    · rename_i w1 hw1
      have h1 : w1.live = w.live ∧ w1.calls = w.calls := by
        split at hw1
        · injection hw1 with hw1
          subst hw1
          exact ⟨rfl, rfl⟩
        · split at hw1
          · cases hw1
          · split at hw1
            · cases hw1
            · split at hw1
              · cases hw1
              · injection hw1 with hw1
                subst hw1
                exact ⟨rfl, rfl⟩
      split at h
      · cases h
      · rename_i w3 hw3
        injection h with h
        subst h
        obtain ⟨h3, h4⟩ := insert_timer_keeps hw3
        exact ⟨h3.trans h1.1, h4.trans h1.2⟩

theorem stop_unlink_keeps {w w' : World} {u : Nat} (h : stop_unlink w u = .ok w') :
    w'.live = w.live ∧ w'.calls = w.calls := by
  rw [stop_unlink_def] at h
  split at h
  · cases h
  · split at h
    · cases h
    · rename_i w1 hw1
      have h1 : w1.live = w.live ∧ w1.calls = w.calls := by
        split at hw1
        · injection hw1 with hw1
          subst hw1
          exact ⟨rfl, rfl⟩
        · split at hw1
          · cases hw1
          · injection hw1 with hw1
            subst hw1
            exact ⟨rfl, rfl⟩
      split at h
      · cases h
      · rename_i w2 hw2
        have h2 : w2.live = w1.live ∧ w2.calls = w1.calls := by
          split at hw2
          · injection hw2 with hw2
            subst hw2
            exact ⟨rfl, rfl⟩
          · split at hw2
            · cases hw2
            · injection hw2 with hw2
              subst hw2
              exact ⟨rfl, rfl⟩
        split at h
        · injection h with h
          subst h
          exact ⟨h2.1.trans h1.1, h2.2.trans h1.2⟩
        · injection h with h
          subst h
          exact ⟨h2.1.trans h1.1, h2.2.trans h1.2⟩

theorem lmtimer_stop_keeps {w w' : World} {u : Option Nat} (h : lmtimer_stop w u = .ok w') :
    (∀ x, w.live x = false → w'.live x = false) ∧ w'.calls = w.calls := by
  cases u with
  | none =>
    injection h with h
    subst h
    exact ⟨fun _ hx => hx, rfl⟩
  | some u =>
    simp only [lmtimer_stop] at h
    split at h
    · cases h
    · rename_i w1 hw1
      injection h with h
      subst h
      obtain ⟨h1, h2⟩ := stop_unlink_keeps hw1
      refine ⟨fun x hx => ?_, h2⟩
      by_cases hxu : x = u
      · subst hxu; simp [free]
      · simp [free, Function.update_apply, hxu, h1, hx]

theorem runOps_keeps : ∀ (ops : List Op) {w w' : World}, runOps ops w = .ok w' →
    (∀ x, w.live x = false → w'.live x = false) ∧ w'.calls = w.calls
  | [], w, w', h => by
    injection h with h
    subst h
    exact ⟨fun _ hx => hx, rfl⟩
  | op :: ops, w, w', h => by
    simp only [runOps] at h
    split at h
    · cases h
    · rename_i w1 hw1
      have h1 : (∀ x, w.live x = false → w1.live x = false) ∧ w1.calls = w.calls := by
        cases op with
        | start u d cb o a =>
          obtain ⟨h3, h4⟩ := lmtimer_start_keeps hw1
          exact ⟨fun x hx => by rw [h3]; exact hx, h4⟩
        | stop u => exact lmtimer_stop_keeps hw1
      obtain ⟨h3, h4⟩ := runOps_keeps ops h
      exact ⟨fun x hx => h3 x (h1.1 x hx), h4.trans h1.2⟩

theorem callsFor_snoc_ne (t : Nat) (l : List Call) (x : Call) (h : x.tptr ≠ t) :
    callsFor t (l ++ [x]) = callsFor t l := by
  simp [callsFor, List.filter_append, h]

/-- An iteration of the loop neither revives a dead timer nor invokes it. -/
theorem walk_body_keeps (env : Callbacks) {w w1 : World} {tptr t' : Option Ptr} {t : Nat}
    (hd : w.live t = false) (h : walk_body env w tptr = .ok (w1, t')) :
    w1.live t = false ∧ callsFor t w1.calls = callsFor t w.calls := by
  cases tptr with
  | none => simp [walk_body] at h
  | some p =>
    cases p with
    | spoke i => simp [walk_body] at h
    | timer a =>
      rw [walk_body_def] at h
      by_cases hla : w.live a = false
      · rw [if_pos hla] at h; cases h
      rw [if_neg hla] at h
      have hat : a ≠ t := by
        intro hc
        subst hc
        exact hla hd
      by_cases hr : 0 < w.rotation_count a
      · rw [if_pos hr] at h
        cases hrn : readNext (setRot (visit w a) a (w.rotation_count a - 1))
            (w.links_prev (.timer a)) with
        | error e => rw [hrn] at h; cases h
        | ok t1 =>
          rw [hrn] at h
          injection h with h
          injection h with h1 h2
          subst h1
          exact ⟨hd, rfl⟩
      rw [if_neg hr] at h
      cases hp : w.links_prev (.timer a) with
      | none => rw [hp] at h; cases h
      | some pv =>
        cases hn : w.links_next (.timer a) with
        | none => rw [hp, hn] at h; cases h
        | some nx =>
          rw [hp, hn] at h
          simp only [] at h
          by_cases hv1 : valid (visit w a) pv = false
          · rw [if_pos hv1] at h; cases h
          rw [if_neg hv1] at h
          by_cases hv2 : valid (setNext (visit w a) pv (some nx)) nx = false
          · rw [if_pos hv2] at h; cases h
          rw [if_neg hv2] at h
          cases hcb : w.cb a with
          | none => rw [hcb] at h; cases h
          | some c =>
            rw [hcb] at h
            simp only [] at h
            cases hops : runOps (env c a (w.cb_argument a)) (expireW w a pv nx c) with
            | error e => rw [hops] at h; cases h
            | ok w6 =>
              rw [hops] at h
              simp only [] at h
              cases hrn : readNext w6 (some pv) with
              | error e => rw [hrn] at h; cases h
              | ok t1 =>
                rw [hrn] at h
                injection h with h
                injection h with h1 h2
                subst h1
                obtain ⟨h3, h4⟩ := runOps_keeps _ hops
                refine ⟨h3 t ?_, ?_⟩
                · simpa [expireW, clearLinks, unlinkW, setNext, setPrev, visit] using hd
                · rw [h4]
                  have : (expireW w a pv nx c).calls =
                      w.calls ++ [⟨c, a, w.cb_argument a⟩] := by
                    simp [expireW, clearLinks, unlinkW, setNext, setPrev, visit]
                  rw [this]
                  exact callsFor_snoc_ne t _ _ hat

theorem walk_keeps (env : Callbacks) (sp : Ptr) (t : Nat) :
    ∀ (fuel : Nat) (tptr : Option Ptr) (w w' : World), w.live t = false →
      walk env fuel sp tptr w = .ok w' →
      w'.live t = false ∧ callsFor t w'.calls = callsFor t w.calls
  | 0, _, _, _, _, h => by simp [walk] at h
  | fuel + 1, tptr, w, w', hd, h => by
    simp only [walk] at h
    split at h
    · injection h with h
      subst h
      exact ⟨hd, rfl⟩
    · split at h
      · cases h
      · rename_i w1 t1 hb
        obtain ⟨h1, h2⟩ := walk_body_keeps env hd hb
        obtain ⟨h3, h4⟩ := walk_keeps env sp t fuel t1 w1 w' h1 h
        exact ⟨h3, h4.trans h2⟩

theorem handle_timers_keeps (env : Callbacks) (fuel : Nat) {w w' : World} {t : Nat}
    (hd : w.live t = false) (h : handle_timers env fuel w = .ok w') :
    w'.live t = false ∧ callsFor t w'.calls = callsFor t w.calls := by
  unfold handle_timers at h
  split at h
  · cases h
  · simp only [] at h
    split at h
    · cases h
    · exact walk_keeps env _ t fuel _
        (turnTo w ((w.current_spoke + 1) % w.num_spokes)) w' hd h

/-- No number of ticks invokes a timer that is dead. -/
theorem ticks_keeps (env : Callbacks) (fuel : Nat) (t : Nat) :
    ∀ (k : Nat) (w w' : World), w.live t = false → ticks env fuel k w = .ok w' →
      w'.live t = false ∧ callsFor t w'.calls = callsFor t w.calls
  | 0, w, w', hd, h => by
    injection h with h
    subst h
    exact ⟨hd, rfl⟩
  | k + 1, w, w', hd, h => by
    simp only [ticks] at h
    split at h
    · cases h
    · rename_i w1 hw1
      obtain ⟨h1, h2⟩ := handle_timers_keeps env fuel hd hw1
      obtain ⟨h3, h4⟩ := ticks_keeps env fuel t k w1 w' h1 h
      exact ⟨h3, h4.trans h2⟩

/-- With quiet callbacks any number of ticks returns, given enough fuel. -/
theorem ticks_quiet_total {env : Callbacks} (hq : Quiet env) :
    ∀ (k : Nat) (w : World) (slots : Nat → List Nat), Abs w slots → CbOk w slots →
      ∃ w' F, ∀ fuel, F ≤ fuel → ticks env fuel k w = .ok w'
  | 0, w, _, _, _ => ⟨w, 0, fun _ _ => rfl⟩
  | k + 1, w, slots, h, hcb => by
    obtain ⟨w1, F1, hrun1, habs1, hcb1, _, _⟩ := tick_quiet hq h hcb
    obtain ⟨w', F, hrun⟩ := ticks_quiet_total hq k w1 _ habs1 hcb1
    refine ⟨w', max F1 F, fun fuel hfuel => ?_⟩
    simp only [ticks]
    rw [hrun1 fuel (le_trans (le_max_left _ _) hfuel)]
    exact hrun fuel (le_trans (le_max_right _ _) hfuel)

/-! ## Rotation counts in `handle_timers`

The loop of `handle_timers` continues with `prev->next` also after an
iteration that only decremented the rotation count.  The timer is then still
linked behind `prev`, so the loop looks at the same timer again until its
count is zero and expires it in the same tick.  The evaluations below run the
functions on the wheel of `lmtimers_init`. -/

/-- C17, evaluated: on the wheel of `lmtimers_init` (4096 spokes) a timer
started with duration 4097, so with rotation count 1 in spoke 1, has its
callback invoked during the first tick and not during the 4097th. -/
theorem long_timer_fires_on_first_tick :
    callsOf (script [fun w => lmtimer_start w 0 4097 (some 1) 0 0,
      handle_timers quiet 3] (created 1)) = some [⟨1, 0, 0⟩] := by
  decide

/-- C5, evaluated: the spoke holds the timers `0`, `1`, `2` in this order,
timers `0` and `1` due and timer `2` with rotation count 1; the callback of
timer `0` stops timer `1`.  Timer `1` is not looked at, but timer `2` is
looked at twice in the traversal and its callback is invoked. -/
theorem sibling_stop_then_double_visit :
    visitsOf (script [fun w => lmtimer_start w 0 1 (some 1) 0 0,
      fun w => lmtimer_start w 1 1 (some 2) 0 0,
      fun w => lmtimer_start w 2 4097 (some 3) 0 0,
      handle_timers stopsSibling 6] (created 3)) = some [0, 2, 2] ∧
    callsOf (script [fun w => lmtimer_start w 0 1 (some 1) 0 0,
      fun w => lmtimer_start w 1 1 (some 2) 0 0,
      fun w => lmtimer_start w 2 4097 (some 3) 0 0,
      handle_timers stopsSibling 6] (created 3)) = some [⟨1, 0, 0⟩, ⟨3, 2, 0⟩] := by
  decide

/-- C6, evaluated: timer `0` expires in the first tick and its callback
starts it again with duration 4097; its callback is invoked again in the
second tick, one tick and not 4097 ticks after the expiry. -/
theorem rearm_with_long_duration_fires_next_tick :
    callsOf (script [fun w => lmtimer_start w 0 1 (some 1) 0 0,
      handle_timers rearmsItself 3, handle_timers rearmsItself 3] (created 1)) =
      some [⟨1, 0, 0⟩, ⟨2, 0, 0⟩] := by
  decide

/-- C8, evaluated: spoke 1 holds timer `0` with rotation count 0 and timer
`1` with rotation count 1; the first tick invokes the callbacks of both, so
also that of the timer that is not due. -/
theorem tick_fires_timer_that_is_not_due :
    (match script [fun w => lmtimer_start w 0 1 (some 1) 0 0,
        fun w => lmtimer_start w 1 4097 (some 2) 0 0] (created 2) with
      | .ok w => some (w.rotation_count 0, w.rotation_count 1)
      | .error _ => none) = some (0, 1) ∧
    callsOf (script [fun w => lmtimer_start w 0 1 (some 1) 0 0,
      fun w => lmtimer_start w 1 4097 (some 2) 0 0,
      handle_timers quiet 5] (created 2)) = some [⟨1, 0, 0⟩, ⟨2, 1, 0⟩] := by
  decide

/-! ## Cancellation, the zero duration and the sample wheel -/

theorem startedAt_spec (d : Int) :
    lmtimer_start oneTimer 0 d (some 1) 0 0 = .ok (startedAt d) ∧
      Abs (startedAt d) (appendT (fun _ => []) (slotOf oneTimer d) 0) := by
  obtain ⟨pv, hpv, heq, habs⟩ := lmtimer_start_idle oneTimer_abs oneTimer_live
    (no_timer_linked 0) d (some 1) 0 0
  have hlk := oneTimer_abs.empty_linked (i := slotOf oneTimer d) (slotOf_lt oneTimer_abs d) rfl
  rw [hlk.2.2.2] at hpv
  injection hpv with hpv
  subst hpv
  exact ⟨heq, habs⟩

theorem startedAt_mem (d : Int) : 0 ∈ appendT (fun _ => []) (slotOf oneTimer d) 0
    (slotOf oneTimer d) := by
  simp [appendT]

theorem startedAt_cbOk (d : Int) :
    CbOk (startedAt d) (appendT (fun _ => []) (slotOf oneTimer d) 0) := by
  intro i a ha
  have : a = 0 := by
    by_cases hi : i = slotOf oneTimer d
    · subst hi
      simpa [appendT] using ha
    · simp [appendT, Function.update_noteq hi] at ha
  subst this
  exact ⟨1, by simp [startedAt, startW, linkTail, setNext, setPrev, setRot, arm]⟩

/-- C4: on a well-formed wheel `lmtimer_stop` on a timer `t` that is linked
in a spoke succeeds; afterwards the wheel is well formed with lists that do
not contain `t`, the links of `t` are null and `t` is freed; whatever the
callbacks do, no run of any number of ticks that returns has invoked the
callback of `t`; and with callbacks that leave the wheel alone every number
of ticks returns once the fuel suffices. -/
theorem stopped_timer_never_fires {w : World} {slots : Nat → List Nat} {t i : Nat}
    (h : Abs w slots) (hti : t ∈ slots i) :
    ∃ w1, lmtimer_stop w (some t) = .ok w1 ∧
      (∃ slots1, Abs w1 slots1 ∧ (∀ j, t ∉ slots1 j) ∧
        ∀ j, slots1 j = (slots j).erase t) ∧
      w1.links_next (.timer t) = none ∧ w1.links_prev (.timer t) = none ∧
      w1.live t = false ∧
      (∀ (env : Callbacks) (fuel k : Nat) (w' : World), ticks env fuel k w1 = .ok w' →
        callsFor t w'.calls = callsFor t w1.calls) ∧
      (∀ env : Callbacks, Quiet env → CbOk w slots → ∀ k : Nat,
        ∃ w' F, ∀ fuel, F ≤ fuel → ticks env fuel k w1 = .ok w') := by
  obtain ⟨pv, nx, _, _, heq, habs⟩ := lmtimer_stop_linked h hti
  have hdead : (free (stopW w t pv nx) t).live t = false := by simp [free]
  have hcbeq : (free (stopW w t pv nx) t).cb = w.cb := by
    simp [free, stopW, clearLinks, unlinkW, setNext, setPrev]
  refine ⟨_, heq, ⟨_, habs, not_mem_eraseT h t, fun _ => rfl⟩, ?_, ?_, hdead, ?_, ?_⟩
  · simp [free, stopW, clearLinks, unlinkW, setNext, setPrev]
  · simp [free, stopW, clearLinks, unlinkW, setNext, setPrev]
  · intro env fuel k w' hrun
    exact (ticks_keeps env fuel t k _ w' hdead hrun).2
  · intro env hq hcb k
    exact ticks_quiet_total hq k _ _ habs
      (hcb.mono hcbeq (fun j a ha => List.mem_of_mem_erase ha))

/-- Witness for C4: timer `0`, started with duration 5 on a fresh wheel of
eight spokes, is stopped. -/
theorem stopped_timer_never_fires_witness :
    (Abs (startedAt 5) (appendT (fun _ => []) (slotOf oneTimer 5) 0) ∧
      0 ∈ appendT (fun _ => []) (slotOf oneTimer 5) 0 (slotOf oneTimer 5)) ∧
    ∃ w1, lmtimer_stop (startedAt 5) (some 0) = .ok w1 ∧
      (∃ slots1, Abs w1 slots1 ∧ (∀ j, 0 ∉ slots1 j) ∧
        ∀ j, slots1 j = (appendT (fun _ => []) (slotOf oneTimer 5) 0 j).erase 0) ∧
      w1.links_next (.timer 0) = none ∧ w1.links_prev (.timer 0) = none ∧
      w1.live 0 = false ∧
      (∀ (env : Callbacks) (fuel k : Nat) (w' : World), ticks env fuel k w1 = .ok w' →
        callsFor 0 w'.calls = callsFor 0 w1.calls) ∧
      (∀ env : Callbacks, Quiet env →
        CbOk (startedAt 5) (appendT (fun _ => []) (slotOf oneTimer 5) 0) → ∀ k : Nat,
        ∃ w' F, ∀ fuel, F ≤ fuel → ticks env fuel k w1 = .ok w') :=
  ⟨⟨(startedAt_spec 5).2, startedAt_mem 5⟩,
    stopped_timer_never_fires (startedAt_spec 5).2 (startedAt_mem 5)⟩

/-- Witness for C2: the wheel of eight spokes with timer `0` started with
duration 1, under a callback that starts its own timer again with duration 8,
which is into the spoke being traversed. -/
theorem traversal_stays_in_current_spoke_witness :
    Abs (startedAt 1) (appendT (fun _ => []) (slotOf oneTimer 1) 0) ∧
    (handle_timers (fun _ t _ => [Op.start t 8 (some 1) 0 0]) 9 (startedAt 1) =
      walk (fun _ t _ => [Op.start t 8 (some 1) 0 0]) 9
        (.spoke (((startedAt 1).current_spoke + 1) % (startedAt 1).num_spokes))
        ((startedAt 1).links_next
          (.spoke (((startedAt 1).current_spoke + 1) % (startedAt 1).num_spokes)))
        { startedAt 1 with
          current_spoke := ((startedAt 1).current_spoke + 1) % (startedAt 1).num_spokes } ∧
    walkAll InCurrent (fun _ t _ => [Op.start t 8 (some 1) 0 0]) 9
      (.spoke (((startedAt 1).current_spoke + 1) % (startedAt 1).num_spokes))
      ((startedAt 1).links_next
        (.spoke (((startedAt 1).current_spoke + 1) % (startedAt 1).num_spokes)))
      { startedAt 1 with
        current_spoke := ((startedAt 1).current_spoke + 1) % (startedAt 1).num_spokes }) :=
  ⟨(startedAt_spec 1).2,
    traversal_stays_in_current_spoke
      (fun _ t _ => [Op.start t 8 (some 1) 0 0]) 9 (startedAt_spec 1).2⟩

theorem startW_cbOk {w : World} {slots : Nat → List Nat} {t : Nat} (hcb : CbOk w slots)
    (d : Int) (c o a : Nat) (pv : Ptr) (pos : Nat) :
    CbOk (startW w t d (some c) o a pv) (appendT slots pos t) := by
  intro i b hb
  by_cases hbt : b = t
  · subst hbt
    exact ⟨c, by simp [startW, linkTail, setNext, setPrev, setRot, arm]⟩
  · have hmem : b ∈ slots i := by
      by_cases hi : i = pos
      · subst hi
        simpa [appendT, hbt] using hb
      · simpa [appendT, Function.update_noteq hi] using hb
    obtain ⟨k, hk⟩ := hcb i b hmem
    exact ⟨k, by simp [startW, linkTail, setNext, setPrev, setRot, arm,
      Function.update_apply, hbt, hk]⟩

theorem startW_callOf (w : World) (t : Nat) (d : Int) (c o a : Nat) (pv : Ptr) :
    callOf (startW w t d (some c) o a pv) t = ⟨c, t, a⟩ := by
  simp [callOf, startW, linkTail, setNext, setPrev, setRot, arm]

theorem add_mod_ne_self {c n i : Nat} (hc : c < n) (h1 : 1 ≤ i) (h2 : i < n) :
    (c + i) % n ≠ c := by
  intro h
  by_cases hlt : c + i < n
  · rw [Nat.mod_eq_of_lt hlt] at h
    omega
  · rw [Nat.mod_eq_sub_mod (by omega), Nat.mod_eq_of_lt (by omega)] at h
    omega

/-- A wheel of one spoke, which `lmtimers_init` never builds, is the one size
at which a timer started with duration 0 is fired by the next tick: there the
next tick is also the tick that comes back to the current spoke. -/
theorem zero_duration_fires_at_once_on_one_spoke :
    callsOf (script [fun w => lmtimer_start w 0 0 (some 1) 0 0, handle_timers quiet 3]
      (lmtimer_create 64 [] (wheel_init 1)).2) = some [⟨1, 0, 0⟩] := by
  decide

theorem ticks_one (env : Callbacks) (fuel : Nat) (w : World) :
    ticks env fuel 1 w = handle_timers env fuel w := by
  simp only [ticks]
  cases handle_timers env fuel w <;> rfl

theorem slotOf_zero {x : Option Nat} {w : World} {slots : Nat → List Nat}
    (h : AbsX x w slots) : slotOf w 0 = w.current_spoke := by
  have := slotOf_nat h (d := 0) (by decide)
  rw [Nat.zero_mod, Nat.add_zero, Nat.mod_eq_of_lt h.cur] at this
  exact this

theorem slotOf_one {x : Option Nat} {w : World} {slots : Nat → List Nat}
    (h : AbsX x w slots) (hn : 2 ≤ w.num_spokes) : slotOf w 1 = nextSpoke w := by
  have := slotOf_nat h (d := 1) (by decide)
  rw [Nat.mod_eq_of_lt (by omega : 1 < w.num_spokes)] at this
  exact this

theorem rotOf_zero {x : Option Nat} {w : World} {slots : Nat → List Nat}
    (h : AbsX x w slots) : rotOf w 0 = 0 := by
  have := rotOf_nat h (d := 0) (by decide)
  rw [Nat.zero_div] at this
  exact this

/-- C9: with callbacks that leave the wheel alone, an idle timer started
between ticks with duration 0 on a well-formed wheel of `n` spokes is appended
to the current spoke with rotation count 0; the next tick returns without
invoking its callback; the first `n - 1` ticks return without invoking it and
the `n`-th tick invokes it exactly once.  Started with duration 1 instead, its
callback is invoked exactly once by the next tick.  The wheel has at least two
spokes, as has every wheel of the program: `lmtimers_init` builds `WHEEL_SIZE`,
that is 4096, spokes and no function changes `num_spokes`. -/
theorem zero_duration_waits_one_turn {env : Callbacks} (hq : Quiet env) {w : World}
    {slots : Nat → List Nat} {t : Nat} (c o a : Nat) (h : Abs w slots) (hcb : CbOk w slots)
    (hl : w.live t = true) (ht : ∀ i, t ∉ slots i) (hn : 2 ≤ w.num_spokes) :
    (∃ w0 slots0, lmtimer_start w t 0 (some c) o a = .ok w0 ∧ Abs w0 slots0 ∧
      slots0 w.current_spoke = slots w.current_spoke ++ [t] ∧
      w0.rotation_count t = 0 ∧
      (∃ w1 F, (∀ fuel, F ≤ fuel → handle_timers env fuel w0 = .ok w1) ∧
        callsFor t w1.calls = callsFor t w0.calls) ∧
      (∃ w' wn F, (∀ fuel, F ≤ fuel →
          ticks env fuel (w.num_spokes - 1) w0 = .ok w' ∧
          handle_timers env fuel w' = .ok wn) ∧
        callsFor t w'.calls = callsFor t w0.calls ∧
        callsFor t wn.calls = callsFor t w0.calls ++ [⟨c, t, a⟩])) ∧
    (∃ w0 w1 F, lmtimer_start w t 1 (some c) o a = .ok w0 ∧
      (∀ fuel, F ≤ fuel → handle_timers env fuel w0 = .ok w1) ∧
      callsFor t w1.calls = callsFor t w0.calls ++ [⟨c, t, a⟩]) := by
  constructor
  · obtain ⟨pv, _, heq, habs⟩ := lmtimer_start_idle h hl ht 0 (some c) o a
    rw [slotOf_zero h] at habs
    have hcb0 := startW_cbOk (t := t) hcb 0 c o a pv w.current_spoke
    obtain ⟨hn0, hc0⟩ := startW_geom w t 0 (some c) o a pv
    have hmem : t ∈ appendT slots w.current_spoke t w.current_spoke := by simp [appendT]
    have hrot : (startW w t 0 (some c) o a pv).rotation_count t = 0 := by
      have : (startW w t 0 (some c) o a pv).rotation_count t = rotOf w 0 := by
        simp [startW, linkTail, setNext, setPrev, setRot, arm]
      rw [this, rotOf_zero h]
    refine ⟨_, _, heq, habs, by simp [appendT], hrot, ?_, ?_⟩
    · obtain ⟨w1, F, _, hrun, _, _, _, _, _, _, _, _, hcalls⟩ :=
        ticks_quiet_wait hq w.current_spoke 1 _ _ habs hcb0 (by
          intro i hi1 hi2
          rw [hn0, hc0]
          exact add_mod_ne_self h.cur hi1 (by omega))
      refine ⟨w1, F, fun fuel hf => ?_, hcalls t hmem⟩
      rw [← ticks_one]
      exact hrun fuel hf
    · obtain ⟨w', F1, slots', hrun, habs', hcb', hsl, hc', hn', hcbeq, hargeq, _, hcalls⟩ :=
        ticks_quiet_wait hq w.current_spoke (w.num_spokes - 1) _ _ habs hcb0 (by
          intro i hi1 hi2
          rw [hn0, hc0]
          exact add_mod_ne_self h.cur hi1 (by omega))
      have hnext : nextSpoke w' = w.current_spoke := by
        unfold nextSpoke
        rw [hc', hn', hn0, hc0, Nat.mod_add_mod,
          show w.current_spoke + (w.num_spokes - 1) + 1 = w.current_spoke + w.num_spokes by
            omega,
          Nat.add_mod_right, Nat.mod_eq_of_lt h.cur]
      have hmem' : t ∈ slots' (nextSpoke w') := by
        rw [hnext, hsl]; exact hmem
      obtain ⟨wn, F2, _, hrun2, _, _, _, hfire⟩ := tick_quiet_fires hq habs' hcb' hmem'
      have hcall : callOf w' t = ⟨c, t, a⟩ := by
        rw [← startW_callOf w t 0 c o a pv]
        simp [callOf, hcbeq, hargeq]
      refine ⟨w', wn, max F1 F2, fun fuel hf => ⟨?_, ?_⟩, hcalls t hmem, ?_⟩
      · exact hrun fuel (le_trans (le_max_left _ _) hf)
      · exact hrun2 fuel (le_trans (le_max_right _ _) hf)
      · rw [hfire, hcalls t hmem, hcall]
  · obtain ⟨pv, _, heq, habs⟩ := lmtimer_start_idle h hl ht 1 (some c) o a
    rw [slotOf_one h hn] at habs
    have hcb0 := startW_cbOk (t := t) hcb 1 c o a pv (nextSpoke w)
    obtain ⟨hn0, hc0⟩ := startW_geom w t 1 (some c) o a pv
    have hnext : nextSpoke (startW w t 1 (some c) o a pv) = nextSpoke w := by
      unfold nextSpoke
      rw [hn0, hc0]
    have hmem : t ∈ appendT slots (nextSpoke w) t
        (nextSpoke (startW w t 1 (some c) o a pv)) := by
      rw [hnext]; simp [appendT]
    obtain ⟨w1, F, _, hrun, _, _, _, hfire⟩ := tick_quiet_fires hq habs hcb0 hmem
    rw [startW_callOf] at hfire
    exact ⟨_, w1, F, heq, hrun, hfire⟩

theorem oneTimer_cbOk : CbOk oneTimer (fun _ => []) := fun _ _ h => nomatch h

theorem quiet_is_quiet : Quiet quiet := fun _ _ _ => rfl

theorem created_one_cbOk : CbOk (created 1) (fun _ => []) := fun _ _ h => nomatch h

/-- Witness for C9: timer `0` on the wheel of `lmtimers_init`, of 4096
spokes. -/
theorem zero_duration_waits_one_turn_witness :
    (Quiet quiet ∧ Abs (created 1) (fun _ => []) ∧ CbOk (created 1) (fun _ => []) ∧
      (created 1).live 0 = true ∧ (∀ i : Nat, 0 ∉ (fun _ => ([] : List Nat)) i) ∧
      2 ≤ (created 1).num_spokes) ∧
    (created 1).num_spokes = 4096 ∧
    (∃ w0 slots0, lmtimer_start (created 1) 0 0 (some 1) 0 0 = .ok w0 ∧ Abs w0 slots0 ∧
      slots0 (created 1).current_spoke =
        (fun _ => ([] : List Nat)) (created 1).current_spoke ++ [0] ∧
      w0.rotation_count 0 = 0 ∧
      (∃ w1 F, (∀ fuel, F ≤ fuel → handle_timers quiet fuel w0 = .ok w1) ∧
        callsFor 0 w1.calls = callsFor 0 w0.calls) ∧
      (∃ w' wn F, (∀ fuel, F ≤ fuel →
          ticks quiet fuel ((created 1).num_spokes - 1) w0 = .ok w' ∧
          handle_timers quiet fuel w' = .ok wn) ∧
        callsFor 0 w'.calls = callsFor 0 w0.calls ∧
        callsFor 0 wn.calls = callsFor 0 w0.calls ++ [⟨1, 0, 0⟩])) ∧
    (∃ w0 w1 F, lmtimer_start (created 1) 0 1 (some 1) 0 0 = .ok w0 ∧
      (∀ fuel, F ≤ fuel → handle_timers quiet fuel w0 = .ok w1) ∧
      callsFor 0 w1.calls = callsFor 0 w0.calls ++ [⟨1, 0, 0⟩]) :=
  ⟨⟨quiet_is_quiet, created_one_abs, created_one_cbOk, created_one_live, no_timer_linked 0,
      by decide⟩, rfl,
    zero_duration_waits_one_turn quiet_is_quiet 1 0 0 created_one_abs created_one_cbOk
      created_one_live (no_timer_linked 0) (by decide)⟩

theorem add_mod_ne_add_mod {c n i d : Nat} (hi : i < d) (hd : d < n) :
    (c + i) % n ≠ (c + d) % n := by
  have hx : (c + i) % n < n := Nat.mod_lt _ (by omega)
  have h1 := add_mod_ne_self hx (i := d - i) (by omega) (by omega)
  rw [Nat.mod_add_mod, show c + i + (d - i) = c + d by omega] at h1
  exact fun h => h1 h.symm

/-- C1, the claim at duration 0: on a fresh wheel of eight spokes a timer
started with duration 0 has not been invoked after the start, nor after
seven ticks; it is invoked during the eighth tick.  On the wheel of
`lmtimers_init`, of 4096 spokes, it has likewise not been invoked after the
start, nor after the first tick. -/
theorem zero_duration_does_not_fire_at_once :
    callsOf (script [fun w => lmtimer_start w 0 0 (some 1) 0 0] oneTimer) = some [] ∧
    callsOf (script [fun w => lmtimer_start w 0 0 (some 1) 0 0, ticks quiet 3 7]
      oneTimer) = some [] ∧
    callsOf (script [fun w => lmtimer_start w 0 0 (some 1) 0 0, ticks quiet 3 8]
      oneTimer) = some [⟨1, 0, 0⟩] ∧
    callsOf (script [fun w => lmtimer_start w 0 0 (some 1) 0 0] (created 1)) = some [] ∧
    callsOf (script [fun w => lmtimer_start w 0 0 (some 1) 0 0, handle_timers quiet 3]
      (created 1)) = some [] := by
  refine ⟨?_, ?_, ?_, ?_, ?_⟩ <;> decide

/-- C1, amended to durations below one revolution and above zero: with
callbacks that leave the wheel alone, an idle timer started between ticks on
a well-formed wheel of `n` spokes with a duration `d`, `0 < d < n`, and left
alone afterwards is not invoked during the first `d - 1` ticks, which all
return, and is invoked exactly once during the `d`-th tick. -/
theorem short_timer_fires_after_its_duration {env : Callbacks} (hq : Quiet env) {w : World}
    {slots : Nat → List Nat} {t : Nat} (d c o a : Nat) (h : Abs w slots) (hcb : CbOk w slots)
    (hl : w.live t = true) (ht : ∀ i, t ∉ slots i) (hd0 : 0 < d) (hdn : d < w.num_spokes) :
    ∃ w0 w' wn F, lmtimer_start w t (d : Int) (some c) o a = .ok w0 ∧
      (∀ fuel, F ≤ fuel →
        ticks env fuel (d - 1) w0 = .ok w' ∧ handle_timers env fuel w' = .ok wn) ∧
      callsFor t w'.calls = callsFor t w0.calls ∧
      callsFor t wn.calls = callsFor t w0.calls ++ [⟨c, t, a⟩] := by
  have hd31 : d < 2147483648 := lt_trans hdn h.nlt
  obtain ⟨pv, _, heq, habs⟩ := lmtimer_start_idle h hl ht (d : Int) (some c) o a
  rw [slotOf_nat h hd31, Nat.mod_eq_of_lt hdn] at habs
  have hcb0 := startW_cbOk (t := t) hcb (d : Int) c o a pv
    ((w.current_spoke + d) % w.num_spokes)
  obtain ⟨hn0, hc0⟩ := startW_geom w t (d : Int) (some c) o a pv
  have hmem : t ∈ appendT slots ((w.current_spoke + d) % w.num_spokes) t
      ((w.current_spoke + d) % w.num_spokes) := by simp [appendT]
  obtain ⟨w', F1, slots', hrun, habs', hcb', hsl, hc', hn', hcbeq, hargeq, _, hcalls⟩ :=
    ticks_quiet_wait hq ((w.current_spoke + d) % w.num_spokes) (d - 1) _ _ habs hcb0 (by
      intro i _ hi2
      rw [hn0, hc0]
      exact add_mod_ne_add_mod (by omega) hdn)
  have hnext : nextSpoke w' = (w.current_spoke + d) % w.num_spokes := by
    unfold nextSpoke
    rw [hc', hn', hn0, hc0, Nat.mod_add_mod,
      show w.current_spoke + (d - 1) + 1 = w.current_spoke + d by omega]
  have hmem' : t ∈ slots' (nextSpoke w') := by
    rw [hnext, hsl]; exact hmem
  obtain ⟨wn, F2, _, hrun2, _, _, _, hfire⟩ := tick_quiet_fires hq habs' hcb' hmem'
  have hcall : callOf w' t = ⟨c, t, a⟩ := by
    rw [← startW_callOf w t (d : Int) c o a pv]
    simp [callOf, hcbeq, hargeq]
  refine ⟨_, w', wn, max F1 F2, heq, fun fuel hf => ⟨?_, ?_⟩, hcalls t hmem, ?_⟩
  · exact hrun fuel (le_trans (le_max_left _ _) hf)
  · exact hrun2 fuel (le_trans (le_max_right _ _) hf)
  · rw [hfire, hcalls t hmem, hcall]

/-- Witness for C1 as amended: timer `0` started with duration 3 on a fresh
wheel of eight spokes. -/
theorem short_timer_fires_after_its_duration_witness :
    (Quiet quiet ∧ Abs oneTimer (fun _ => []) ∧ CbOk oneTimer (fun _ => []) ∧
      oneTimer.live 0 = true ∧ (∀ i : Nat, 0 ∉ (fun _ => ([] : List Nat)) i) ∧
      0 < 3 ∧ 3 < oneTimer.num_spokes) ∧
    ∃ w0 w' wn F, lmtimer_start oneTimer 0 ((3 : Nat) : Int) (some 1) 0 0 = .ok w0 ∧
      (∀ fuel, F ≤ fuel →
        ticks quiet fuel (3 - 1) w0 = .ok w' ∧ handle_timers quiet fuel w' = .ok wn) ∧
      callsFor 0 w'.calls = callsFor 0 w0.calls ∧
      callsFor 0 wn.calls = callsFor 0 w0.calls ++ [⟨1, 0, 0⟩] :=
  ⟨⟨quiet_is_quiet, oneTimer_abs, oneTimer_cbOk, oneTimer_live, no_timer_linked 0,
      by decide, by decide⟩,
    short_timer_fires_after_its_duration quiet_is_quiet 3 1 0 0 oneTimer_abs oneTimer_cbOk
      oneTimer_live (no_timer_linked 0) (by decide) (by decide)⟩

/-- The scenario of the specification: timer `0` is started with duration 5
on a fresh wheel of eight spokes and stopped after two ticks; ten more ticks
invoke no callback. -/
theorem stop_after_two_ticks_scenario :
    callsOf (script [fun w => lmtimer_start w 0 5 (some 1) 0 0, ticks quiet 3 2,
      fun w => lmtimer_stop w (some 0), ticks quiet 3 10] oneTimer) = some [] := by
  decide

/-! ## The bridge reader, expiry and rotation counts after a tick -/

/-- C15: whatever `read` returned, `process_timer_signal` (a) returns -1 and
leaves the memory as it is when the number of bytes differs from the size of
the marker; (b) when a full marker equal to the signal number of the tick was
read, it is one call of `handle_timers`, returning 0 with the memory that
call leaves, and on a well-formed wheel whose linked timers have callbacks
that leave the wheel alone it returns once the fuel suffices; (c) returns 0
and leaves the memory as it is when a full marker with another value was
read. -/
theorem process_timer_signal_cases (env : Callbacks) (fuel : Nat)
    (sizeof_sig SIGRTMIN bytes sig : Int) (w : World) :
    (bytes ≠ sizeof_sig →
      process_timer_signal env fuel sizeof_sig SIGRTMIN bytes sig w = .ok (-1, w)) ∧
    (bytes = sizeof_sig → sig = SIGRTMIN →
      process_timer_signal env fuel sizeof_sig SIGRTMIN bytes sig w =
        (match handle_timers env fuel w with
          | .error e => .error e
          | .ok w1 => .ok (0, w1)) ∧
      ∀ slots, Abs w slots → CbOk w slots → Quiet env →
        ∃ w1 F, ∀ fuel1, F ≤ fuel1 →
          handle_timers env fuel1 w = .ok w1 ∧
          process_timer_signal env fuel1 sizeof_sig SIGRTMIN bytes sig w = .ok (0, w1)) ∧
    (bytes = sizeof_sig → sig ≠ SIGRTMIN →
      process_timer_signal env fuel sizeof_sig SIGRTMIN bytes sig w = .ok (0, w)) := by
  refine ⟨fun h => ?_, fun h1 h2 => ⟨?_, ?_⟩, fun h1 h2 => ?_⟩
  · simp [process_timer_signal, h]
  · simp [process_timer_signal, h1, h2]
  · intro slots habs hcb hq
    obtain ⟨w1, F, hrun, _⟩ := tick_quiet hq habs hcb
    refine ⟨w1, F, fun fuel1 hf => ⟨hrun fuel1 hf, ?_⟩⟩
    simp [process_timer_signal, h1, h2, hrun fuel1 hf]
  · simp [process_timer_signal, h1, h2]

/-- Witness for C15: a short read, a full marker with the tick signal 34 and
a full marker with another value, on the wheel of eight spokes with timer
`0` started with duration 1. -/
theorem process_timer_signal_cases_witness :
    ((2 : Int) ≠ 4 ∧
      process_timer_signal quiet 3 4 34 2 34 (startedAt 1) = .ok (-1, startedAt 1)) ∧
    (((4 : Int) = 4 ∧ (34 : Int) = 34) ∧
      process_timer_signal quiet 3 4 34 4 34 (startedAt 1) =
        (match handle_timers quiet 3 (startedAt 1) with
          | .error e => .error e
          | .ok w1 => .ok (0, w1))) ∧
    (((4 : Int) = 4 ∧ (10 : Int) ≠ 34) ∧
      process_timer_signal quiet 3 4 34 4 10 (startedAt 1) = .ok (0, startedAt 1)) :=
  ⟨⟨by decide, (process_timer_signal_cases quiet 3 4 34 2 34 (startedAt 1)).1 (by decide)⟩,
    ⟨⟨rfl, rfl⟩, ((process_timer_signal_cases quiet 3 4 34 4 34 (startedAt 1)).2.1 rfl rfl).1⟩,
    ⟨⟨rfl, by decide⟩,
      (process_timer_signal_cases quiet 3 4 34 4 10 (startedAt 1)).2.2 rfl (by decide)⟩⟩

/-- C14, the claim on the wheel of `lmtimers_init`: timer `0` is started with
duration 1 and expires in the first tick; after the tick its callback has
been invoked, both its links are null and the timer is still allocated. -/
theorem expired_timer_is_still_allocated :
    callsOf (script [fun w => lmtimer_start w 0 1 (some 1) 0 0,
      handle_timers quiet 3] (created 1)) = some [⟨1, 0, 0⟩] ∧
    stateOf 0 (script [fun w => lmtimer_start w 0 1 (some 1) 0 0,
      handle_timers quiet 3] (created 1)) = some (true, none, none, 0, 0, 1) := by
  decide

/-- C14, amended: with callbacks that leave the wheel alone, the tick that
reaches the spoke of a linked timer `t` returns, invokes the callback of `t`
exactly once and leaves `t` allocated with both links null, in no list; the
timer is released only by a later `lmtimer_stop`, which succeeds and frees
it.  The tick takes from `running_timers` and adds to `expirations` the
number of timers of the spoke, and after it `lmtimer_start` on `t` succeeds
and appends `t` to the spoke of the new duration. -/
theorem expiry_unlinks_and_keeps_timer {env : Callbacks} (hq : Quiet env) {w : World}
    {slots : Nat → List Nat} {t : Nat} (h : Abs w slots) (hcb : CbOk w slots)
    (ht : t ∈ slots (nextSpoke w)) :
    ∃ w' F slots', (∀ fuel, F ≤ fuel → handle_timers env fuel w = .ok w') ∧
      Abs w' slots' ∧ (∀ i, t ∉ slots' i) ∧
      callsFor t w'.calls = callsFor t w.calls ++ [callOf w t] ∧
      w'.live t = true ∧
      w'.links_next (.timer t) = none ∧ w'.links_prev (.timer t) = none ∧
      (∃ w2, lmtimer_stop w' (some t) = .ok w2 ∧ w2.live t = false) ∧
      w'.running_timers = w.running_timers - ((slots (nextSpoke w)).length : Int) ∧
      w'.expirations = w.expirations + ((slots (nextSpoke w)).length : Int) ∧
      ∀ (d : Int) (cb : Option Nat) (o a : Nat), ∃ w3,
        lmtimer_start w' t d cb o a = .ok w3 ∧ Abs w3 (appendT slots' (slotOf w' d) t) := by
  obtain ⟨w1, F1, hrun1, habs1, _, _, hf1⟩ := tick_quiet hq h hcb
  have hnot : ∀ i, t ∉ Function.update slots (nextSpoke w) [] i := by
    intro i hi
    obtain ⟨h1, h2⟩ := mem_update_nil hi
    exact h2 (h.disj _ _ t h1 ht)
  have hlive : w1.live t = true := by
    rw [hf1.live]
    exact h.live_of_mem ht
  obtain ⟨hn, hp⟩ := idle_of_not_mem habs1 hlive hnot
  obtain ⟨hstop, _⟩ := lmtimer_stop_idle habs1 hlive hnot
  refine ⟨w1, F1, _, hrun1, habs1, hnot, ?_, hlive, hn, hp, ⟨_, hstop, by simp [free]⟩,
    hf1.running, hf1.expirations, ?_⟩
  · rw [hf1.calls, callsFor_append, callsFor_map_of_mem _ t _ (h.nodup _) ht]
    rfl
  · intro d cb o a
    obtain ⟨pv, _, heq, habs3⟩ := lmtimer_start_idle habs1 hlive hnot d cb o a
    exact ⟨_, heq, habs3⟩

theorem startedAt_next : nextSpoke (startedAt 1) = slotOf oneTimer 1 := by decide

/-- Witness for C14 as amended: timer `0` started with duration 1 on a fresh
wheel of eight spokes. -/
theorem expiry_unlinks_and_keeps_timer_witness :
    (Quiet quiet ∧ Abs (startedAt 1) (appendT (fun _ => []) (slotOf oneTimer 1) 0) ∧
      CbOk (startedAt 1) (appendT (fun _ => []) (slotOf oneTimer 1) 0) ∧
      0 ∈ appendT (fun _ => []) (slotOf oneTimer 1) 0 (nextSpoke (startedAt 1))) ∧
    ∃ w' F slots', (∀ fuel, F ≤ fuel → handle_timers quiet fuel (startedAt 1) = .ok w') ∧
      Abs w' slots' ∧ (∀ i, 0 ∉ slots' i) ∧
      callsFor 0 w'.calls = callsFor 0 (startedAt 1).calls ++ [callOf (startedAt 1) 0] ∧
      w'.live 0 = true ∧
      w'.links_next (.timer 0) = none ∧ w'.links_prev (.timer 0) = none ∧
      (∃ w2, lmtimer_stop w' (some 0) = .ok w2 ∧ w2.live 0 = false) ∧
      w'.running_timers = (startedAt 1).running_timers -
        ((appendT (fun _ => []) (slotOf oneTimer 1) 0 (nextSpoke (startedAt 1))).length : Int) ∧
      w'.expirations = (startedAt 1).expirations +
        ((appendT (fun _ => []) (slotOf oneTimer 1) 0 (nextSpoke (startedAt 1))).length : Int) ∧
      ∀ (d : Int) (cb : Option Nat) (o a : Nat), ∃ w3,
        lmtimer_start w' 0 d cb o a = .ok w3 ∧ Abs w3 (appendT slots' (slotOf w' d) 0) :=
  ⟨⟨quiet_is_quiet, (startedAt_spec 1).2, startedAt_cbOk 1,
      startedAt_next ▸ startedAt_mem 1⟩,
    expiry_unlinks_and_keeps_timer quiet_is_quiet (startedAt_spec 1).2 (startedAt_cbOk 1)
      (startedAt_next ▸ startedAt_mem 1)⟩

/-- C16, evaluated: on the wheel of `lmtimers_init` timer `0` is started with
duration 4097 and is then linked in spoke 1 with rotation count 1.  The first
tick does not leave it linked with rotation count 0: it unlinks the timer,
counts an expiration and invokes its callback. -/
theorem tick_expires_timer_with_positive_rotation :
    stateOf 0 (script [fun w => lmtimer_start w 0 4097 (some 1) 0 0] (created 1)) =
      some (true, some (.spoke 1), some (.spoke 1), 1, 1, 0) ∧
    stateOf 0 (script [fun w => lmtimer_start w 0 4097 (some 1) 0 0,
      handle_timers quiet 3] (created 1)) = some (true, none, none, 0, 0, 1) ∧
    callsOf (script [fun w => lmtimer_start w 0 4097 (some 1) 0 0,
      handle_timers quiet 3] (created 1)) = some [⟨1, 0, 0⟩] := by
  refine ⟨?_, ?_, ?_⟩ <;> decide

/-- C19, evaluated: on the wheel of `lmtimers_init` the callback of timer `0`
starts the idle timer `1` with duration 8192, twice the number of spokes.
Within the same tick the rotation count of timer `1` does not stop at 1: it
reaches 0, the timer is unlinked and its callback is invoked. -/
theorem start_in_callback_expires_in_same_tick :
    stateOf 1 (script [fun w => lmtimer_start w 0 1 (some 1) 0 0,
      handle_timers startsOther 6] (created 2)) = some (true, none, none, 0, 0, 2) ∧
    callsOf (script [fun w => lmtimer_start w 0 1 (some 1) 0 0,
      handle_timers startsOther 6] (created 2)) = some [⟨1, 0, 0⟩, ⟨2, 1, 0⟩] := by
  decide

/-! ## The counters -/

theorem linkedCount_nil : ∀ n, linkedCount (fun _ => []) n = 0
  | 0 => rfl
  | n + 1 => by simp [linkedCount, linkedCount_nil n]

theorem linkedCount_congr {f g : Nat → List Nat} :
    ∀ n, (∀ j, j < n → g j = f j) → linkedCount g n = linkedCount f n
  | 0, _ => rfl
  | n + 1, h => by
    simp only [linkedCount]
    rw [linkedCount_congr n (fun j hj => h j (by omega)), h n (by omega)]

/-- Changing the list of one spoke changes the count by the lengths. -/
theorem linkedCount_change {f g : Nat → List Nat} {p : Nat} :
    ∀ n, p < n → (∀ j, j ≠ p → g j = f j) →
      linkedCount g n + (f p).length = linkedCount f n + (g p).length
  | 0, hp, _ => by omega
  | n + 1, hp, h => by
    simp only [linkedCount]
    by_cases hpn : p = n
    · subst hpn
      rw [linkedCount_congr p (fun j hj => h j (by omega))]
      omega
    · have := linkedCount_change n (by omega) h
      rw [h n (fun hc => hpn hc.symm)]
      omega

theorem linkedCount_appendT (slots : Nat → List Nat) {pos n : Nat} (t : Nat) (hp : pos < n) :
    linkedCount (appendT slots pos t) n = linkedCount slots n + 1 := by
  have := linkedCount_change (f := slots) (g := appendT slots pos t) n hp
    (fun j hj => by simp [appendT, Function.update_noteq hj])
  simp only [appendT, Function.update_same, List.length_append, List.length_cons,
    List.length_nil] at this ⊢
  omega

theorem linkedCount_eraseT {x : Option Nat} {w : World} {slots : Nat → List Nat} {t i : Nat}
    (h : AbsX x w slots) (hti : t ∈ slots i) :
    linkedCount (eraseT slots t) w.num_spokes + 1 = linkedCount slots w.num_spokes := by
  have hi := h.lt_of_mem hti
  have := linkedCount_change (f := slots) (g := eraseT slots t) w.num_spokes hi
    (fun j hj => by
      have : t ∉ slots j := fun hc => hj (h.disj j i t hc hti)
      simp [eraseT, List.erase_of_not_mem this])
  have hlen : (eraseT slots t i).length = (slots i).length - 1 := by
    simp [eraseT, List.length_erase_of_mem hti]
  have hpos : 0 < (slots i).length := List.length_pos_of_mem hti
  omega

theorem linkedCount_update_nil (slots : Nat → List Nat) {c n : Nat} (hc : c < n) :
    linkedCount (Function.update slots c []) n + (slots c).length = linkedCount slots n := by
  have := linkedCount_change (f := slots) (g := Function.update slots c []) n hc
    (fun j hj => by simp [Function.update_noteq hj])
  simpa using this

theorem wheel_init_good {n : Nat} (h0 : 0 < n) (h1 : n < 2147483648) : Good (wheel_init n) :=
  ⟨_, wheel_init_abs h0 h1, by simp [wheel_init, linkedCount_nil], rfl⟩

theorem lmtimer_create_good {w : World} (h : Good w) (L : Nat) (nm : List Char) :
    Good (lmtimer_create L nm w).2 := by
  obtain ⟨slots, habs, hc1, hc2⟩ := h
  exact ⟨slots, (lmtimer_create_abs habs L nm).1, hc1, hc2⟩

/-- A successful `lmtimer_start` keeps the counters in agreement with the
lists. -/
theorem lmtimer_start_good {w w' : World} {t : Nat} {d : Int} {cb : Option Nat} {o a : Nat}
    (h : Good w) (hr : lmtimer_start w t d cb o a = .ok w') :
    Good w' ∧ w'.num_spokes = w.num_spokes ∧ w'.current_spoke = w.current_spoke := by
  obtain ⟨slots, habs, hc1, hc2⟩ := h
  have hl : w.live t = true := by
    by_contra hc
    rw [lmtimer_start_def, if_pos (by simpa using hc)] at hr
    cases hr
  have hpos := slotOf_lt habs d
  by_cases hm : ∃ i, t ∈ slots i
  · obtain ⟨i, hi⟩ := hm
    obtain ⟨pv0, nx0, pv, _, _, _, heq, habs'⟩ := lmtimer_start_linked habs hi d cb o a
    rw [heq] at hr
    injection hr with hr
    subst hr
    have hn : (startW (restartW w pv0 nx0) t d cb o a pv).num_spokes = w.num_spokes :=
      (startW_geom _ _ _ _ _ _ _).1.trans (restartW_geom _ _ _).1
    refine ⟨⟨_, habs', ?_, ?_⟩, hn, (startW_geom _ _ _ _ _ _ _).2.trans (restartW_geom _ _ _).2⟩
    · have hrun : (startW (restartW w pv0 nx0) t d cb o a pv).running_timers =
          w.running_timers := by
        simp [startW, restartW, linkTail, unlinkW, setNext, setPrev, setRot, arm]
      have h1 := linkedCount_eraseT habs hi
      have h2 := linkedCount_appendT (eraseT slots t) t hpos
      rw [hrun, hn, hc1, h2, ← h1]
    · have hcalls : (startW (restartW w pv0 nx0) t d cb o a pv).calls = w.calls := by
        simp [startW, restartW, linkTail, unlinkW, setNext, setPrev, setRot, arm]
      have hexp : (startW (restartW w pv0 nx0) t d cb o a pv).expirations =
          w.expirations := by
        simp [startW, restartW, linkTail, unlinkW, setNext, setPrev, setRot, arm]
      rw [hexp, hcalls, hc2]
  · have hnot : ∀ i, t ∉ slots i := fun i hi => hm ⟨i, hi⟩
    obtain ⟨pv, _, heq, habs'⟩ := lmtimer_start_idle habs hl hnot d cb o a
    rw [heq] at hr
    injection hr with hr
    subst hr
    have hn := (startW_geom w t d cb o a pv).1
    refine ⟨⟨_, habs', ?_, ?_⟩, hn, (startW_geom _ _ _ _ _ _ _).2⟩
    · have hrun : (startW w t d cb o a pv).running_timers = w.running_timers + 1 := by
        simp [startW, linkTail, setNext, setPrev, setRot, arm]
      have h2 := linkedCount_appendT slots t hpos
      rw [hrun, hn, hc1, h2]
      simp
    · have hcalls : (startW w t d cb o a pv).calls = w.calls := by
        simp [startW, linkTail, setNext, setPrev, setRot, arm]
      have hexp : (startW w t d cb o a pv).expirations = w.expirations := by
        simp [startW, linkTail, setNext, setPrev, setRot, arm]
      rw [hexp, hcalls, hc2]

/-- A successful `lmtimer_stop` keeps the counters in agreement with the
lists. -/
theorem lmtimer_stop_good {w w' : World} {t : Option Nat} (h : Good w)
    (hr : lmtimer_stop w t = .ok w') :
    Good w' ∧ w'.num_spokes = w.num_spokes ∧ w'.current_spoke = w.current_spoke := by
  obtain ⟨slots, habs, hc1, hc2⟩ := h
  cases t with
  | none =>
    injection hr with hr
    subst hr
    exact ⟨⟨_, habs, hc1, hc2⟩, rfl, rfl⟩
  | some t =>
    have hl : w.live t = true := by
      by_contra hc
      simp only [lmtimer_stop] at hr
      rw [stop_unlink_def, if_pos (by simpa using hc)] at hr
      cases hr
    by_cases hm : ∃ i, t ∈ slots i
    · obtain ⟨i, hi⟩ := hm
      obtain ⟨pv, nx, _, _, heq, habs'⟩ := lmtimer_stop_linked habs hi
      rw [heq] at hr
      injection hr with hr
      subst hr
      have hn := (stopW_geom w t pv nx).1
      refine ⟨⟨_, habs', ?_, ?_⟩, hn, (stopW_geom _ _ _ _).2⟩
      · have hrun : (free (stopW w t pv nx) t).running_timers = w.running_timers - 1 := by
          simp [free, stopW, clearLinks, unlinkW, setNext, setPrev]
        have h1 := linkedCount_eraseT habs hi
        rw [hrun, hn, hc1, ← h1]
        simp
      · have hcalls : (free (stopW w t pv nx) t).calls = w.calls := by
          simp [free, stopW, clearLinks, unlinkW, setNext, setPrev]
        have hexp : (free (stopW w t pv nx) t).expirations = w.expirations := by
          simp [free, stopW, clearLinks, unlinkW, setNext, setPrev]
        rw [hexp, hcalls, hc2]
    · have hnot : ∀ i, t ∉ slots i := fun i hi => hm ⟨i, hi⟩
      obtain ⟨heq, habs'⟩ := lmtimer_stop_idle habs hl hnot
      rw [heq] at hr
      injection hr with hr
      subst hr
      exact ⟨⟨_, habs', hc1, hc2⟩, rfl, rfl⟩

theorem runOps_good : ∀ (ops : List Op) {w w' : World}, Good w → runOps ops w = .ok w' →
    Good w' ∧ w'.num_spokes = w.num_spokes ∧ w'.current_spoke = w.current_spoke
  | [], w, w', h, hr => by
    injection hr with hr
    subst hr
    exact ⟨h, rfl, rfl⟩
  | op :: ops, w, w', h, hr => by
    simp only [runOps] at hr
    cases hop : op.run w with
    | error e => rw [hop] at hr; cases hr
    | ok w1 =>
      rw [hop] at hr
      have h1 : Good w1 ∧ w1.num_spokes = w.num_spokes ∧
          w1.current_spoke = w.current_spoke := by
        cases op with
        | start t d cb o a => exact lmtimer_start_good h hop
        | stop t => exact lmtimer_stop_good h hop
      obtain ⟨hg, hn2, hc2⟩ := runOps_good ops h1.1 hr
      exact ⟨hg, hn2.trans h1.2.1, hc2.trans h1.2.2⟩

theorem expireW_counts {w : World} {slots : Nat → List Nat} {a : Nat} {rest : List Nat}
    (h : Abs w slots) (hc : Counts w slots) (hs : slots w.current_spoke = a :: rest)
    (pv nx : Ptr) (c : Nat) : Counts (expireW w a pv nx c) (eraseT slots a) := by
  have hrun : (expireW w a pv nx c).running_timers = w.running_timers - 1 := by
    simp [expireW, clearLinks, unlinkW, setNext, setPrev, visit]
  have hexp : (expireW w a pv nx c).expirations = w.expirations + 1 := by
    simp [expireW, clearLinks, unlinkW, setNext, setPrev, visit]
  have hcalls : (expireW w a pv nx c).calls.length = w.calls.length + 1 := by
    simp [expireW, clearLinks, unlinkW, setNext, setPrev, visit]
  have hn : (expireW w a pv nx c).num_spokes = w.num_spokes := by
    simp [expireW, clearLinks, unlinkW, setNext, setPrev, visit]
  have h1 := linkedCount_eraseT h (t := a) (i := w.current_spoke) (by rw [hs]; simp)
  constructor
  · rw [hrun, hn, hc.1, ← h1]
    simp
  · rw [hexp, hcalls, hc.2]
    simp

/-- An iteration of the loop that starts at the first node of the current
spoke and succeeds keeps the counters in agreement with the lists, whatever
the callback did. -/
theorem walk_body_good (env : Callbacks) {w w1 : World} {tptr t : Option Ptr}
    (h : GoodHead w tptr) (hne : tptr ≠ some (.spoke w.current_spoke))
    (hr : walk_body env w tptr = .ok (w1, t)) :
    GoodHead w1 t ∧ w1.current_spoke = w.current_spoke ∧ w1.num_spokes = w.num_spokes := by
  obtain ⟨slots, habs, hcnt, hn⟩ := h
  cases hs : slots w.current_spoke with
  | nil =>
    exact absurd (hn.symm.trans (habs.empty_linked habs.cur hs).2.2.1) hne
  | cons a rest =>
    have ht : tptr = some (.timer a) := hn.symm.trans (habs.head_linked habs.cur hs).2.2.1
    subst ht
    by_cases hrot : 0 < w.rotation_count a
    · obtain ⟨heq, habs1⟩ := walk_body_spin env habs hs hrot
      rw [heq] at hr
      injection hr with hr
      injection hr with hr1 hr2
      subst hr1
      subst hr2
      exact ⟨⟨slots, habs1, hcnt, hn⟩, rfl, rfl⟩
    · obtain ⟨nx, _, habs1, heq⟩ := walk_body_expire env habs hs hrot
      rw [heq] at hr
      cases hcb : w.cb a with
      | none => rw [hcb] at hr; cases hr
      | some c =>
        rw [hcb] at hr
        simp only [] at hr
        cases hops : runOps (env c a (w.cb_argument a))
            (expireW w a (.spoke w.current_spoke) nx c) with
        | error e => rw [hops] at hr; cases hr
        | ok w6 =>
          rw [hops] at hr
          have hg5 : Good (expireW w a (.spoke w.current_spoke) nx c) :=
            ⟨_, habs1 c, expireW_counts habs hcnt hs _ nx c⟩
          obtain ⟨⟨slots6, habs6, hcnt6⟩, hn6, hc6⟩ := runOps_good _ hg5 hops
          have hc6' : w6.current_spoke = w.current_spoke := by
            rw [hc6]
            simp [expireW, clearLinks, unlinkW, setNext, setPrev, visit]
          have hn6' : w6.num_spokes = w.num_spokes := by
            rw [hn6]
            simp [expireW, clearLinks, unlinkW, setNext, setPrev, visit]
          have hv : valid w6 (.spoke w.current_spoke) = true := by
            simpa [valid, hn6'] using habs.cur
          simp only [readNext] at hr
          rw [if_neg (by simp [hv])] at hr
          injection hr with hr
          injection hr with hr1 hr2
          subst hr1
          subst hr2
          exact ⟨⟨slots6, habs6, hcnt6, by rw [hc6']⟩, hc6', hn6'⟩

theorem walk_good (env : Callbacks) : ∀ (fuel : Nat) (w w' : World) (tptr : Option Ptr),
    GoodHead w tptr → walk env fuel (.spoke w.current_spoke) tptr w = .ok w' →
    Good w' ∧ w'.num_spokes = w.num_spokes
  | 0, _, _, _, _, hr => by simp [walk] at hr
  | fuel + 1, w, w', tptr, h, hr => by
    simp only [walk] at hr
    by_cases hne : tptr = some (.spoke w.current_spoke)
    · rw [if_pos hne] at hr
      injection hr with hr
      subst hr
      obtain ⟨slots, habs, hcnt, _⟩ := h
      exact ⟨⟨slots, habs, hcnt⟩, rfl⟩
    · rw [if_neg hne] at hr
      cases hb : walk_body env w tptr with
      | error e => rw [hb] at hr; cases hr
      | ok r =>
        obtain ⟨w1, t⟩ := r
        rw [hb] at hr
        simp only [] at hr
        obtain ⟨h1, hc, hn⟩ := walk_body_good env h hne hb
        rw [← hc] at hr
        obtain ⟨hg, hn'⟩ := walk_good env fuel w1 w' t h1 hr
        exact ⟨hg, hn'.trans hn⟩

/-- A tick that returns keeps the wheel well formed and its counters in
agreement with the lists, whatever the callbacks did. -/
theorem handle_timers_good (env : Callbacks) (fuel : Nat) {w w' : World} (h : Good w)
    (hr : handle_timers env fuel w = .ok w') : Good w' ∧ w'.num_spokes = w.num_spokes := by
  obtain ⟨slots, habs, hcnt⟩ := h
  rw [handle_timers_eq habs] at hr
  exact walk_good env fuel (turnTo w (nextSpoke w)) w' _
    ⟨slots, habs.turn (nextSpoke_lt habs), hcnt, rfl⟩ hr

theorem runCmds_good (env : Callbacks) (fuel : Nat) :
    ∀ (cmds : List Cmd) (w w' : World), Good w → runCmds env fuel cmds w = .ok w' →
      Good w' ∧ w'.num_spokes = w.num_spokes
  | [], w, w', h, hr => by
    injection hr with hr
    subst hr
    exact ⟨h, rfl⟩
  | c :: cs, w, w', h, hr => by
    simp only [runCmds] at hr
    cases hc : c.run env fuel w with
    | error e => rw [hc] at hr; cases hr
    | ok w1 =>
      rw [hc] at hr
      have h1 : Good w1 ∧ w1.num_spokes = w.num_spokes := by
        cases c with
        | create L nm =>
          injection hc with hc
          subst hc
          exact ⟨lmtimer_create_good h L nm, rfl⟩
        | start t d cb o a =>
          obtain ⟨hg, hn, _⟩ := lmtimer_start_good h hc
          exact ⟨hg, hn⟩
        | stop t =>
          obtain ⟨hg, hn, _⟩ := lmtimer_stop_good h hc
          exact ⟨hg, hn⟩
        | tick => exact handle_timers_good env fuel h hc
      obtain ⟨hg, hn⟩ := runCmds_good env fuel cs w1 w' h1.1 hr
      exact ⟨hg, hn.trans h1.2⟩

theorem force_spec {r : Except Err World} (h : returns r = true) : r = .ok (force r) := by
  cases r with
  | error e => cases h
  | ok w => rfl

/-! ## States reachable from a fresh wheel -/

/-- C12: every state that a run of `lmtimer_create`, `lmtimer_start`,
`lmtimer_stop` and ticks reaches from a freshly initialised wheel of `n`
spokes is a well-formed wheel, also when the callbacks mutate the wheel: there
are lists `slots` such that every timer is in at most one list and at most
once in it, a live timer in no list has null links, and for every spoke the
nodes sentinel, timers of its list in order, sentinel again are neighbours
pair by pair, `next` of the one being the other and `prev` of the other being
the one. -/
theorem reachable_wheel_is_well_formed (env : Callbacks) (fuel : Nat) (cmds : List Cmd)
    {n : Nat} {w' : World} (h0 : 0 < n) (h1 : n < 2147483648)
    (hr : runCmds env fuel cmds (wheel_init n) = .ok w') :
    ∃ slots, Abs w' slots ∧ w'.num_spokes = n ∧
      (∀ t i j, t ∈ slots i → t ∈ slots j → i = j) ∧
      (∀ t i, t ∈ slots i → (slots i).count t = 1 ∧ i < n) ∧
      (∀ t, w'.live t = true → (∀ i, t ∉ slots i) →
        w'.links_next (.timer t) = none ∧ w'.links_prev (.timer t) = none) ∧
      (∀ i, i < n → List.Chain' (Linked w') (ring i (slots i))) := by
  obtain ⟨⟨slots, habs, _⟩, hn⟩ := runCmds_good env fuel cmds _ w' (wheel_init_good h0 h1) hr
  have hn' : w'.num_spokes = n := hn
  refine ⟨slots, habs, hn', fun t i j hi hj => habs.disj i j t hi hj, ?_, ?_, ?_⟩
  · intro t i hi
    exact ⟨List.count_eq_one_of_mem (habs.nodup i) hi, hn' ▸ habs.lt_of_mem hi⟩
  · intro t hl hnot
    exact idle_of_not_mem habs hl hnot
  · intro i hi
    exact habs.seg i (hn'.symm ▸ hi)

theorem sampleRun_returns : returns (runCmds quiet 5 sampleRun (wheel_init 8)) = true := by
  decide

/-- Witness for C12: the sample run on a wheel of eight spokes. -/
theorem reachable_wheel_is_well_formed_witness :
    (0 < 8 ∧ 8 < 2147483648 ∧
      runCmds quiet 5 sampleRun (wheel_init 8) =
        .ok (force (runCmds quiet 5 sampleRun (wheel_init 8)))) ∧
    ∃ slots, Abs (force (runCmds quiet 5 sampleRun (wheel_init 8))) slots ∧
      (force (runCmds quiet 5 sampleRun (wheel_init 8))).num_spokes = 8 ∧
      (∀ t i j, t ∈ slots i → t ∈ slots j → i = j) ∧
      (∀ t i, t ∈ slots i → (slots i).count t = 1 ∧ i < 8) ∧
      (∀ t, (force (runCmds quiet 5 sampleRun (wheel_init 8))).live t = true →
        (∀ i, t ∉ slots i) →
        (force (runCmds quiet 5 sampleRun (wheel_init 8))).links_next (.timer t) = none ∧
          (force (runCmds quiet 5 sampleRun (wheel_init 8))).links_prev (.timer t) = none) ∧
      (∀ i, i < 8 → List.Chain' (Linked (force (runCmds quiet 5 sampleRun (wheel_init 8))))
        (ring i (slots i))) :=
  ⟨⟨by decide, by decide, force_spec sampleRun_returns⟩,
    reachable_wheel_is_well_formed quiet 5 sampleRun (by decide) (by decide)
      (force_spec sampleRun_returns)⟩

/-- C18: in every state that a run of `lmtimer_create`, `lmtimer_start`,
`lmtimer_stop` and ticks reaches from a freshly initialised wheel,
`running_timers` is the number of timers linked over all spoke lists, so it
is not negative, `expirations` is the number of callback invocations made so
far, and `lmtimer_start` on a timer that is linked succeeds and leaves
`running_timers` as it was. -/
theorem counters_match_lists (env : Callbacks) (fuel : Nat) (cmds : List Cmd)
    {n : Nat} {w' : World} (h0 : 0 < n) (h1 : n < 2147483648)
    (hr : runCmds env fuel cmds (wheel_init n) = .ok w') :
    ∃ slots, Abs w' slots ∧
      w'.running_timers = (linkedCount slots w'.num_spokes : Int) ∧
      0 ≤ w'.running_timers ∧
      w'.expirations = (w'.calls.length : Int) ∧
      ∀ t i, t ∈ slots i → ∀ (d : Int) (cb : Option Nat) (o a : Nat),
        ∃ w2, lmtimer_start w' t d cb o a = .ok w2 ∧
          w2.running_timers = w'.running_timers := by
  obtain ⟨⟨slots, habs, hc1, hc2⟩, _⟩ :=
    runCmds_good env fuel cmds _ w' (wheel_init_good h0 h1) hr
  refine ⟨slots, habs, hc1, by rw [hc1]; exact Int.natCast_nonneg _, hc2, ?_⟩
  intro t i hi d cb o a
  obtain ⟨pv0, nx0, pv, _, _, _, heq, _⟩ := lmtimer_start_linked habs hi d cb o a
  exact ⟨_, heq, by simp [startW, restartW, linkTail, unlinkW, setNext, setPrev, setRot, arm]⟩

/-- Witness for C18: the sample run on a wheel of eight spokes. -/
theorem counters_match_lists_witness :
    (0 < 8 ∧ 8 < 2147483648 ∧
      runCmds quiet 5 sampleRun (wheel_init 8) =
        .ok (force (runCmds quiet 5 sampleRun (wheel_init 8)))) ∧
    ∃ slots, Abs (force (runCmds quiet 5 sampleRun (wheel_init 8))) slots ∧
      (force (runCmds quiet 5 sampleRun (wheel_init 8))).running_timers =
        (linkedCount slots (force (runCmds quiet 5 sampleRun (wheel_init 8))).num_spokes : Int) ∧
      0 ≤ (force (runCmds quiet 5 sampleRun (wheel_init 8))).running_timers ∧
      (force (runCmds quiet 5 sampleRun (wheel_init 8))).expirations =
        ((force (runCmds quiet 5 sampleRun (wheel_init 8))).calls.length : Int) ∧
      ∀ t i, t ∈ slots i → ∀ (d : Int) (cb : Option Nat) (o a : Nat),
        ∃ w2, lmtimer_start (force (runCmds quiet 5 sampleRun (wheel_init 8))) t d cb o a =
            .ok w2 ∧
          w2.running_timers =
            (force (runCmds quiet 5 sampleRun (wheel_init 8))).running_timers :=
  ⟨⟨by decide, by decide, force_spec sampleRun_returns⟩,
    counters_match_lists quiet 5 sampleRun (by decide) (by decide)
      (force_spec sampleRun_returns)⟩

/-! ## The running counter along a run -/

theorem walk_body_balance (env : Callbacks) (hq : Quiet env) {w w1 : World}
    {tptr t' : Option Ptr} (h : walk_body env w tptr = .ok (w1, t')) :
    ∃ k : Nat, w1.calls.length = w.calls.length + k ∧
      w1.running_timers = w.running_timers - (k : Int) := by
  cases tptr with
  | none => simp [walk_body] at h
  | some p =>
    cases p with
    | spoke i => simp [walk_body] at h
    | timer a =>
      rw [walk_body_def] at h
      by_cases hla : w.live a = false
      · rw [if_pos hla] at h; cases h
      rw [if_neg hla] at h
      by_cases hr : 0 < w.rotation_count a
      · rw [if_pos hr] at h
        cases hrn : readNext (setRot (visit w a) a (w.rotation_count a - 1))
            (w.links_prev (.timer a)) with
        | error e => rw [hrn] at h; cases h
        | ok t1 =>
          rw [hrn] at h
          injection h with h
          injection h with h1 h2
          subst h1
          exact ⟨0, by simp [setRot, visit], by simp [setRot, visit]⟩
      rw [if_neg hr] at h
      cases hp : w.links_prev (.timer a) with
      | none => rw [hp] at h; cases h
      | some pv =>
        cases hn : w.links_next (.timer a) with
        | none => rw [hp, hn] at h; cases h
        | some nx =>
          rw [hp, hn] at h
          simp only [] at h
          by_cases hv1 : valid (visit w a) pv = false
          · rw [if_pos hv1] at h; cases h
          rw [if_neg hv1] at h
          by_cases hv2 : valid (setNext (visit w a) pv (some nx)) nx = false
          · rw [if_pos hv2] at h; cases h
          rw [if_neg hv2] at h
          cases hcb : w.cb a with
          | none => rw [hcb] at h; cases h
          | some c =>
            rw [hcb] at h
            simp only [] at h
            rw [hq c a (w.cb_argument a)] at h
            simp only [runOps] at h
            cases hrn : readNext (expireW w a pv nx c) (some pv) with
            | error e => rw [hrn] at h; cases h
            | ok t1 =>
              rw [hrn] at h
              injection h with h
              injection h with h1 h2
              subst h1
              refine ⟨1, ?_, ?_⟩
              · simp [expireW, clearLinks, unlinkW, setNext, setPrev, visit]
              · simp [expireW, clearLinks, unlinkW, setNext, setPrev, visit]

theorem walk_balance (env : Callbacks) (hq : Quiet env) (sp : Ptr) :
    ∀ (fuel : Nat) (tptr : Option Ptr) (w w' : World),
      walk env fuel sp tptr w = .ok w' →
      ∃ k : Nat, w'.calls.length = w.calls.length + k ∧
        w'.running_timers = w.running_timers - (k : Int)
  | 0, _, _, _, h => by simp [walk] at h
  | fuel + 1, tptr, w, w', h => by
    simp only [walk] at h
    split at h
    · injection h with h
      subst h
      exact ⟨0, by simp, by simp⟩
    · split at h
      · cases h
      · rename_i w1 t1 hb
        obtain ⟨k1, h1, h2⟩ := walk_body_balance env hq hb
        obtain ⟨k2, h3, h4⟩ := walk_balance env hq sp fuel t1 w1 w' h
        refine ⟨k1 + k2, by omega, ?_⟩
        rw [h4, h2]
        push_cast
        ring

/-- With callbacks that leave the wheel alone, a tick takes from
`running_timers` the number of callbacks that it invokes. -/
theorem handle_timers_balance (env : Callbacks) (hq : Quiet env) (fuel : Nat) {w w' : World}
    (h : handle_timers env fuel w = .ok w') :
    ∃ k : Nat, w'.calls.length = w.calls.length + k ∧
      w'.running_timers = w.running_timers - (k : Int) := by
  unfold handle_timers at h
  split at h
  · cases h
  · simp only [] at h
    split at h
    · cases h
    · exact walk_balance env hq _ fuel _
        (turnTo w ((w.current_spoke + 1) % w.num_spokes)) w' h

theorem isScheduled_of_mem {w : World} {slots : Nat → List Nat} (h : Abs w slots)
    {t i : Nat} (hi : t ∈ slots i) : isScheduled w t = true := by
  obtain ⟨pv, nx, hp, hn, _, _⟩ := lmtimer_stop_linked h hi
  simp [isScheduled, hp, hn]

theorem isScheduled_of_not_mem {w : World} {slots : Nat → List Nat} (h : Abs w slots)
    {t : Nat} (hl : w.live t = true) (hnot : ∀ i, t ∉ slots i) : isScheduled w t = false := by
  obtain ⟨h1, h2⟩ := idle_of_not_mem h hl hnot
  simp [isScheduled, h1, h2]

theorem lmtimer_start_running {w w' : World} {t : Nat} {d : Int} {cb : Option Nat} {o a : Nat}
    (h : Good w) (hr : lmtimer_start w t d cb o a = .ok w') :
    w'.running_timers = w.running_timers + ((if isScheduled w t then 0 else 1 : Nat) : Int) := by
  obtain ⟨slots, habs, _, _⟩ := h
  have hl : w.live t = true := by
    by_contra hc
    rw [lmtimer_start_def, if_pos (by simpa using hc)] at hr
    cases hr
  by_cases hm : ∃ i, t ∈ slots i
  · obtain ⟨i, hi⟩ := hm
    obtain ⟨pv0, nx0, pv, _, _, _, heq, _⟩ := lmtimer_start_linked habs hi d cb o a
    rw [heq] at hr
    injection hr with hr
    subst hr
    rw [isScheduled_of_mem habs hi]
    simp [startW, restartW, linkTail, unlinkW, setNext, setPrev, setRot, arm]
  · have hnot : ∀ i, t ∉ slots i := fun i hi => hm ⟨i, hi⟩
    obtain ⟨pv, _, heq, _⟩ := lmtimer_start_idle habs hl hnot d cb o a
    rw [heq] at hr
    injection hr with hr
    subst hr
    rw [isScheduled_of_not_mem habs hl hnot]
    simp [startW, linkTail, setNext, setPrev, setRot, arm]

theorem lmtimer_stop_running {w w' : World} {t : Nat} (h : Good w)
    (hr : lmtimer_stop w (some t) = .ok w') :
    w'.running_timers = w.running_timers - ((if isScheduled w t then 1 else 0 : Nat) : Int) := by
  obtain ⟨slots, habs, _, _⟩ := h
  have hl : w.live t = true := by
    by_contra hc
    simp only [lmtimer_stop] at hr
    rw [stop_unlink_def, if_pos (by simpa using hc)] at hr
    cases hr
  by_cases hm : ∃ i, t ∈ slots i
  · obtain ⟨i, hi⟩ := hm
    obtain ⟨pv, nx, _, _, heq, _⟩ := lmtimer_stop_linked habs hi
    rw [heq] at hr
    injection hr with hr
    subst hr
    rw [isScheduled_of_mem habs hi]
    simp [free, stopW, clearLinks, unlinkW, setNext, setPrev]
  · have hnot : ∀ i, t ∉ slots i := fun i hi => hm ⟨i, hi⟩
    obtain ⟨heq, _⟩ := lmtimer_stop_idle habs hl hnot
    rw [heq] at hr
    injection hr with hr
    subst hr
    rw [isScheduled_of_not_mem habs hl hnot]
    simp [free]

theorem runCmds_running (env : Callbacks) (hq : Quiet env) (fuel : Nat) :
    ∀ (cmds : List Cmd) (w w' : World), Good w → runCmds env fuel cmds w = .ok w' →
      w'.running_timers =
        w.running_timers + (schedStarts env fuel cmds w : Int) - (endings env fuel cmds w : Int)
  | [], w, w', _, hr => by
    injection hr with hr
    subst hr
    simp [schedStarts, endings]
  | c :: cs, w, w', h, hr => by
    simp only [runCmds] at hr
    cases hc : c.run env fuel w with
    | error e => rw [hc] at hr; cases hr
    | ok w1 =>
      rw [hc] at hr
      have hg1 : Good w1 := (runCmds_good env fuel [c] w w1 h (by simp [runCmds, hc])).1
      have ih := runCmds_running env hq fuel cs w1 w' hg1 hr
      rw [ih]
      simp only [schedStarts, endings, hc]
      cases c with
      | create L nm =>
        injection hc with hc
        subst hc
        simp [lmtimer_create]
      | start t d cb o a =>
        have := lmtimer_start_running h hc
        rw [this]
        push_cast
        ring
      | stop t =>
        cases t with
        | none =>
          injection hc with hc
          subst hc
          simp
        | some t =>
          have := lmtimer_stop_running h hc
          rw [this]
          push_cast
          ring
      | tick =>
        have hc' : handle_timers env fuel w = .ok w1 := hc
        obtain ⟨k, h1, h2⟩ := handle_timers_balance env hq fuel hc'
        simp only [hc']
        rw [h2, h1]
        simp
        ring

/-! ## The running counter against the calls made -/

/-- C11, counterexample: on a freshly initialised wheel a timer is created,
started, and started again while it is scheduled. The run holds two calls of
start, no stop and no expiration, and `running_timers` is 1 afterwards, not
2: the second start moves the timer and does not count it again. -/
theorem second_start_is_not_counted :
    startCalls rearmRun = 2 ∧ stopCalls rearmRun = 0 ∧
      callsOf (runCmds quiet 3 rearmRun lmtimers_init) = some [] ∧
      stateOf 0 (runCmds quiet 3 rearmRun lmtimers_init) =
        some (true, some (.spoke 5), some (.spoke 5), 0, 1, 0) := by
  refine ⟨?_, ?_, ?_, ?_⟩ <;> decide

/-- C11, amended: for every run of creates, starts, stops and ticks on a
freshly initialised wheel of `n` spokes, with callbacks that leave the wheel
alone, `running_timers` afterwards is the number of starts of a timer that
was not scheduled at the time, less the number of stops of a timer that was
scheduled at the time and of callback invocations; the latter number is never
the greater one. -/
theorem running_count_is_new_starts_minus_endings (env : Callbacks) (hq : Quiet env)
    (fuel : Nat) (cmds : List Cmd) {n : Nat} {w' : World} (h0 : 0 < n) (h1 : n < 2147483648)
    (hr : runCmds env fuel cmds (wheel_init n) = .ok w') :
    endings env fuel cmds (wheel_init n) ≤ schedStarts env fuel cmds (wheel_init n) ∧
      w'.running_timers =
        (schedStarts env fuel cmds (wheel_init n) : Int) -
          (endings env fuel cmds (wheel_init n) : Int) := by
  have hg := wheel_init_good h0 h1
  have hrun := runCmds_running env hq fuel cmds _ w' hg hr
  have h0r : (wheel_init n).running_timers = 0 := by simp [wheel_init]
  rw [h0r, zero_add] at hrun
  obtain ⟨⟨slots, _, hc, _⟩, _⟩ := runCmds_good env fuel cmds _ w' hg hr
  refine ⟨?_, hrun⟩
  have : (0 : Int) ≤ w'.running_timers := by rw [hc]; exact Int.natCast_nonneg _
  omega

/-- Witness for C11: the sample run on a wheel of eight spokes, where three
starts find the timer unscheduled and one stop and one callback end a
schedule. -/
theorem running_count_is_new_starts_minus_endings_witness :
    (Quiet quiet ∧ 0 < 8 ∧ 8 < 2147483648 ∧
      runCmds quiet 5 sampleRun (wheel_init 8) =
        .ok (force (runCmds quiet 5 sampleRun (wheel_init 8)))) ∧
    startCalls sampleRun = 5 ∧ stopCalls sampleRun = 1 ∧
    schedStarts quiet 5 sampleRun (wheel_init 8) = 3 ∧
    endings quiet 5 sampleRun (wheel_init 8) = 2 ∧
    endings quiet 5 sampleRun (wheel_init 8) ≤ schedStarts quiet 5 sampleRun (wheel_init 8) ∧
    (force (runCmds quiet 5 sampleRun (wheel_init 8))).running_timers =
      (schedStarts quiet 5 sampleRun (wheel_init 8) : Int) -
        (endings quiet 5 sampleRun (wheel_init 8) : Int) :=
  ⟨⟨quiet_is_quiet, by decide, by decide, force_spec sampleRun_returns⟩,
    by decide, by decide, by decide, by decide,
    running_count_is_new_starts_minus_endings quiet quiet_is_quiet 5 sampleRun
      (by decide) (by decide) (force_spec sampleRun_returns)⟩

/-! ## Teardown -/

/-- The node after the sentinel of a spoke is the first timer of its list, or
the sentinel when the list is empty. -/
theorem AbsX.next_of_spoke {x : Option Nat} {w : World} {slots : Nat → List Nat}
    (h : AbsX x w slots) {i : Nat} (hi : i < w.num_spokes) :
    w.links_next (.spoke i) = ((slots i).map Ptr.timer ++ [Ptr.spoke i]).head? := by
  cases hs : slots i with
  | nil => simpa using (h.empty_linked hi hs).2.2.1
  | cons a rest => simpa using (h.head_linked hi hs).2.2.1

/-- The inner loop of `lmtimers_destroy` stops the timers of one spoke in list
order and ends at the sentinel. -/
theorem destroy_spoke_spec : ∀ (l : List Nat) (w : World) (slots : Nat → List Nat) (i : Nat),
    Abs w slots → i < w.num_spokes → slots i = l →
    ∃ w', (∀ fuel, l.length + 1 ≤ fuel →
        destroy_spoke fuel (.spoke i) (w.links_next (.spoke i)) w = .ok w') ∧
      Abs w' (Function.update slots i []) ∧ w'.num_spokes = w.num_spokes ∧
      w'.running_timers = w.running_timers - (l.length : Int) ∧ w'.calls = w.calls ∧
      (∀ t, t ∈ l → w'.live t = false) ∧ (∀ t, w.live t = false → w'.live t = false)
  | [], w, slots, i, h, hi, hs => by
    refine ⟨w, ?_, ?_, rfl, by simp, rfl, fun t ht => (by cases ht), fun _ ht => ht⟩
    · intro fuel hf
      obtain ⟨f, rfl⟩ : ∃ f, fuel = f + 1 := ⟨fuel - 1, by omega⟩
      have hnx := (h.empty_linked hi hs).2.2.1
      simp [destroy_spoke, hnx]
    · have : Function.update slots i [] = slots := by
        rw [← hs]
        exact Function.update_eq_self i slots
      rw [this]
      exact h
  | a :: rest, w, slots, i, h, hi, hs => by
    have hai : a ∈ slots i := by rw [hs]; simp
    have hnx0 := (h.head_linked hi hs).2.2.1
    have hla := h.live_of_mem hai
    obtain ⟨pv, nx, _, hn, heq, habs1⟩ := lmtimer_stop_linked h hai
    have hnd : (a :: rest).Nodup := hs ▸ h.nodup i
    have hs1 : eraseT slots a i = rest := by
      simp [eraseT, hs]
    have hn1 : (free (stopW w a pv nx) a).num_spokes = w.num_spokes := (stopW_geom w a pv nx).1
    have hi1 : i < (free (stopW w a pv nx) a).num_spokes := by rw [hn1]; exact hi
    have hnext : (free (stopW w a pv nx) a).links_next (.spoke i) = some nx := by
      rw [habs1.next_of_spoke hi1, hs1]
      obtain ⟨pv', nx', _, hn', _, _, _, _, hhead, _⟩ :=
        (h.weaken (some a)).unlink (t := a) (i := i)
          (show slots i = [] ++ a :: rest by simpa using hs)
      rw [hn] at hn'
      injection hn' with hn'
      rw [hn']
      exact hhead
    obtain ⟨w', hrun, habs', hn', hrt, hcalls, hdead, hkeep⟩ :=
      destroy_spoke_spec rest _ (eraseT slots a) i habs1 hi1 hs1
    refine ⟨w', ?_, ?_, hn'.trans hn1, ?_, ?_, ?_, ?_⟩
    · intro fuel hf
      obtain ⟨f, rfl⟩ : ∃ f, fuel = f + 1 := ⟨fuel - 1, by simp at hf; omega⟩
      have hf' : rest.length + 1 ≤ f := by simp at hf; omega
      have := hrun f hf'
      rw [hnext] at this
      rw [hnx0]
      simp only [destroy_spoke]
      rw [if_neg (by simp), if_neg (by simp [hla]), heq]
      simp only []
      rw [hn]
      exact this
    · have : Function.update (eraseT slots a) i [] = Function.update slots i [] := by
        funext j
        by_cases hj : j = i
        · subst hj
          simp
        · rw [Function.update_noteq hj, Function.update_noteq hj]
          have : a ∉ slots j := fun hc => hj (h.disj j i a hc hai)
          simp [eraseT, List.erase_of_not_mem this]
      rw [← this]
      exact habs'
    · rw [hrt]
      have : (free (stopW w a pv nx) a).running_timers = w.running_timers - 1 := by
        simp [free, stopW, clearLinks, unlinkW, setNext, setPrev]
      rw [this]
      simp only [List.length_cons]
      push_cast
      ring
    · rw [hcalls]
      simp [free, stopW, clearLinks, unlinkW, setNext, setPrev]
    · intro t ht
      rcases List.mem_cons.1 ht with rfl | ht
      · exact hkeep _ (by simp [free])
      · exact hdead t ht
    · intro t ht
      apply hkeep
      by_cases hta : t = a
      · subst hta
        simp [free]
      · simp [free, stopW, clearLinks, unlinkW, setNext, setPrev, Function.update_noteq hta, ht]

/-- The outer loop of `lmtimers_destroy` over the spokes `i .. i+count-1`. -/
theorem destroy_spokes_spec : ∀ (count i : Nat) (w : World) (slots : Nat → List Nat),
    Abs w slots → i + count ≤ w.num_spokes →
    ∃ w' F, (∀ fuel, F ≤ fuel → destroy_spokes fuel count i w = .ok w') ∧
      Abs w' (fun j => if i ≤ j ∧ j < i + count then [] else slots j) ∧
      w'.num_spokes = w.num_spokes ∧
      w'.running_timers + (linkedCount slots (i + count) : Int) =
        w.running_timers + (linkedCount slots i : Int) ∧
      w'.calls = w.calls ∧
      (∀ t j, i ≤ j → j < i + count → t ∈ slots j → w'.live t = false) ∧
      (∀ t, w.live t = false → w'.live t = false)
  | 0, i, w, slots, h, _ => by
    refine ⟨w, 0, fun _ _ => rfl, ?_, rfl, rfl, rfl, fun t j h1 h2 => (by omega), fun _ ht => ht⟩
    have : (fun j => if i ≤ j ∧ j < i + 0 then [] else slots j) = slots := by
      funext j
      rw [if_neg (by omega)]
    rw [this]
    exact h
  | count + 1, i, w, slots, h, hle => by
    have hi : i < w.num_spokes := by omega
    obtain ⟨w1, hrun1, habs1, hn1, hrt1, hcalls1, hdead1, hkeep1⟩ :=
      destroy_spoke_spec (slots i) w slots i h hi rfl
    obtain ⟨w', F, hrun, habs', hn', hrt, hcalls, hdead, hkeep⟩ :=
      destroy_spokes_spec count (i + 1) w1 (Function.update slots i []) habs1
        (by rw [hn1]; omega)
    refine ⟨w', max ((slots i).length + 1) F, ?_, ?_, hn'.trans hn1, ?_, hcalls.trans hcalls1,
      ?_, fun t ht => hkeep t (hkeep1 t ht)⟩
    · intro fuel hf
      have hf1 : (slots i).length + 1 ≤ fuel := le_trans (le_max_left _ _) hf
      have hf2 : F ≤ fuel := le_trans (le_max_right _ _) hf
      simp only [destroy_spokes]
      rw [if_neg (by simp [valid, hi]), hrun1 fuel hf1]
      exact hrun fuel hf2
    · have : (fun j => if i + 1 ≤ j ∧ j < i + 1 + count then []
          else Function.update slots i [] j) =
          (fun j => if i ≤ j ∧ j < i + (count + 1) then [] else slots j) := by
        funext j
        by_cases hj : j = i
        · subst hj
          rw [if_neg (by omega), if_pos (by omega)]
          simp
        · rw [Function.update_noteq hj]
          by_cases hc : i + 1 ≤ j ∧ j < i + 1 + count
          · rw [if_pos hc, if_pos (by omega)]
          · rw [if_neg hc, if_neg (by omega)]
      rw [← this]
      exact habs'
    · have e1 := linkedCount_update_nil slots (c := i) (n := i + 1 + count) (by omega)
      have e2 := linkedCount_update_nil slots (c := i) (n := i + 1) (by omega)
      have e3 : linkedCount slots (i + 1) = linkedCount slots i + (slots i).length := rfl
      have e4 : i + (count + 1) = i + 1 + count := by omega
      rw [e4]
      rw [hrt1] at hrt
      have e1' : (linkedCount (Function.update slots i []) (i + 1 + count) : Int) +
          ((slots i).length : Int) = (linkedCount slots (i + 1 + count) : Int) := by
        exact_mod_cast e1
      have e2' : (linkedCount (Function.update slots i []) (i + 1) : Int) +
          ((slots i).length : Int) = (linkedCount slots (i + 1) : Int) := by
        exact_mod_cast e2
      have e3' : (linkedCount slots (i + 1) : Int) =
          (linkedCount slots i : Int) + ((slots i).length : Int) := by
        exact_mod_cast e3
      linarith
    · intro t j h1 h2 ht
      by_cases hj : j = i
      · subst hj
        exact hkeep t (hdead1 t ht)
      · apply hdead t j (by omega) (by omega)
        rw [Function.update_noteq hj]
        exact ht

theorem bigStarted_spec :
    lmtimer_start (created 1) 0 5 (some 1) 0 0 = .ok bigStarted ∧
      Abs bigStarted (appendT (fun _ => []) (slotOf (created 1) 5) 0) := by
  obtain ⟨pv, hpv, heq, habs⟩ := lmtimer_start_idle created_one_abs created_one_live
    (no_timer_linked 0) 5 (some 1) 0 0
  have hlk := created_one_abs.empty_linked (i := slotOf (created 1) 5)
    (slotOf_lt created_one_abs 5) rfl
  rw [hlk.2.2.2] at hpv
  injection hpv with hpv
  subst hpv
  exact ⟨heq, habs⟩

/-- C13: on a well-formed wheel of `WHEEL_SIZE` spokes the walk of
`lmtimers_destroy` returns, given fuel enough, without ever reading a link of
a timer that was stopped (that read is a fault here): afterwards every spoke
list is empty, each sentinel being its own neighbour on both sides, every
timer that was linked is freed, `running_timers` is less by the number of
timers that were linked, and the record of callback invocations is the same,
so no callback was invoked. -/
theorem destroy_stops_every_scheduled_timer {w : World} {slots : Nat → List Nat}
    (h : Abs w slots) (hn : w.num_spokes = WHEEL_SIZE) :
    ∃ w' F, (∀ fuel, F ≤ fuel → lmtimers_destroy fuel w = .ok w') ∧
      Abs w' (fun _ => []) ∧
      (∀ i, i < WHEEL_SIZE → w'.links_next (.spoke i) = some (.spoke i) ∧
        w'.links_prev (.spoke i) = some (.spoke i)) ∧
      w'.running_timers = w.running_timers - (linkedCount slots WHEEL_SIZE : Int) ∧
      w'.calls = w.calls ∧
      (∀ t i, t ∈ slots i → w'.live t = false) := by
  obtain ⟨w', F, hrun, habs, hn', hrt, hcalls, hdead, _⟩ :=
    destroy_spokes_spec WHEEL_SIZE 0 w slots h (by rw [hn]; omega)
  have hsl : (fun j => if 0 ≤ j ∧ j < 0 + WHEEL_SIZE then [] else slots j) =
      (fun _ => ([] : List Nat)) := by
    funext j
    by_cases hj : j < WHEEL_SIZE
    · rw [if_pos ⟨Nat.zero_le j, by omega⟩]
    · rw [if_neg (by omega)]
      exact h.out j (by rw [hn]; omega)
  rw [hsl] at habs
  refine ⟨w', F, fun fuel hf => hrun fuel hf, habs, ?_, ?_, hcalls, ?_⟩
  · intro i hi
    have hl := habs.empty_linked (i := i) (by rw [hn', hn]; exact hi) rfl
    exact ⟨hl.2.2.1, hl.2.2.2⟩
  · have e : (0 : Nat) + WHEEL_SIZE = WHEEL_SIZE := Nat.zero_add _
    rw [e] at hrt
    have e0 : (linkedCount slots 0 : Int) = 0 := rfl
    rw [e0] at hrt
    linarith
  · intro t i hti
    have hi := h.lt_of_mem hti
    exact hdead t i (Nat.zero_le i) (by rw [hn] at hi; omega) hti

theorem bigStarted_count :
    linkedCount (appendT (fun _ => []) (slotOf (created 1) 5) 0) WHEEL_SIZE = 1 := by
  have hp : slotOf (created 1) 5 < WHEEL_SIZE := slotOf_lt created_one_abs 5
  rw [linkedCount_appendT (fun _ => []) 0 hp, linkedCount_nil]

/-- Witness for C13: the wheel of `WHEEL_SIZE` spokes with one timer
scheduled. -/
theorem destroy_stops_every_scheduled_timer_witness :
    (Abs bigStarted (appendT (fun _ => []) (slotOf (created 1) 5) 0) ∧
      bigStarted.num_spokes = WHEEL_SIZE) ∧
    linkedCount (appendT (fun _ => []) (slotOf (created 1) 5) 0) WHEEL_SIZE = 1 ∧
    ∃ w' F, (∀ fuel, F ≤ fuel → lmtimers_destroy fuel bigStarted = .ok w') ∧
      Abs w' (fun _ => []) ∧
      (∀ i, i < WHEEL_SIZE → w'.links_next (.spoke i) = some (.spoke i) ∧
        w'.links_prev (.spoke i) = some (.spoke i)) ∧
      w'.running_timers = bigStarted.running_timers -
        (linkedCount (appendT (fun _ => []) (slotOf (created 1) 5) 0) WHEEL_SIZE : Int) ∧
      w'.calls = bigStarted.calls ∧
      (∀ t i, t ∈ appendT (fun _ => []) (slotOf (created 1) 5) 0 i → w'.live t = false) :=
  ⟨⟨bigStarted_spec.2, (startW_geom _ _ _ _ _ _ _).1⟩, bigStarted_count,
    destroy_stops_every_scheduled_timer bigStarted_spec.2 (startW_geom _ _ _ _ _ _ _).1⟩

/-! ## Starting a timer from a callback into the spoke being walked -/

/-- The callback of timer `0` starts the idle timer `1` with duration 0: the
timer joins the spoke being walked and its callback is invoked within the
same tick. -/
theorem start_zero_in_callback_fires_in_same_tick :
    callsOf (script [fun w => lmtimer_start w 0 1 (some 1) 0 0,
      handle_timers startsZero 6] (created 2)) = some [⟨1, 0, 0⟩, ⟨2, 1, 0⟩] := by
  decide

/-- An iteration on a timer whose callback starts it again with duration 0
leaves the loop where it was. -/
theorem walk_body_rearm_at_once {w : World} {a : Nat} (h : Spinning w a) :
    ∃ w1, walk_body rearmsAtOnce w (some (.timer a)) = .ok (w1, some (.timer a)) ∧
      Spinning w1 a ∧ w1.current_spoke = w.current_spoke := by
  obtain ⟨slots, habs, hs, hrot, hcb⟩ := h
  obtain ⟨nx, hhead, habsE, heq⟩ := walk_body_expire rearmsAtOnce habs hs (by rw [hrot]; decide)
  have hnx : nx = .spoke w.current_spoke := by
    simp at hhead
    exact hhead.symm
  subst hnx
  have hE := habsE 1
  have hla : w.live a = true := habs.live_of_mem (i := w.current_spoke) (by rw [hs]; simp)
  have hlE : (expireW w a (.spoke w.current_spoke) (.spoke w.current_spoke) 1).live a = true := by
    simpa [expireW, clearLinks, unlinkW, setNext, setPrev, visit] using hla
  have hcurE : (expireW w a (.spoke w.current_spoke) (.spoke w.current_spoke) 1).current_spoke =
      w.current_spoke := by
    simp [expireW, clearLinks, unlinkW, setNext, setPrev, visit]
  have hnE : (expireW w a (.spoke w.current_spoke) (.spoke w.current_spoke) 1).num_spokes =
      w.num_spokes := by
    simp [expireW, clearLinks, unlinkW, setNext, setPrev, visit]
  rw [hcb] at heq
  simp only [rearmsAtOnce, if_true, runOps, Op.run] at heq
  have hcur := habs.cur
  have hnd := not_mem_eraseT habs a
  have hsE : eraseT slots a w.current_spoke = [] := by simp [eraseT, hs]
  clear habsE hhead hla hcb hrot
  generalize expireW w a (.spoke w.current_spoke) (.spoke w.current_spoke) 1 = wE at *
  have hslot : slotOf wE 0 = w.current_spoke := by
    have := slotOf_nat hE (d := 0) (by decide)
    simp only [Nat.cast_zero, Nat.zero_mod, Nat.add_zero] at this
    rw [this, hcurE, hnE]
    exact Nat.mod_eq_of_lt hcur
  have hrotE : rotOf wE 0 = 0 := by
    have := rotOf_nat hE (d := 0) (by decide)
    simpa using this
  obtain ⟨pv, _, hstart, habsS⟩ := lmtimer_start_idle hE hlE hnd 0 (some 1) 0 0
  rw [hslot] at habsS
  have hsS : appendT (eraseT slots a) w.current_spoke a w.current_spoke = [a] := by
    simp [appendT, hsE]
  have hcurS : (startW wE a 0 (some 1) 0 0 pv).current_spoke = w.current_spoke :=
    (startW_geom _ _ _ _ _ _ _).2.trans hcurE
  have hnS : (startW wE a 0 (some 1) 0 0 pv).num_spokes = w.num_spokes :=
    (startW_geom _ _ _ _ _ _ _).1.trans hnE
  have hrotS : (startW wE a 0 (some 1) 0 0 pv).rotation_count a = 0 := by
    have : (startW wE a 0 (some 1) 0 0 pv).rotation_count a = rotOf wE 0 := by
      simp [startW, linkTail, setNext, setPrev, setRot, arm]
    rw [this, hrotE]
  have hcbS : (startW wE a 0 (some 1) 0 0 pv).cb a = some 1 := by
    simp [startW, linkTail, setNext, setPrev, setRot, arm]
  have hlk := habsS.head_linked (i := w.current_spoke) (hnS.symm ▸ hcur) hsS
  rw [hstart] at heq
  simp only [readNext] at heq
  generalize startW wE a 0 (some 1) 0 0 pv = wS at *
  rw [if_neg (by simp [hlk.1]), hlk.2.2.1] at heq
  exact ⟨wS, heq, ⟨_, habsS, by rw [hcurS]; exact hsS, hrotS, hcbS⟩, hcurS⟩

/-- The loop of `handle_timers` on a timer whose callback starts it again
with duration 0 uses up every amount of fuel. -/
theorem walk_rearm_at_once : ∀ (fuel : Nat) (w : World) (a : Nat), Spinning w a →
    walk rearmsAtOnce fuel (.spoke w.current_spoke) (some (.timer a)) w = .error .fuel
  | 0, _, _, _ => rfl
  | fuel + 1, w, a, h => by
    obtain ⟨w1, heq, hsp, hcur⟩ := walk_body_rearm_at_once h
    simp only [walk]
    rw [if_neg (by simp), heq]
    simp only []
    rw [← hcur]
    exact walk_rearm_at_once fuel w1 a hsp

/-- A callback that starts its own timer again with duration 0 on every
expiry keeps the tick from returning: on the wheel of eight spokes with timer
`0` started with duration 1, the first tick runs out of every amount of
fuel. -/
theorem rearm_at_once_never_returns (fuel : Nat) :
    handle_timers rearmsAtOnce fuel (startedAt 1) = .error .fuel := by
  have habs := (startedAt_spec 1).2
  rw [handle_timers_eq habs]
  have hturn : Abs (turnTo (startedAt 1) (nextSpoke (startedAt 1)))
      (appendT (fun _ => []) (slotOf oneTimer 1) 0) := habs.turn (nextSpoke_lt habs)
  have hsp : Spinning (turnTo (startedAt 1) (nextSpoke (startedAt 1))) 0 := by
    refine ⟨_, hturn, ?_, by decide, by decide⟩
    show appendT (fun _ => []) (slotOf oneTimer 1) 0 (nextSpoke (startedAt 1)) = [0]
    rw [startedAt_next]
    simp [appendT]
  have hnx := (hturn.head_linked (i := nextSpoke (startedAt 1)) (nextSpoke_lt habs)
    (show appendT (fun _ => []) (slotOf oneTimer 1) 0 (nextSpoke (startedAt 1)) = [0] by
      rw [startedAt_next]; simp [appendT])).2.2.1
  have hnx' : (startedAt 1).links_next (.spoke (nextSpoke (startedAt 1))) =
      some (.timer 0) := hnx
  rw [hnx']
  exact walk_rearm_at_once fuel (turnTo (startedAt 1) (nextSpoke (startedAt 1))) 0 hsp

end Timers
